import Mathlib

/-!
# bitepy: result surface, parameters, order book, ingestion and settlement

A verification development for `simon-hirsch/bitepy`.  The repository exposes a C++
simulation core through two pybind11 modules (`src/bite/_bite.cpp`,
`src/bitepy/_bite.cpp`).  The record classes of `src/include/*.h` and the two binding
lambdas `getLogs` and `return_vol_price_pairs` are embedded from the source, as is the chain
of properties that each module defines on `SimulationParameters`.  The core itself (order
ingestion, order book, DP solver, decision translator, settlement) sits behind the private
`Simulation::Impl` and is not part of `src/`; the parts of it that the statements below need
(ingestion, order book, settlement) are modelled from the spec, each such definition saying
so.

Conventions of the embedding

* `int`, `int32_t`, `int64_t` fields are carried as `Int`; the embedded code never does
  integer arithmetic on them (they are only copied or converted to `double`), so no
  wrap-around can occur.  Where the 32-bit range matters it is a hypothesis (`IsInt32`).
* `double` is carried by the type `Double` below: NaN, the two infinities, and the finite
  values, a finite value being represented by the rational number it denotes.  Division is
  IEEE-754 binary64 division (round to nearest, ties to even, gradual underflow, overflow
  to infinity).  The sign of a zero is not represented.
* a Python `dict` is the list of its items in insertion order, a Python `list` is a `List`,
  a Python `tuple` is a Lean tuple.
* functions that are declared in the headers but defined outside `src/` (the
  `epochTo...` formatters, the getters of `Simulation`) are parameters.

The file has two parts: definitions, then theorems.
-/

/-! ## Data model (`src/include/*.h`) -/

/-- The enum `LimitOrder::Type` of `LimitOrder.h` (the name `Type` is reserved in Lean). -/
inductive OrderType where
  | Sell
  | Buy
deriving DecidableEq, Repr

/-- The class `LimitOrder` of `LimitOrder.h`. -/
structure LimitOrder where
  id : Int
  initialId : Int
  start : Int
  cancel : Int
  delivery : Int
  type : OrderType
  price : Int
  volume : Int
deriving DecidableEq, Repr

/-- The class `LogLimitOrder` of `LogLimitOrder.h`; the member `partial` is called
`partialFlag` here because `partial` is a reserved word. -/
structure LogLimitOrder where
  time : Int
  id : Int
  initialId : Int
  start : Int
  cancel : Int
  delivery : Int
  type : OrderType
  price : Int
  volume : Int
  partialFlag : Bool
  partialVolume : Int
deriving DecidableEq, Repr

/-- The class `LogAcceptedOrder` of `LogAcceptedOrder.h`, a `LogLimitOrder` extended by the
index of the DP run. -/
structure LogAcceptedOrder extends LogLimitOrder where
  _dpRun : Int
deriving DecidableEq, Repr

/-! ### IEEE-754 binary64 -/

/-- A value of the C++ type `double`.  `finite q` is the finite double whose value is the
rational `q`. -/
inductive Double where
  | nan
  | inf (negative : Bool)
  | finite (q : ℚ)
deriving DecidableEq

/-- Rounding of the non-negative rational `a / b` to an integer, ties to even. -/
def roundHalfEven (a b : Nat) : Nat :=
  let q := a / b
  let r := a % b
  if 2 * r < b then q
  else if b < 2 * r then q + 1
  else if q % 2 = 0 then q else q + 1

/-- Worker of `ilog2`, recursing on a fuel argument. -/
def ilog2Aux : Nat → Nat → Nat
  | 0, _ => 0
  | fuel + 1, n => if n < 2 then 0 else ilog2Aux fuel (n / 2) + 1

/-- Position of the leading bit: `2 ^ ilog2 n ≤ n < 2 ^ (ilog2 n + 1)` for `n ≠ 0`. -/
def ilog2 (n : Nat) : Nat := ilog2Aux n n

/-- Numerator of `n / d * 2 ^ k` written as a fraction of naturals. -/
def scaledNum (n : Nat) (k : Int) : Nat := n * 2 ^ k.toNat

/-- Denominator of `n / d * 2 ^ k` written as a fraction of naturals. -/
def scaledDen (d : Nat) (k : Int) : Nat := d * 2 ^ (-k).toNat

/-- First guess of the binary scale of `n / d`: the integer part of `n / d * 2 ^ k0` has 53
or 54 bits. -/
def guessExp (n d : Nat) : Int := 53 + (ilog2 d : Int) - (ilog2 n : Int)

/-- The binary scale `k` of a normal number: the integer part of `n / d * 2 ^ k` has exactly
53 bits. -/
def normExp (n d : Nat) : Int :=
  if 2 ^ 53 * scaledDen d (guessExp n d) ≤ scaledNum n (guessExp n d)
  then guessExp n d - 1 else guessExp n d

/-- The binary scale `k` at which the positive rational `n / d` is rounded: that of a normal
number, except that `k` never exceeds 1074 (doubles are multiples of `2 ^ (-1074)`; below
`2 ^ (-1022)` they are subnormal). -/
def binExp (n d : Nat) : Int := min (normExp n d) 1074

/-- The integer significand of the double nearest to the positive rational `n / d`. -/
def roundMant (n d : Nat) : Nat :=
  roundHalfEven (scaledNum n (binExp n d)) (scaledDen d (binExp n d))

/-- Round-to-nearest-even of a positive rational with unbounded exponent range upwards. -/
def roundPos (q : ℚ) : ℚ :=
  (roundMant q.num.natAbs q.den : ℚ) / (2 : ℚ) ^ binExp q.num.natAbs q.den

/-- The double that IEEE-754 arithmetic returns for the exact result `q`. -/
def roundToDouble (q : ℚ) : Double :=
  if q = 0 then Double.finite 0
  else if (2 : ℚ) ^ 1024 ≤ roundPos |q| then Double.inf (decide (q < 0))
  else Double.finite (if q < 0 then -roundPos |q| else roundPos |q|)

/-- Conversion of a 32-bit `int` to `double`, which is exact. -/
def Double.ofInt32 (n : Int) : Double := Double.finite n

/-- The double literal with an integral value, such as `100.0`. -/
def Double.lit (n : Nat) : Double := Double.finite n

/-- IEEE-754 division `x / y` of doubles. -/
def Double.div : Double → Double → Double
  | Double.nan, _ => Double.nan
  | _, Double.nan => Double.nan
  | Double.inf _, Double.inf _ => Double.nan
  | Double.inf s, Double.finite b => Double.inf (xor s (decide (b < 0)))
  | Double.finite _, Double.inf _ => Double.finite 0
  | Double.finite a, Double.finite b =>
    if b = 0 then (if a = 0 then Double.nan else Double.inf (decide (a < 0)))
    else roundToDouble (a / b)

instance : Div Double := ⟨Double.div⟩

/-- The class `ExecMarketOrder` of `ExecMarketOrder.h`. -/
structure ExecMarketOrder where
  dpRun : Int
  time : Int
  lastSolveTime : Int
  hour : Int
  reward : Int
  rewardInclDegCosts : Int
  volume : Int
  type : OrderType
  finalPos : Int
  finalStor : Double
  praeFinalPos : Int
  praeFinalStor : Double
  praeInitStorage : Double
deriving DecidableEq

/-- The class `ForeLogOrder` of `ForeLogOrder.h`. -/
structure ForeLogOrder where
  dpRun : Int
  time : Int
  lastSolveTime : Int
  hour : Int
  reward : Int
  volume : Int
  volumePrevious : Int
deriving DecidableEq, Repr

/-- The class `BalancingOrder` of `BalancingOrder.h`. -/
structure BalancingOrder where
  dpRun : Int
  time : Int
  hour : Int
  volume : Double
deriving DecidableEq

/-- The struct `simulation::DecisionRecord` of `Simulation.h`. -/
structure DecisionRecord where
  hour : Int
  storage : Double
  position : Double
  finalReward : Double
  realReward : Double
  realRewardNoDeg : Double
deriving DecidableEq

/-- The struct `simulation::PriceChart` of `Simulation.h`. -/
structure PriceChart where
  hour : Int
  low : Double
  high : Double
  last : Double
  wavg : Double
  id3 : Double
  id1 : Double
  volume : Double
deriving DecidableEq

/-- A `std::map<K, V>`, given by its items in iteration order. -/
abbrev StdMap (K V : Type) := List (K × V)

/-- The invariant of `std::map`: iteration visits the keys in strictly increasing order. -/
def StdMap.WF {K V : Type} [LT K] (m : StdMap K V) : Prop :=
  List.Pairwise (fun a b => a.1 < b.1) m

/-- The lookup `std::map::find`. -/
def StdMap.find {K V : Type} [DecidableEq K] (m : StdMap K V) (k : K) : Option V :=
  (List.find? (fun kv => decide (kv.1 = k)) m).map Prod.snd

/-- The result type of `Simulation::return_vol_price_pairs`. -/
abbrev VolPriceMap := StdMap Int (StdMap Int (StdMap Int (Int × Int)))

/-- The part of the class `Simulation` (`Simulation.h`) that the result surface reads: the
values returned by its getters and by `return_vol_price_pairs`.  The getters are defined
outside `src/`; their element types are the record classes whose members the bindings
read. -/
structure Simulation where
  getDecisionData : List DecisionRecord
  getPriceData : List PriceChart
  getAccOrders : List LogAcceptedOrder
  getExOrders : List ExecMarketOrder
  getForeOrders : List ForeLogOrder
  getRemOrders : List ExecMarketOrder
  getBalOrders : List BalancingOrder
  return_vol_price_pairs : Bool → Int → List Int → VolPriceMap

/-- The static formatting members declared in the record classes and defined outside
`src/`: each turns epoch milliseconds into a string. -/
structure EpochFormat where
  LogAcceptedOrder_epochToLocalDateTimeMS : Int → String
  LogAcceptedOrder_epochToLocalDateTime : Int → String
  ExecMarketOrder_epochToDateTimeMS : Int → String
  ExecMarketOrder_epochToDateTime : Int → String
  ForeLogOrder_epochToDateTimeMS : Int → String
  ForeLogOrder_epochToDateTime : Int → String
  BalancingOrder_epochToDateTimeMS : Int → String
  BalancingOrder_epochToDateTime : Int → String

/-! ## Python values -/

/-- The Python objects that the bindings store in a record. -/
inductive PyValue where
  | int (n : Int)
  | float (x : Double)
  | str (s : String)
  | bool (b : Bool)
deriving DecidableEq

/-- A `py::dict` with string keys: its items in insertion order. -/
abbrev PyDict := List (String × PyValue)

/-- The assignment `d[k] = v`: replaces the value of an existing key in place, otherwise
appends the item. -/
def PyDict.setItem : PyDict → String → PyValue → PyDict
  | [], k, v => [(k, v)]
  | (k0, v0) :: d, k, v => if k0 = k then (k0, v) :: d else (k0, v0) :: PyDict.setItem d k v

/-- The lookup `d[k]`. -/
def PyDict.getItem (d : PyDict) (k : String) : Option PyValue :=
  (List.find? (fun kv => decide (kv.1 = k)) d).map Prod.snd

/-- A fresh `py::dict` followed by the assignments `d[k] = v` of the list, in order. -/
def PyDict.assign (items : List (String × PyValue)) : PyDict :=
  items.foldl (fun d kv => PyDict.setItem d kv.1 kv.2) []

/-- The string reported for a side: `type == LimitOrder::Type::Buy ? "Buy" : "Sell"`. -/
def sideString (t : OrderType) : String := if t = OrderType.Buy then "Buy" else "Sell"

/-! ## The binding `src/bite/_bite.cpp` -/

namespace BiteBinding

/-- Body of the first loop of `getLogs` (lines 155-166): the dict of a decision record.
The key `final_reward` is commented out in the source. -/
def decisionRecord (record : DecisionRecord) : PyDict :=
  PyDict.assign [
    ("hour", PyValue.int record.hour),
    ("storage", PyValue.float record.storage),
    ("position", PyValue.float record.position),
    ("real_reward", PyValue.float record.realReward),
    ("real_reward_no_deg", PyValue.float record.realRewardNoDeg)]

/-- Body of the second loop of `getLogs` (lines 170-182): the dict of a price record. -/
def priceRecord (record : PriceChart) : PyDict :=
  PyDict.assign [
    ("hour", PyValue.int record.hour),
    ("low", PyValue.float record.low),
    ("high", PyValue.float record.high),
    ("last", PyValue.float record.last),
    ("wavg", PyValue.float record.wavg),
    ("id3", PyValue.float record.id3),
    ("id1", PyValue.float record.id1),
    ("volume", PyValue.float record.volume)]

/-- Body of the third loop of `getLogs` (lines 185-202): the dict of an accepted order. -/
def accOrderRecord (fmt : EpochFormat) (record : LogAcceptedOrder) : PyDict :=
  PyDict.assign [
    ("dp_run", PyValue.int record._dpRun),
    ("time", PyValue.str (fmt.LogAcceptedOrder_epochToLocalDateTimeMS record.time)),
    ("id", PyValue.int record.id),
    ("initial_id", PyValue.int record.initialId),
    ("start", PyValue.str (fmt.LogAcceptedOrder_epochToLocalDateTimeMS record.start)),
    ("cancel", PyValue.str (fmt.LogAcceptedOrder_epochToLocalDateTimeMS record.cancel)),
    ("delivery", PyValue.str (fmt.LogAcceptedOrder_epochToLocalDateTime record.delivery)),
    ("type", PyValue.str (sideString record.type)),
    ("price", PyValue.float (Double.ofInt32 record.price / Double.lit 100)),
    ("volume", PyValue.float (Double.ofInt32 record.volume / Double.lit 10)),
    ("partial", PyValue.bool record.partialFlag),
    ("partial_volume", PyValue.float (Double.ofInt32 record.partialVolume / Double.lit 10))]

/-- Body of the fourth loop of `getLogs` (lines 205-223): the dict of an executed order.
The three `prae_...` keys are commented out in the source. -/
def execOrderRecord (fmt : EpochFormat) (record : ExecMarketOrder) : PyDict :=
  PyDict.assign [
    ("dp_run", PyValue.int record.dpRun),
    ("time", PyValue.str (fmt.ExecMarketOrder_epochToDateTimeMS record.time)),
    ("last_solve_time", PyValue.str (fmt.ExecMarketOrder_epochToDateTimeMS record.lastSolveTime)),
    ("hour", PyValue.str (fmt.ExecMarketOrder_epochToDateTime record.hour)),
    ("reward", PyValue.float (Double.ofInt32 record.reward / Double.lit 1000)),
    ("reward_incl_deg_costs",
      PyValue.float (Double.ofInt32 record.rewardInclDegCosts / Double.lit 1000)),
    ("volume", PyValue.float (Double.ofInt32 record.volume / Double.lit 10)),
    ("type", PyValue.str (sideString record.type)),
    ("final_pos", PyValue.float (Double.ofInt32 record.finalPos / Double.lit 10)),
    ("final_stor", PyValue.float (record.finalStor / Double.lit 10))]

/-- Body of the fifth loop of `getLogs` (lines 226-238): the dict of a forecast order. -/
def foreOrderRecord (fmt : EpochFormat) (record : ForeLogOrder) : PyDict :=
  PyDict.assign [
    ("dp_run", PyValue.int record.dpRun),
    ("time", PyValue.str (fmt.ForeLogOrder_epochToDateTimeMS record.time)),
    ("last_solve_time", PyValue.str (fmt.ForeLogOrder_epochToDateTimeMS record.lastSolveTime)),
    ("hour", PyValue.str (fmt.ForeLogOrder_epochToDateTime record.hour)),
    ("reward", PyValue.float (Double.ofInt32 record.reward / Double.lit 1000)),
    ("volume", PyValue.float (Double.ofInt32 record.volume / Double.lit 10)),
    ("volume_previous", PyValue.float (Double.ofInt32 record.volumePrevious / Double.lit 10))]

/-- Body of the sixth loop of `getLogs` (lines 241-259): the dict of a removed order,
an `ExecMarketOrder` like an executed one. -/
def removedOrderRecord (fmt : EpochFormat) (record : ExecMarketOrder) : PyDict :=
  PyDict.assign [
    ("dp_run", PyValue.int record.dpRun),
    ("time", PyValue.str (fmt.ExecMarketOrder_epochToDateTimeMS record.time)),
    ("last_solve_time", PyValue.str (fmt.ExecMarketOrder_epochToDateTimeMS record.lastSolveTime)),
    ("hour", PyValue.str (fmt.ExecMarketOrder_epochToDateTime record.hour)),
    ("reward", PyValue.float (Double.ofInt32 record.reward / Double.lit 1000)),
    ("reward_incl_deg_costs",
      PyValue.float (Double.ofInt32 record.rewardInclDegCosts / Double.lit 1000)),
    ("volume", PyValue.float (Double.ofInt32 record.volume / Double.lit 10)),
    ("type", PyValue.str (sideString record.type)),
    ("final_pos", PyValue.float (Double.ofInt32 record.finalPos / Double.lit 10)),
    ("final_stor", PyValue.float (record.finalStor / Double.lit 10))]

/-- Body of the seventh loop of `getLogs` (lines 262-271): the dict of a balancing
order. -/
def balOrderRecord (fmt : EpochFormat) (record : BalancingOrder) : PyDict :=
  PyDict.assign [
    ("dp_run", PyValue.int record.dpRun),
    ("time", PyValue.str (fmt.BalancingOrder_epochToDateTimeMS record.time)),
    ("hour", PyValue.str (fmt.BalancingOrder_epochToDateTime record.hour)),
    ("volume", PyValue.float (record.volume / Double.lit 10))]

/-- The lambda bound to `getLogs` (lines 151-274): seven range-for loops, each
appending one dict per element to a fresh `py::list`, and the 7-tuple of the lists. -/
def getLogs (fmt : EpochFormat) (self : Simulation) :
    List PyDict × List PyDict × List PyDict × List PyDict × List PyDict × List PyDict ×
      List PyDict :=
  let decisionRec := self.getDecisionData.foldl
    (fun acc record => acc ++ [decisionRecord record]) []
  let priceRec := self.getPriceData.foldl
    (fun acc record => acc ++ [priceRecord record]) []
  let accOrderList := self.getAccOrders.foldl
    (fun acc record => acc ++ [accOrderRecord fmt record]) []
  let execOrderList := self.getExOrders.foldl
    (fun acc record => acc ++ [execOrderRecord fmt record]) []
  let foreOrderList := self.getForeOrders.foldl
    (fun acc record => acc ++ [foreOrderRecord fmt record]) []
  let removedOrdersList := self.getRemOrders.foldl
    (fun acc record => acc ++ [removedOrderRecord fmt record]) []
  let balOrderList := self.getBalOrders.foldl
    (fun acc record => acc ++ [balOrderRecord fmt record]) []
  (decisionRec, priceRec, accOrderList, execOrderList, foreOrderList, removedOrdersList,
    balOrderList)

/-- Body of the innermost loop of `return_vol_price_pairs` (lines 283-289). -/
def volPriceRecord (fmt : EpochFormat) (currTime delHour volume : Int) (price : Int × Int) :
    PyDict :=
  PyDict.assign [
    ("current_time", PyValue.str (fmt.ExecMarketOrder_epochToDateTimeMS currTime)),
    ("delivery_hour", PyValue.str (fmt.ExecMarketOrder_epochToDateTime delHour)),
    ("volume", PyValue.float (Double.ofInt32 volume / Double.lit 10)),
    ("price_full", PyValue.float (Double.ofInt32 price.1 / Double.lit 1000)),
    ("worst_accepted_price", PyValue.float (Double.ofInt32 price.2 / Double.lit 100))]

/-- The lambda bound to `return_vol_price_pairs` (lines 276-296): three nested range-for
loops over the nested map returned by the core, appending one dict per innermost item. -/
def return_vol_price_pairs (fmt : EpochFormat) (self : Simulation) (last : Bool)
    (frequency : Int) (volumes : List Int) : List PyDict :=
  let priceVolMap := self.return_vol_price_pairs last frequency volumes
  priceVolMap.foldl (fun acc1 kv1 =>
    kv1.2.foldl (fun acc2 kv2 =>
      kv2.2.foldl (fun acc3 kv3 =>
        acc3 ++ [volPriceRecord fmt kv1.1 kv2.1 kv3.1 kv3.2]) acc2) acc1) []

end BiteBinding

/-! ## The binding `src/bitepy/_bite.cpp` -/

namespace BitepyBinding

/-- Body of the first loop of `getLogs` (lines 167-178): the dict of a decision record.
The key `final_reward` is commented out in the source. -/
def decisionRecord (record : DecisionRecord) : PyDict :=
  PyDict.assign [
    ("hour", PyValue.int record.hour),
    ("storage", PyValue.float record.storage),
    ("position", PyValue.float record.position),
    ("real_reward", PyValue.float record.realReward),
    ("real_reward_no_deg", PyValue.float record.realRewardNoDeg)]

/-- Body of the second loop of `getLogs` (lines 182-194): the dict of a price record. -/
def priceRecord (record : PriceChart) : PyDict :=
  PyDict.assign [
    ("hour", PyValue.int record.hour),
    ("low", PyValue.float record.low),
    ("high", PyValue.float record.high),
    ("last", PyValue.float record.last),
    ("wavg", PyValue.float record.wavg),
    ("id3", PyValue.float record.id3),
    ("id1", PyValue.float record.id1),
    ("volume", PyValue.float record.volume)]

/-- Body of the third loop of `getLogs` (lines 197-214): the dict of an accepted order. -/
def accOrderRecord (fmt : EpochFormat) (record : LogAcceptedOrder) : PyDict :=
  PyDict.assign [
    ("dp_run", PyValue.int record._dpRun),
    ("time", PyValue.str (fmt.LogAcceptedOrder_epochToLocalDateTimeMS record.time)),
    ("id", PyValue.int record.id),
    ("initial_id", PyValue.int record.initialId),
    ("start", PyValue.str (fmt.LogAcceptedOrder_epochToLocalDateTimeMS record.start)),
    ("cancel", PyValue.str (fmt.LogAcceptedOrder_epochToLocalDateTimeMS record.cancel)),
    ("delivery", PyValue.str (fmt.LogAcceptedOrder_epochToLocalDateTime record.delivery)),
    ("type", PyValue.str (sideString record.type)),
    ("price", PyValue.float (Double.ofInt32 record.price / Double.lit 100)),
    ("volume", PyValue.float (Double.ofInt32 record.volume / Double.lit 10)),
    ("partial", PyValue.bool record.partialFlag),
    ("partial_volume", PyValue.float (Double.ofInt32 record.partialVolume / Double.lit 10))]

/-- Body of the fourth loop of `getLogs` (lines 217-235): the dict of an executed order.
The three `prae_...` keys are commented out in the source. -/
def execOrderRecord (fmt : EpochFormat) (record : ExecMarketOrder) : PyDict :=
  PyDict.assign [
    ("dp_run", PyValue.int record.dpRun),
    ("time", PyValue.str (fmt.ExecMarketOrder_epochToDateTimeMS record.time)),
    ("last_solve_time", PyValue.str (fmt.ExecMarketOrder_epochToDateTimeMS record.lastSolveTime)),
    ("hour", PyValue.str (fmt.ExecMarketOrder_epochToDateTime record.hour)),
    ("reward", PyValue.float (Double.ofInt32 record.reward / Double.lit 1000)),
    ("reward_incl_deg_costs",
      PyValue.float (Double.ofInt32 record.rewardInclDegCosts / Double.lit 1000)),
    ("volume", PyValue.float (Double.ofInt32 record.volume / Double.lit 10)),
    ("type", PyValue.str (sideString record.type)),
    ("final_pos", PyValue.float (Double.ofInt32 record.finalPos / Double.lit 10)),
    ("final_stor", PyValue.float (record.finalStor / Double.lit 10))]

/-- Body of the fifth loop of `getLogs` (lines 238-250): the dict of a forecast order. -/
def foreOrderRecord (fmt : EpochFormat) (record : ForeLogOrder) : PyDict :=
  PyDict.assign [
    ("dp_run", PyValue.int record.dpRun),
    ("time", PyValue.str (fmt.ForeLogOrder_epochToDateTimeMS record.time)),
    ("last_solve_time", PyValue.str (fmt.ForeLogOrder_epochToDateTimeMS record.lastSolveTime)),
    ("hour", PyValue.str (fmt.ForeLogOrder_epochToDateTime record.hour)),
    ("reward", PyValue.float (Double.ofInt32 record.reward / Double.lit 1000)),
    ("volume", PyValue.float (Double.ofInt32 record.volume / Double.lit 10)),
    ("volume_previous", PyValue.float (Double.ofInt32 record.volumePrevious / Double.lit 10))]

/-- Body of the sixth loop of `getLogs` (lines 253-271): the dict of a removed order,
an `ExecMarketOrder` like an executed one. -/
def removedOrderRecord (fmt : EpochFormat) (record : ExecMarketOrder) : PyDict :=
  PyDict.assign [
    ("dp_run", PyValue.int record.dpRun),
    ("time", PyValue.str (fmt.ExecMarketOrder_epochToDateTimeMS record.time)),
    ("last_solve_time", PyValue.str (fmt.ExecMarketOrder_epochToDateTimeMS record.lastSolveTime)),
    ("hour", PyValue.str (fmt.ExecMarketOrder_epochToDateTime record.hour)),
    ("reward", PyValue.float (Double.ofInt32 record.reward / Double.lit 1000)),
    ("reward_incl_deg_costs",
      PyValue.float (Double.ofInt32 record.rewardInclDegCosts / Double.lit 1000)),
    ("volume", PyValue.float (Double.ofInt32 record.volume / Double.lit 10)),
    ("type", PyValue.str (sideString record.type)),
    ("final_pos", PyValue.float (Double.ofInt32 record.finalPos / Double.lit 10)),
    ("final_stor", PyValue.float (record.finalStor / Double.lit 10))]

/-- Body of the seventh loop of `getLogs` (lines 274-283): the dict of a balancing
order. -/
def balOrderRecord (fmt : EpochFormat) (record : BalancingOrder) : PyDict :=
  PyDict.assign [
    ("dp_run", PyValue.int record.dpRun),
    ("time", PyValue.str (fmt.BalancingOrder_epochToDateTimeMS record.time)),
    ("hour", PyValue.str (fmt.BalancingOrder_epochToDateTime record.hour)),
    ("volume", PyValue.float (record.volume / Double.lit 10))]

/-- The lambda bound to `getLogs` (lines 163-286): seven range-for loops, each
appending one dict per element to a fresh `py::list`, and the 7-tuple of the lists. -/
def getLogs (fmt : EpochFormat) (self : Simulation) :
    List PyDict × List PyDict × List PyDict × List PyDict × List PyDict × List PyDict ×
      List PyDict :=
  let decisionRec := self.getDecisionData.foldl
    (fun acc record => acc ++ [decisionRecord record]) []
  let priceRec := self.getPriceData.foldl
    (fun acc record => acc ++ [priceRecord record]) []
  let accOrderList := self.getAccOrders.foldl
    (fun acc record => acc ++ [accOrderRecord fmt record]) []
  let execOrderList := self.getExOrders.foldl
    (fun acc record => acc ++ [execOrderRecord fmt record]) []
  let foreOrderList := self.getForeOrders.foldl
    (fun acc record => acc ++ [foreOrderRecord fmt record]) []
  let removedOrdersList := self.getRemOrders.foldl
    (fun acc record => acc ++ [removedOrderRecord fmt record]) []
  let balOrderList := self.getBalOrders.foldl
    (fun acc record => acc ++ [balOrderRecord fmt record]) []
  (decisionRec, priceRec, accOrderList, execOrderList, foreOrderList, removedOrdersList,
    balOrderList)

/-- Body of the innermost loop of `return_vol_price_pairs` (lines 295-301). -/
def volPriceRecord (fmt : EpochFormat) (currTime delHour volume : Int) (price : Int × Int) :
    PyDict :=
  PyDict.assign [
    ("current_time", PyValue.str (fmt.ExecMarketOrder_epochToDateTimeMS currTime)),
    ("delivery_hour", PyValue.str (fmt.ExecMarketOrder_epochToDateTime delHour)),
    ("volume", PyValue.float (Double.ofInt32 volume / Double.lit 10)),
    ("price_full", PyValue.float (Double.ofInt32 price.1 / Double.lit 1000)),
    ("worst_accepted_price", PyValue.float (Double.ofInt32 price.2 / Double.lit 100))]

/-- The lambda bound to `return_vol_price_pairs` (lines 288-308): three nested range-for
loops over the nested map returned by the core, appending one dict per innermost item. -/
def return_vol_price_pairs (fmt : EpochFormat) (self : Simulation) (last : Bool)
    (frequency : Int) (volumes : List Int) : List PyDict :=
  let priceVolMap := self.return_vol_price_pairs last frequency volumes
  priceVolMap.foldl (fun acc1 kv1 =>
    kv1.2.foldl (fun acc2 kv2 =>
      kv2.2.foldl (fun acc3 kv3 =>
        acc3 ++ [volPriceRecord fmt kv1.1 kv2.1 kv3.1 kv3.2]) acc2) acc1) []

end BitepyBinding

/-! ## Auxiliary notions for the statements about the bindings -/

/-- The list `out` has one record per element of `src`, the `i`-th record being `f` of the
`i`-th element. -/
def BuiltFrom {α : Type} (f : α → PyDict) (src : List α) (out : List PyDict) : Prop :=
  out.length = src.length ∧ ∀ i : Nat, out[i]? = (src[i]?).map f

/-- The innermost items of a nested volume-price map with their key triples
`(current time, delivery hour, volume)`, in iteration order. -/
def VolPriceMap.items (m : VolPriceMap) : List ((Int × Int × Int) × (Int × Int)) :=
  m.flatMap (fun kv1 => kv1.2.flatMap (fun kv2 => kv2.2.map (fun kv3 => ((kv1.1, kv2.1, kv3.1), kv3.2))))

/-- The nested lookup `m[t][h][v]`, absent when one of the three keys is absent. -/
def VolPriceMap.lookup (m : VolPriceMap) (t h v : Int) : Option (Int × Int) :=
  (StdMap.find m t).bind (fun m1 => (StdMap.find m1 h).bind (fun m2 => StdMap.find m2 v))

/-- The `std::map` invariant at the three levels of a nested volume-price map. -/
def VolPriceMap.WF (m : VolPriceMap) : Prop :=
  StdMap.WF m ∧ ∀ kv1 ∈ m, StdMap.WF kv1.2 ∧ ∀ kv2 ∈ kv1.2, StdMap.WF kv2.2

/-- The total number of innermost items of a nested volume-price map. -/
def VolPriceMap.size (m : VolPriceMap) : Nat :=
  (m.map (fun kv1 => (kv1.2.map (fun kv2 => kv2.2.length)).sum)).sum

/-- The strict lexicographic order of key triples `(current time, delivery hour, volume)`. -/
def keyLt (a b : Int × Int × Int) : Prop :=
  a.1 < b.1 ∨ (a.1 = b.1 ∧ (a.2.1 < b.2.1 ∨ (a.2.1 = b.2.1 ∧ a.2.2 < b.2.2)))

/-- The range of the C++ type `int` (32 bits). -/
def IsInt32 (x : Int) : Prop := -2 ^ 31 ≤ x ∧ x < 2 ^ 31

/-- A core with empty logs whose volume-price map holds three items under two times. -/
def exampleSimulation : Simulation where
  getDecisionData := []
  getPriceData := []
  getAccOrders := []
  getExOrders := []
  getForeOrders := []
  getRemOrders := []
  getBalOrders := []
  return_vol_price_pairs := fun _ _ _ =>
    [(1000, [(3600000, [(5, (1050, 105)), (10, (2200, 115))])]),
     (2000, [(7200000, [(5, (900, 90))])])]

/-- Formatters that print the decimal digits of the epoch value. -/
def exampleFormat : EpochFormat where
  LogAcceptedOrder_epochToLocalDateTimeMS := fun t => toString t
  LogAcceptedOrder_epochToLocalDateTime := fun t => toString t
  ExecMarketOrder_epochToDateTimeMS := fun t => toString t
  ExecMarketOrder_epochToDateTime := fun t => toString t
  ForeLogOrder_epochToDateTimeMS := fun t => toString t
  ForeLogOrder_epochToDateTime := fun t => toString t
  BalancingOrder_epochToDateTimeMS := fun t => toString t
  BalancingOrder_epochToDateTime := fun t => toString t

/-- An accepted order of price 0.01 (stored 1) and volume 0.1 (stored 1). -/
def centOrder : LogAcceptedOrder where
  time := 0
  id := 7
  initialId := 7
  start := 0
  cancel := 3600000
  delivery := 7200000
  type := OrderType.Buy
  price := 1
  volume := 1
  partialFlag := false
  partialVolume := 0
  _dpRun := 1

/-- A core whose only log entry is the accepted order `centOrder`. -/
def centSimulation : Simulation where
  getDecisionData := []
  getPriceData := []
  getAccOrders := [centOrder]
  getExOrders := []
  getForeOrders := []
  getRemOrders := []
  getBalOrders := []
  return_vol_price_pairs := fun _ _ _ => []

/-! ## The properties of `SimulationParameters` in the two bindings -/

/-- One `.def_property(name, &SimulationParameters::getter, &SimulationParameters::setter)`
of a binding: the Python attribute `name` reads through `getter` and writes through
`setter`. -/
structure PropertyDef where
  name : String
  getter : String
  setter : String
deriving DecidableEq, Repr

/-- The `const` getters that `SimulationParameters.h` declares (lines 12-43), in the order
of the header. -/
def SimulationParameters.getters : List String :=
  ["getStorageMaxPy", "getStartMonthPy", "getEndMonthPy", "getStartDayPy", "getStartHourPy",
   "getEndHourPy", "getEndDayPy", "getStartYearPy", "getEndYearPy", "getDpFreqPy",
   "getLossInPy", "getLossOutPy", "getLinDegCostPy", "getRunTypePy", "getTempDirPy",
   "getResultsDirPy", "getNumStorStatesPy", "getStoRoundDecPy", "getPingDelayPy",
   "getFixedSolveTimePy", "getCheckProfitPy", "getCheckLOExecPy", "getUseSlidingPy",
   "getCmaesParamPathPy", "getWithdrawMaxPy", "getInjectMaxPy", "getTradingFeePy",
   "getUseGurobiPy", "getGurobiTimeoutPy", "getForeHorizonStartPy", "getForeHorizonEndPy",
   "getBidAskPenaltyPy"]

/-- The setters that `SimulationParameters.h` declares (lines 46-77), in the order of the
header. -/
def SimulationParameters.setters : List String :=
  ["setStorageMaxPy", "setStartMonthPy", "setEndMonthPy", "setStartDayPy", "setStartHourPy",
   "setEndHourPy", "setEndDayPy", "setStartYearPy", "setEndYearPy", "setDpFreqPy",
   "setLossInPy", "setLossOutPy", "setLinDegCostPy", "setRunTypePy", "setTempDirPy",
   "setResultsDirPy", "setNumStorStatesPy", "setStoRoundDecPy", "setPingDelayPy",
   "setFixedSolveTimePy", "setCheckProfitPy", "setCheckLOExecPy", "setUseSlidingPy",
   "setCmaesParamPathPy", "setWithdrawMaxPy", "setInjectMaxPy", "setTradingFeePy",
   "setUseGurobiPy", "setGurobiTimeoutPy", "setForeHorizonStartPy", "setForeHorizonEndPy",
   "setBidAskPenaltyPy"]

/-- The chain of `.def_property` calls on `py::class_<SimulationParameters>` in
`src/bite/_bite.cpp` (lines 22-111), in source order. -/
def BiteBinding.simulationParametersProperties : List PropertyDef :=
  [⟨"storageMax", "getStorageMaxPy", "setStorageMaxPy"⟩,
   ⟨"startMonth", "getStartMonthPy", "setStartMonthPy"⟩,
   ⟨"endMonth", "getEndMonthPy", "setEndMonthPy"⟩,
   ⟨"startDay", "getStartDayPy", "setStartDayPy"⟩,
   ⟨"endDay", "getEndDayPy", "setEndDayPy"⟩,
   ⟨"startHour", "getStartHourPy", "setStartHourPy"⟩,
   ⟨"endHour", "getEndHourPy", "setEndHourPy"⟩,
   ⟨"startYear", "getStartYearPy", "setStartYearPy"⟩,
   ⟨"endYear", "getEndYearPy", "setEndYearPy"⟩,
   ⟨"dpFreq", "getDpFreqPy", "setDpFreqPy"⟩,
   ⟨"lossIn", "getLossInPy", "setLossInPy"⟩,
   ⟨"lossOut", "getLossOutPy", "setLossOutPy"⟩,
   ⟨"linDegCost", "getLinDegCostPy", "setLinDegCostPy"⟩,
   ⟨"tradingFee", "getTradingFeePy", "setTradingFeePy"⟩,
   ⟨"withdrawMax", "getWithdrawMaxPy", "setWithdrawMaxPy"⟩,
   ⟨"injectMax", "getInjectMaxPy", "setInjectMaxPy"⟩,
   ⟨"runType", "getRunTypePy", "setRunTypePy"⟩,
   ⟨"tempDir", "getTempDirPy", "setTempDirPy"⟩,
   ⟨"resultsDir", "getResultsDirPy", "setResultsDirPy"⟩,
   ⟨"cmaesParamPath", "getCmaesParamPathPy", "setCmaesParamPathPy"⟩,
   ⟨"numStorStates", "getNumStorStatesPy", "setNumStorStatesPy"⟩,
   ⟨"stoRoundDec", "getStoRoundDecPy", "setStoRoundDecPy"⟩,
   ⟨"pingDelay", "getPingDelayPy", "setPingDelayPy"⟩,
   ⟨"fixedSolveTime", "getFixedSolveTimePy", "setFixedSolveTimePy"⟩,
   ⟨"checkProfit", "getCheckProfitPy", "setCheckProfitPy"⟩,
   ⟨"checkLOExec", "getCheckLOExecPy", "setCheckLOExecPy"⟩,
   ⟨"useSliding", "getUseSlidingPy", "setUseSlidingPy"⟩,
   ⟨"foreHorizonStart", "getForeHorizonStartPy", "setForeHorizonStartPy"⟩,
   ⟨"foreHorizonEnd", "getForeHorizonEndPy", "setForeHorizonEndPy"⟩,
   ⟨"bidAskPenalty", "getBidAskPenaltyPy", "setBidAskPenaltyPy"⟩]

/-- The chain of `.def_property` calls on `py::class_<simParams>` in
`src/bitepy/_bite.cpp` (lines 34-102), in source order.  The chain ends after
`fixedSolveTime`; the calls for `runType`, `tempDir`, `resultsDir`, `cmaesParamPath`,
`stoRoundDec`, `checkProfit`, `checkLOExec`, `useSliding`, `foreHorizonStart`,
`foreHorizonEnd` and `bidAskPenalty` are commented out in the source. -/
def BitepyBinding.simulationParametersProperties : List PropertyDef :=
  [⟨"storageMax", "getStorageMaxPy", "setStorageMaxPy"⟩,
   ⟨"startMonth", "getStartMonthPy", "setStartMonthPy"⟩,
   ⟨"endMonth", "getEndMonthPy", "setEndMonthPy"⟩,
   ⟨"startDay", "getStartDayPy", "setStartDayPy"⟩,
   ⟨"endDay", "getEndDayPy", "setEndDayPy"⟩,
   ⟨"startHour", "getStartHourPy", "setStartHourPy"⟩,
   ⟨"endHour", "getEndHourPy", "setEndHourPy"⟩,
   ⟨"startYear", "getStartYearPy", "setStartYearPy"⟩,
   ⟨"endYear", "getEndYearPy", "setEndYearPy"⟩,
   ⟨"dpFreq", "getDpFreqPy", "setDpFreqPy"⟩,
   ⟨"lossIn", "getLossInPy", "setLossInPy"⟩,
   ⟨"lossOut", "getLossOutPy", "setLossOutPy"⟩,
   ⟨"linDegCost", "getLinDegCostPy", "setLinDegCostPy"⟩,
   ⟨"tradingFee", "getTradingFeePy", "setTradingFeePy"⟩,
   ⟨"withdrawMax", "getWithdrawMaxPy", "setWithdrawMaxPy"⟩,
   ⟨"injectMax", "getInjectMaxPy", "setInjectMaxPy"⟩,
   ⟨"numStorStates", "getNumStorStatesPy", "setNumStorStatesPy"⟩,
   ⟨"pingDelay", "getPingDelayPy", "setPingDelayPy"⟩,
   ⟨"fixedSolveTime", "getFixedSolveTimePy", "setFixedSolveTimePy"⟩]

/-- A binding, given by its property chain, exposes `name` as a readable and writable
property of `SimulationParameters`: the chain holds a `def_property` of that name whose
getter and setter are members declared in `SimulationParameters.h`. -/
def Exposes (properties : List PropertyDef) (name : String) : Bool :=
  properties.any (fun p => decide (p.name = name) &&
    decide (p.getter ∈ SimulationParameters.getters) &&
    decide (p.setter ∈ SimulationParameters.setters))

/-- The parameters that the data model enumerates, under the names of the parameter class:
storage capacity (`storageMax`), the start and end date and hour (`startYear`, `startMonth`,
`startDay`, `startHour` and the four `end...`), `dpFreq`, `lossIn`, `lossOut`, `linDegCost`,
`tradingFee`, `withdrawMax`, `injectMax`, `numStorStates`, `stoRoundDec`, `pingDelay`,
`fixedSolveTime`, `foreHorizonStart`, `foreHorizonEnd`, `bidAskPenalty`, `checkProfit`,
`checkLOExec` and `useSliding`. -/
def dataModelParameters : List String :=
  ["storageMax", "startYear", "startMonth", "startDay", "startHour", "endYear", "endMonth",
   "endDay", "endHour", "dpFreq", "lossIn", "lossOut", "linDegCost", "tradingFee",
   "withdrawMax", "injectMax", "numStorStates", "stoRoundDec", "pingDelay", "fixedSolveTime",
   "foreHorizonStart", "foreHorizonEnd", "bidAskPenalty", "checkProfit", "checkLOExec",
   "useSliding"]

/-- The enumerated parameters whose `def_property` is commented out in
`src/bitepy/_bite.cpp`. -/
def bitepyWithheldParameters : List String :=
  ["stoRoundDec", "foreHorizonStart", "foreHorizonEnd", "bidAskPenalty", "checkProfit",
   "checkLOExec", "useSliding"]

/-! ## Records used in the statements about reported values -/

/-- The record `d` reports under `key` a finite double `x` with `x * c` within the relative
error `2 ^ (-53)` of the stored quantity: `|x * c - stored| ≤ |stored| * 2 ^ (-53)`. -/
def ReportsScaled (d : PyDict) (key : String) (c : Nat) (stored : ℚ) : Prop :=
  ∃ x : ℚ, PyDict.getItem d key = some (PyValue.float (Double.finite x)) ∧
    |x * c - stored| ≤ |stored| * (2 : ℚ) ^ (-53 : ℤ)

/-- The record `d` reports the side `t`: its `type` is the string of `t`. -/
def ReportsSide (d : PyDict) (t : OrderType) : Prop :=
  PyDict.getItem d "type" = some (PyValue.str (sideString t))

/-- An executed order: a sale of volume 1.5 (stored -15) in DP run 3 with reward 1.001
(stored 1001), leaving position -1.5 and storage 42.5 (stored 425). -/
def saleOrder : ExecMarketOrder where
  dpRun := 3
  time := 1000
  lastSolveTime := 900
  hour := 7200000
  reward := 1001
  rewardInclDegCosts := 1
  volume := -15
  type := OrderType.Sell
  finalPos := -15
  finalStor := Double.finite 425
  praeFinalPos := 0
  praeFinalStor := Double.finite 440
  praeInitStorage := Double.finite 440

/-- A forecast entry of DP run 3 with reward 0.001 (stored 1) and volume 0.1 (stored 1). -/
def forecastEntry : ForeLogOrder where
  dpRun := 3
  time := 1000
  lastSolveTime := 900
  hour := 7200000
  reward := 1
  volume := 1
  volumePrevious := 0

/-- A balancing entry whose stored volume is the double 2.5. -/
def halfUnitBalancing : BalancingOrder where
  dpRun := 3
  time := 7200000
  hour := 7200000
  volume := Double.finite (5 / 2)

/-- A core that logged `centOrder` as accepted, `saleOrder` as executed and as removed,
`forecastEntry` as forecast and `halfUnitBalancing` as balancing entry. -/
def ledgerSimulation : Simulation where
  getDecisionData := []
  getPriceData := []
  getAccOrders := [centOrder]
  getExOrders := [saleOrder]
  getForeOrders := [forecastEntry]
  getRemOrders := [saleOrder]
  getBalOrders := [halfUnitBalancing]
  return_vol_price_pairs := fun _ _ _ => []

/-! ## Fields that `getLogs` does not report -/

/-- Two decision records agree in every member other than `finalReward`. -/
def DecisionRecord.agreesApartFromFinalReward (a b : DecisionRecord) : Prop :=
  a.hour = b.hour ∧ a.storage = b.storage ∧ a.position = b.position ∧
  a.realReward = b.realReward ∧ a.realRewardNoDeg = b.realRewardNoDeg

/-- Two executed-order entries agree in every member other than `praeFinalPos`,
`praeFinalStor` and `praeInitStorage`. -/
def ExecMarketOrder.agreesApartFromPrae (a b : ExecMarketOrder) : Prop :=
  a.dpRun = b.dpRun ∧ a.time = b.time ∧ a.lastSolveTime = b.lastSolveTime ∧
  a.hour = b.hour ∧ a.reward = b.reward ∧ a.rewardInclDegCosts = b.rewardInclDegCosts ∧
  a.volume = b.volume ∧ a.type = b.type ∧ a.finalPos = b.finalPos ∧
  a.finalStor = b.finalStor

/-- The log collections of two states of the core differ only in `finalReward` of decision
records and in `praeFinalPos`, `praeFinalStor` and `praeInitStorage` of executed and removed
entries: the collections have the same lengths, entries at the same index agree in all other
members, and the price, accepted, forecast and balancing collections are equal. -/
def Simulation.agreesOnReported (s1 s2 : Simulation) : Prop :=
  List.Forall₂ DecisionRecord.agreesApartFromFinalReward s1.getDecisionData
    s2.getDecisionData ∧
  s1.getPriceData = s2.getPriceData ∧
  s1.getAccOrders = s2.getAccOrders ∧
  List.Forall₂ ExecMarketOrder.agreesApartFromPrae s1.getExOrders s2.getExOrders ∧
  s1.getForeOrders = s2.getForeOrders ∧
  List.Forall₂ ExecMarketOrder.agreesApartFromPrae s1.getRemOrders s2.getRemOrders ∧
  s1.getBalOrders = s2.getBalOrders

/-- The ten items of the record of an executed or removed entry, as the loops of `getLogs`
assign them (lines 209-218 and 246-255 of `src/bite/_bite.cpp`). -/
def execItems (fmt : EpochFormat) (record : ExecMarketOrder) : List (String × PyValue) :=
  [("dp_run", PyValue.int record.dpRun),
   ("time", PyValue.str (fmt.ExecMarketOrder_epochToDateTimeMS record.time)),
   ("last_solve_time", PyValue.str (fmt.ExecMarketOrder_epochToDateTimeMS record.lastSolveTime)),
   ("hour", PyValue.str (fmt.ExecMarketOrder_epochToDateTime record.hour)),
   ("reward", PyValue.float (Double.ofInt32 record.reward / Double.lit 1000)),
   ("reward_incl_deg_costs",
     PyValue.float (Double.ofInt32 record.rewardInclDegCosts / Double.lit 1000)),
   ("volume", PyValue.float (Double.ofInt32 record.volume / Double.lit 10)),
   ("type", PyValue.str (sideString record.type)),
   ("final_pos", PyValue.float (Double.ofInt32 record.finalPos / Double.lit 10)),
   ("final_stor", PyValue.float (record.finalStor / Double.lit 10))]

/-- A decision record with final reward 5. -/
def decisionA : DecisionRecord where
  hour := 7200000
  storage := Double.finite 42
  position := Double.finite 1
  finalReward := Double.finite 5
  realReward := Double.finite 3
  realRewardNoDeg := Double.finite 4

/-- The decision record `decisionA` with final reward 99. -/
def decisionB : DecisionRecord := { decisionA with finalReward := Double.finite 99 }

/-- The executed order `saleOrder` with other values of the position and the storage levels
before the execution. -/
def saleOrderB : ExecMarketOrder :=
  { saleOrder with
    praeFinalPos := 7
    praeFinalStor := Double.nan
    praeInitStorage := Double.finite 1 }

/-- A core that logged `decisionA`, and `saleOrder` as executed and as removed. -/
def simulationA : Simulation :=
  { ledgerSimulation with getDecisionData := [decisionA] }

/-- A core that logged `decisionB`, and `saleOrderB` as executed and as removed. -/
def simulationB : Simulation :=
  { ledgerSimulation with
    getDecisionData := [decisionB]
    getExOrders := [saleOrderB]
    getRemOrders := [saleOrderB] }

/-! ## The order book (§4.1 of the spec)

The matching engine sits behind the private `Simulation::Impl`, which is not part of
`src/`.  It is modelled from the spec. -/

/-- Modelled from the spec: the record of one execution between a resting and an incoming
order; the matching engine of `Simulation::Impl` is missing from `src/`.  §4.1: "execution
price is the resting (earlier) order's price; execution volume is min(remaining volumes of
both orders)"; the two orders are referenced by `id` and `initialId`. -/
structure Trade where
  time : Int
  delivery : Int
  price : Int
  volume : Int
  restingId : Int
  restingInitialId : Int
  incomingId : Int
  incomingInitialId : Int
deriving DecidableEq, Repr

/-- Modelled from the spec: the validity window of an order, missing from `src/`.  §3: an
"order is eligible for matching only within [start, cancel)". -/
def LimitOrder.eligible (o : LimitOrder) (t : Int) : Bool :=
  decide (o.start ≤ t) && decide (t < o.cancel)

/-- Modelled from the spec: the crossing test of the matching engine, missing from `src/`.
§4.1: "a cross occurs while best bid ≥ best ask". -/
def crosses (resting incoming : LimitOrder) : Bool :=
  match incoming.type with
  | OrderType.Buy => decide (resting.price ≤ incoming.price)
  | OrderType.Sell => decide (incoming.price ≤ resting.price)

/-- Modelled from the spec: the execution produced when `incoming` crosses `resting`, part of
the matching engine missing from `src/`.  §4.1: the price is the resting order's, the volume
the minimum of the two remaining volumes. -/
def mkTrade (t : Int) (resting incoming : LimitOrder) : Trade where
  time := t
  delivery := incoming.delivery
  price := resting.price
  volume := min resting.volume incoming.volume
  restingId := resting.id
  restingInitialId := resting.initialId
  incomingId := incoming.id
  incomingInitialId := incoming.initialId

/-- Modelled from the spec: the operation `matchAgainst(incomingOrder)` of the matching engine,
missing from `src/`, on one priority structure (best order first) of the opposite side.
§4.1: the incoming order crosses against the best resting order while it has volume left and
the prices cross; a partial fill leaves "a residual order with reduced volume, tagged via
`initialId` back to the parent" (the residual keeps the `initialId`); §3: resting orders
outside their validity window are passed over.  The result is the incoming order with its
remaining volume, the opposite side after matching, and the executions. -/
def matchAgainst (t : Int) : LimitOrder → List LimitOrder →
    LimitOrder × List LimitOrder × List Trade
  | o, [] => (o, [], [])
  | o, r :: rest =>
    if o.volume ≤ 0 then (o, r :: rest, [])
    else if r.eligible t = false then
      ((matchAgainst t o rest).1, r :: (matchAgainst t o rest).2.1, (matchAgainst t o rest).2.2)
    else if crosses r o = false then (o, r :: rest, [])
    else if o.volume < r.volume then
      ({ o with volume := 0 }, { r with volume := r.volume - o.volume } :: rest, [mkTrade t r o])
    else
      ((matchAgainst t { o with volume := o.volume - r.volume } rest).1,
        (matchAgainst t { o with volume := o.volume - r.volume } rest).2.1,
        mkTrade t r o :: (matchAgainst t { o with volume := o.volume - r.volume } rest).2.2)

/-- Modelled from the spec: insertion into the bid priority structure, missing from `src/`.
§4.1: "bid side ordered by descending price then ascending arrival time". -/
def insertBid (o : LimitOrder) : List LimitOrder → List LimitOrder
  | [] => [o]
  | r :: rest => if o.price ≤ r.price then r :: insertBid o rest else o :: r :: rest

/-- Modelled from the spec: insertion into the ask priority structure, missing from `src/`.
§4.1: "ask side ascending price then ascending arrival time". -/
def insertAsk (o : LimitOrder) : List LimitOrder → List LimitOrder
  | [] => [o]
  | r :: rest => if r.price ≤ o.price then r :: insertAsk o rest else o :: r :: rest

/-- Modelled from the spec: the removal entry of a cancelled order, missing from `src/`: the
order with its remainder as volume and the time of the removal. -/
structure RemovalEntry where
  time : Int
  id : Int
  initialId : Int
  delivery : Int
  type : OrderType
  price : Int
  volume : Int
deriving DecidableEq, Repr

/-- Modelled from the spec: the book of one delivery hour, missing from `src/`.  §4.1: the
engine "maintains, per delivery hour, two priority structures"; §2, §4.5: accepted orders,
executions and removed orders are logged.  `dropped` keeps the orders that a cancellation
drops without a removal entry; it is bookkeeping only and no log. -/
structure HourBook where
  bids : List LimitOrder
  asks : List LimitOrder
  accepted : List LogLimitOrder
  trades : List Trade
  removals : List RemovalEntry
  dropped : List LimitOrder
deriving DecidableEq, Repr

/-- Modelled from the spec: the accepted-order log entry of the order `o`, accepted at time
`t`, of which `remaining` is left after the immediate crossing.  §3: the entry "extends the
order with ... a partial-fill flag, and partial-fill volume" and is "created when an order is
accepted into the book". -/
def acceptedEntry (t : Int) (o : LimitOrder) (remaining : Int) : LogLimitOrder where
  time := t
  id := o.id
  initialId := o.initialId
  start := o.start
  cancel := o.cancel
  delivery := o.delivery
  type := o.type
  price := o.price
  volume := o.volume
  partialFlag := decide (0 < remaining) && decide (remaining < o.volume)
  partialVolume := o.volume - remaining

/-- Modelled from the spec: the empty book of a delivery hour. -/
def HourBook.empty : HourBook where
  bids := []
  asks := []
  accepted := []
  trades := []
  removals := []
  dropped := []

/-- Modelled from the spec: acceptance and immediate crossing of an order in the book of its
delivery hour, part of `submit(order)`, missing from `src/`.  §4.1: "on submission of a
resting order, attempts immediate crossing against the opposite side"; what is left rests on
the own side.  An order outside its validity window or without volume is not accepted. -/
def HourBook.submit (t : Int) (hb : HourBook) (o : LimitOrder) : HourBook :=
  if o.eligible t = false ∨ o.volume ≤ 0 then hb
  else
    match o.type with
    | OrderType.Buy =>
      { hb with
        asks := (matchAgainst t o hb.asks).2.1
        bids := if 0 < (matchAgainst t o hb.asks).1.volume
          then insertBid (matchAgainst t o hb.asks).1 hb.bids else hb.bids
        accepted := hb.accepted ++ [acceptedEntry t o (matchAgainst t o hb.asks).1.volume]
        trades := hb.trades ++ (matchAgainst t o hb.asks).2.2 }
    | OrderType.Sell =>
      { hb with
        bids := (matchAgainst t o hb.bids).2.1
        asks := if 0 < (matchAgainst t o hb.bids).1.volume
          then insertAsk (matchAgainst t o hb.bids).1 hb.asks else hb.asks
        accepted := hb.accepted ++ [acceptedEntry t o (matchAgainst t o hb.bids).1.volume]
        trades := hb.trades ++ (matchAgainst t o hb.bids).2.2 }

/-- Modelled from the spec: whether an order "had previously produced at least one partial
execution" (§4.1), read off the executions linked to it through `initialId`. -/
def HourBook.hasTraded (hb : HourBook) (r : LimitOrder) : Bool :=
  hb.trades.any (fun e =>
    decide (e.restingInitialId = r.initialId) || decide (e.incomingInitialId = r.initialId))

/-- Modelled from the spec: the test of §4.1 for a removal entry: the cancelled order
"carried a nonzero remainder and had previously produced at least one partial execution". -/
def HourBook.leavesEntry (hb : HourBook) (r : LimitOrder) : Bool :=
  decide (r.volume ≠ 0) && hb.hasTraded r

/-- Modelled from the spec: the volume that the execution `e` fills of orders linked to the
parent `x` through `initialId` (§4.1: fills are "tagged via `initialId` back to the parent");
an execution counts once for its resting and once for its incoming order. -/
def Trade.volumeFor (x : Int) (e : Trade) : Int :=
  (if e.restingInitialId = x then e.volume else 0) +
    (if e.incomingInitialId = x then e.volume else 0)

/-- Modelled from the spec: the total executed volume linked to the parent `x`. -/
def HourBook.tradedVolume (hb : HourBook) (x : Int) : Int :=
  (hb.trades.map (Trade.volumeFor x)).sum

/-- Modelled from the spec: the removal entry written for the cancelled order `r`, whose
volume is the remainder. -/
def removalEntry (t : Int) (r : LimitOrder) : RemovalEntry where
  time := t
  id := r.id
  initialId := r.initialId
  delivery := r.delivery
  type := r.type
  price := r.price
  volume := r.volume

/-- The volume of the orders of the list `l` that are linked to the parent `x`. -/
def volumeOf (x : Int) (l : List LimitOrder) : Int :=
  (l.map (fun r => if r.initialId = x then r.volume else 0)).sum

/-- The original volume of the accepted orders linked to the parent `x`. -/
def HourBook.acceptedVolume (hb : HourBook) (x : Int) : Int :=
  (hb.accepted.map (fun a => if a.initialId = x then a.volume else 0)).sum

/-- The volume of the removal entries linked to the parent `x`. -/
def HourBook.removedVolume (hb : HourBook) (x : Int) : Int :=
  (hb.removals.map (fun m => if m.initialId = x then m.volume else 0)).sum

/-- The remaining volume of the resting orders linked to the parent `x`. -/
def HourBook.restingVolume (hb : HourBook) (x : Int) : Int :=
  volumeOf x hb.bids + volumeOf x hb.asks

/-- The volume of the orders linked to the parent `x` that a cancellation dropped without a
removal entry. -/
def HourBook.droppedVolume (hb : HourBook) (x : Int) : Int :=
  volumeOf x hb.dropped

/-- Modelled from the spec: whether `cancel(orderId)` at time `t` removes the resting order
`r`.  §4.1: "cancellation removes a resting order at or after its `cancel` timestamp". -/
def cancelDue (t : Int) (orderId : Int) (r : LimitOrder) : Bool :=
  decide (r.id = orderId) && decide (r.cancel ≤ t)

/-- Modelled from the spec: the operation `cancel(orderId)` in the book of a delivery hour,
missing from `src/`.  §4.1: the order is removed; it "generates a removal entry if it carried
a nonzero remainder and had previously produced at least one partial execution (otherwise it
is dropped silently as a logging no-op)". -/
def HourBook.cancel (t : Int) (hb : HourBook) (orderId : Int) : HourBook :=
  { hb with
    bids := hb.bids.filter (fun r => !cancelDue t orderId r)
    asks := hb.asks.filter (fun r => !cancelDue t orderId r)
    removals := hb.removals ++
      (((hb.bids ++ hb.asks).filter (cancelDue t orderId)).filter hb.leavesEntry).map
        (removalEntry t)
    dropped := hb.dropped ++
      ((hb.bids ++ hb.asks).filter (cancelDue t orderId)).filter (fun r => !hb.leavesEntry r) }

/-- Modelled from the spec: the failure of an order-book operation.  §4.1, §7: an ordering
violation "is fatal". -/
inductive BookError where
  | orderingViolation
deriving DecidableEq, Repr

/-- Modelled from the spec: the state of the order book / matching engine, missing from
`src/`: the book's current time and the book of every delivery hour. -/
structure OrderBook where
  now : Int
  hours : Int → HourBook

/-- Modelled from the spec: the order book before the first event. -/
def OrderBook.empty (t0 : Int) : OrderBook where
  now := t0
  hours := fun _ => HourBook.empty

/-- Modelled from the spec: the operation `submit(order)` with its timestamp, missing from
`src/`.  §4.1: "all operations reject timestamps earlier than the book's current time". -/
def OrderBook.submit (b : OrderBook) (t : Int) (o : LimitOrder) : Except BookError OrderBook :=
  if t < b.now then Except.error BookError.orderingViolation
  else Except.ok
    { now := t
      hours := Function.update b.hours o.delivery (HourBook.submit t (b.hours o.delivery) o) }

/-- Modelled from the spec: the operation `cancel(orderId)` with its timestamp and the
delivery hour of the order, missing from `src/`. -/
def OrderBook.cancel (b : OrderBook) (t : Int) (delivery orderId : Int) :
    Except BookError OrderBook :=
  if t < b.now then Except.error BookError.orderingViolation
  else Except.ok
    { now := t
      hours := Function.update b.hours delivery (HourBook.cancel t (b.hours delivery) orderId) }

/-- Modelled from the spec: the operation `advanceTo(time)`, missing from `src/`.  §4.1:
"time advances monotonically". -/
def OrderBook.advanceTo (b : OrderBook) (t : Int) : Except BookError OrderBook :=
  if t < b.now then Except.error BookError.orderingViolation
  else Except.ok { b with now := t }

/-- Modelled from the spec: an event of the replay feed, one of the three timestamped
operations of §4.1. -/
inductive BookOp where
  | submit (t : Int) (o : LimitOrder)
  | cancel (t : Int) (delivery orderId : Int)
  | advanceTo (t : Int)
deriving DecidableEq, Repr

/-- The timestamp of an event. -/
def BookOp.time : BookOp → Int
  | BookOp.submit t _ => t
  | BookOp.cancel t _ _ => t
  | BookOp.advanceTo t => t

/-- Modelled from the spec: the book applies one event. -/
def OrderBook.step (b : OrderBook) : BookOp → Except BookError OrderBook
  | BookOp.submit t o => b.submit t o
  | BookOp.cancel t delivery orderId => b.cancel t delivery orderId
  | BookOp.advanceTo t => b.advanceTo t

/-- Modelled from the spec: the book consumes the events of a feed in order.  §7: on an
ordering violation "the run aborts rather than silently reordering". -/
def OrderBook.run (b : OrderBook) : List BookOp → Except BookError OrderBook
  | [] => Except.ok b
  | op :: ops =>
    match b.step op with
    | Except.error e => Except.error e
    | Except.ok b1 => OrderBook.run b1 ops

/-- The accounting invariant of the book of a delivery hour: for every parent, the accepted
volume is the executed, removed, resting and dropped volume together; resting orders have
volume left; and the partial-fill volume of an accepted entry lies between 0 and the
original volume. -/
def HourBook.Inv (hb : HourBook) : Prop :=
  (∀ x : Int, hb.acceptedVolume x =
    hb.tradedVolume x + hb.removedVolume x + hb.restingVolume x + hb.droppedVolume x) ∧
  (∀ r ∈ hb.bids, 0 < r.volume) ∧
  (∀ r ∈ hb.asks, 0 < r.volume) ∧
  (∀ a ∈ hb.accepted, 0 ≤ a.partialVolume ∧ a.partialVolume ≤ a.volume)

/-- The accounting invariant in the book of every delivery hour. -/
def OrderBook.Inv (b : OrderBook) : Prop := ∀ h : Int, (b.hours h).Inv

/-- The order `Buy @ 105, volume 20` of the scenario of §8, valid from 0 to 1000 for the
delivery hour 7200. -/
def scenarioBuy : LimitOrder where
  id := 1
  initialId := 1
  start := 0
  cancel := 1000
  delivery := 7200
  type := OrderType.Buy
  price := 105
  volume := 20

/-- The order `Sell @ 100, volume 15` of the scenario of §8, for the same delivery hour. -/
def scenarioSell : LimitOrder where
  id := 2
  initialId := 2
  start := 0
  cancel := 1000
  delivery := 7200
  type := OrderType.Sell
  price := 100
  volume := 15

/-! ## Settlement at the close of a delivery hour (§4.5 of the spec)

Settlement is part of the private `Simulation::Impl`, which is not part of `src/`.  It is
modelled from the spec. -/

/-- Modelled from the spec: what settlement knows about a delivery hour that is still open,
missing from `src/`.  §4.5: "the final committed position" and "the sum of executed volumes
for that hour". -/
structure HourAccount where
  hour : Int
  committed : Int
  executed : Int
deriving DecidableEq, Repr

/-- Modelled from the spec: the state of settlement, missing from `src/`.  §3: the run state
holds the "current simulated time", "the DP-run counter" and the log collections, of which the
balancing-order log is kept here. -/
structure Settlement where
  now : Int
  dpRun : Int
  openHours : List HourAccount
  balOrders : List BalancingOrder

/-- Modelled from the spec: settlement before the first event. -/
def Settlement.init (t0 : Int) : Settlement where
  now := t0
  dpRun := 0
  openHours := []
  balOrders := []

/-- Modelled from the spec: the DP commits to the position `p` for the delivery hour `h`; a
later commitment for the same hour replaces the earlier one (§4.5: "the final committed
position"). -/
def commitPosition (h p : Int) : List HourAccount → List HourAccount
  | [] => [{ hour := h, committed := p, executed := 0 }]
  | a :: rest =>
    if a.hour = h then { a with committed := p } :: rest else a :: commitPosition h p rest

/-- Modelled from the spec: an executed trade of volume `v` for the delivery hour `h` is added
to the executed volume of that hour (§4.5: "on each executed trade: updates running
position"). -/
def addExecuted (h v : Int) : List HourAccount → List HourAccount
  | [] => [{ hour := h, committed := 0, executed := v }]
  | a :: rest =>
    if a.hour = h then { a with executed := a.executed + v } :: rest
    else a :: addExecuted h v rest

/-- Modelled from the spec: an event seen by settlement, missing from `src/`: a DP run with
the positions it commits to per delivery hour, an executed trade, or the advance of simulated
time. -/
inductive SettleEvent where
  | solve (positions : List (Int × Int))
  | execute (hour volume : Int)
  | advanceTo (t : Int)
deriving DecidableEq, Repr

/-- Modelled from the spec: the balancing-order entries written when simulated time reaches
`t`, missing from `src/`.  §4.5: "at the close of each delivery hour (simulated time crosses the
hour boundary): compares the final committed position against the sum of executed volumes for
that hour; any residual is settled as a single Balancing-Order entry".  The spec does not fix
how the entry's volume is obtained from the two numbers, so this is the parameter `vol`. -/
def closeEntries (vol : Int → Int → Double) (dpRun t : Int) (accounts : List HourAccount) :
    List BalancingOrder :=
  ((accounts.filter (fun a => decide (a.hour ≤ t))).filter
    (fun a => decide (a.committed ≠ a.executed))).map
    (fun a => { dpRun := dpRun, time := t, hour := a.hour, volume := vol a.committed a.executed })

/-- Modelled from the spec: settlement handles one event, missing from `src/`.  Positions and
executions for a delivery hour whose delivery time has passed are not taken (glossary:
balancing settles what was "not executed through the book by delivery time"), and time only
moves forward. -/
def Settlement.step (vol : Int → Int → Double) (s : Settlement) : SettleEvent → Settlement
  | SettleEvent.solve positions =>
    { s with
      dpRun := s.dpRun + 1
      openHours := positions.foldl
        (fun acc hp => if s.now < hp.1 then commitPosition hp.1 hp.2 acc else acc) s.openHours }
  | SettleEvent.execute hour volume =>
    if s.now < hour then { s with openHours := addExecuted hour volume s.openHours } else s
  | SettleEvent.advanceTo t =>
    if t < s.now then s
    else
      { s with
        now := t
        openHours := s.openHours.filter (fun a => decide (t < a.hour))
        balOrders := s.balOrders ++ closeEntries vol s.dpRun t s.openHours }

/-- Modelled from the spec: settlement over the events of a run. -/
def Settlement.run (vol : Int → Int → Double) (t0 : Int) (events : List SettleEvent) :
    Settlement :=
  events.foldl (Settlement.step vol) (Settlement.init t0)

/-- The invariant of settlement: every balancing entry was written at or after its delivery
hour, which has passed; open hours lie ahead; no hour occurs twice. -/
def Settlement.Inv (s : Settlement) : Prop :=
  (∀ e ∈ s.balOrders, e.hour ≤ e.time ∧ e.hour ≤ s.now) ∧
  (∀ a ∈ s.openHours, s.now < a.hour) ∧
  (s.openHours.map HourAccount.hour).Nodup ∧
  (s.balOrders.map BalancingOrder.hour).Nodup

/-! ## Cancellation and removal entries -/

/-- The orders resting in the book of a delivery hour, bids first. -/
def HourBook.resting (hb : HourBook) : List LimitOrder := hb.bids ++ hb.asks

/-- Every removal entry and every order dropped without an entry carries a positive
volume. -/
def HourBook.PositiveRemovals (hb : HourBook) : Prop :=
  (∀ m ∈ hb.removals, 0 < m.volume) ∧ (∀ r ∈ hb.dropped, 0 < r.volume)

/-- The book of the delivery hour after the scenario of §8: the buy order of volume 20 was
submitted at time 1 and the sell order of volume 15 at time 2. -/
def scenarioBook : HourBook :=
  HourBook.submit 2 (HourBook.submit 1 HourBook.empty scenarioBuy) scenarioSell

/-- The buy order of the scenario with the remainder 5 that the execution of 15 leaves. -/
def scenarioRemainder : LimitOrder := { scenarioBuy with volume := 5 }

/-! ## Executions of a submission and the life of a parent order -/

/-- The number of orders of the list that are linked to the parent `x`. -/
def countOf (x : Int) (l : List LimitOrder) : Nat :=
  l.countP (fun r => decide (r.initialId = x))

/-- The eight column vectors that `addOrderQueueFromPandas` and `writeOrderBinFromPandas`
take (`Simulation.h`, lines 52-71). -/
structure OrderColumns where
  ids : List Int
  initials : List Int
  sides : List String
  starts : List String
  transactions : List String
  validities : List String
  prices : List Double
  quantities : List Double

/-- One row of the column vectors. -/
structure RawOrder where
  id : Int
  initial : Int
  side : String
  start : String
  transaction : String
  validity : String
  price : Double
  quantity : Double

/-- Modelled from the spec: the conversions of the ingestion adapter, missing from `src/`.
§6: the timestamps arrive "as ISO-like strings"; `parseTime` fails on an unparsable
timestamp, and `build` makes the `LimitOrder` of a row from the row and its three parsed
timestamps (side, fixed-point price and volume, and the assignment of the timestamps to
`start`, `cancel` and `delivery`). -/
structure Adapter where
  parseTime : String → Option Int
  build : RawOrder → Int → Int → Int → Option LimitOrder

/-- Modelled from the spec: the failures of an ingestion step.  §7: "malformed replay input
(missing field, unparsable timestamp, non-monotonic arrival)"; a binary file can also be
absent or not be a sequence of whole records. -/
inductive IngestError where
  | lengthMismatch
  | unparsable
  | nonMonotonic
  | noFile
  | badFile
deriving DecidableEq, Repr

/-- The column vectors have one common length. -/
def OrderColumns.sameLength (c : OrderColumns) : Bool :=
  c.initials.length == c.ids.length && c.sides.length == c.ids.length &&
  c.starts.length == c.ids.length && c.transactions.length == c.ids.length &&
  c.validities.length == c.ids.length && c.prices.length == c.ids.length &&
  c.quantities.length == c.ids.length

/-- The rows of the column vectors, in order. -/
def OrderColumns.rows (c : OrderColumns) : List RawOrder :=
  (c.ids.zip (c.initials.zip (c.sides.zip (c.starts.zip (c.transactions.zip
    (c.validities.zip (c.prices.zip c.quantities))))))).map
    (fun r => ⟨r.1, r.2.1, r.2.2.1, r.2.2.2.1, r.2.2.2.2.1, r.2.2.2.2.2.1, r.2.2.2.2.2.2.1,
      r.2.2.2.2.2.2.2⟩)

/-- Modelled from the spec: the conversion of one row, missing from `src/`: the three
timestamps are parsed, then the order is built; an unparsable timestamp fails the row. -/
def Adapter.convert (a : Adapter) (r : RawOrder) : Option LimitOrder :=
  match a.parseTime r.start, a.parseTime r.transaction, a.parseTime r.validity with
  | some t1, some t2, some t3 => a.build r t1 t2 t3
  | _, _, _ => none

/-- Modelled from the spec: the conversion of the rows into a staging list, missing from
`src/`; the first row that fails ends the conversion (§7: "fails the ingestion step
immediately"). -/
def Adapter.convertRows (a : Adapter) : List RawOrder → Option (List LimitOrder)
  | [] => some []
  | r :: rs =>
    match a.convert r with
    | none => none
    | some o =>
      match a.convertRows rs with
      | none => none
      | some os => some (o :: os)

/-- Modelled from the spec: the orders arrive in the order of their placement, the `start`
of the validity window (§2: the ledger is a "chronologically ordered replay stream"). -/
def arrivalMonotone (os : List LimitOrder) : Prop :=
  os.Pairwise (fun o1 o2 => o1.start ≤ o2.start)

instance (os : List LimitOrder) : Decidable (arrivalMonotone os) :=
  inferInstanceAs
    (Decidable (List.Pairwise (fun (o1 o2 : LimitOrder) => o1.start ≤ o2.start) os))

/-- Modelled from the spec: the check of a staged batch before it is committed. -/
def checkBatch (os : List LimitOrder) : Except IngestError (List LimitOrder) :=
  if arrivalMonotone os then Except.ok os else Except.error IngestError.nonMonotonic

/-- Modelled from the spec: the orders of the column vectors, or the failure of the
ingestion step (§7), missing from `src/`. -/
def Adapter.convertColumns (a : Adapter) (c : OrderColumns) :
    Except IngestError (List LimitOrder) :=
  if c.sameLength = false then Except.error IngestError.lengthMismatch
  else
    match a.convertRows c.rows with
    | none => Except.error IngestError.unparsable
    | some os => checkBatch os

/-- Modelled from the spec: the commit of an ingestion step: the staged orders are appended
to the queue when the step succeeded, and the queue stays as it was when it failed (§7:
"ingestion is all-or-nothing"). -/
def commitBatch (queue : List LimitOrder) :
    Except IngestError (List LimitOrder) → Except IngestError Unit × List LimitOrder
  | Except.error e => (Except.error e, queue)
  | Except.ok os => (Except.ok (), queue ++ os)

/-- Modelled from the spec: `Simulation::addOrderQueueFromPandas` on the order queue: the
result of the call and the queue after it. -/
def addOrderQueueFromPandas (a : Adapter) (queue : List LimitOrder) (c : OrderColumns) :
    Except IngestError Unit × List LimitOrder :=
  commitBatch queue (a.convertColumns c)

/-! ### The packed binary file -/

/-- The `w` low bytes of `n`, least significant first. -/
def leBytes : Nat → Nat → List Nat
  | 0, _ => []
  | w + 1, n => n % 256 :: leBytes w (n / 256)

/-- The number that a list of bytes, least significant first, denotes. -/
def ofLeBytes : List Nat → Nat
  | [] => 0
  | b :: bs => b + 256 * ofLeBytes bs

/-- The two's-complement pattern of `x` in `w` bytes. -/
def toUnsigned (w : Nat) (x : Int) : Nat := (x % (256 : Int) ^ w).toNat

/-- The signed value of a `w`-byte two's-complement pattern. -/
def toSigned (w : Nat) (n : Nat) : Int :=
  if 2 * n < 256 ^ w then (n : Int) else (n : Int) - (256 : Int) ^ w

/-- Modelled from the spec: a signed integer member as `w` bytes of the packed file. -/
def encodeInt (w : Nat) (x : Int) : List Nat := leBytes w (toUnsigned w x)

/-- Modelled from the spec: the signed integer that the first `w` bytes hold, and the bytes
after them. -/
def takeInt (w : Nat) (bs : List Nat) : Int × List Nat :=
  (toSigned w (ofLeBytes (bs.take w)), bs.drop w)

/-- The byte of a side: the value of the enumerator of `LimitOrder::Type` (`Sell` = 0,
`Buy` = 1). -/
def typeByte : OrderType → Nat
  | OrderType.Sell => 0
  | OrderType.Buy => 1

/-- The side of a byte, if it is the value of an enumerator. -/
def typeOfByte : Nat → Option OrderType
  | 0 => some OrderType.Sell
  | 1 => some OrderType.Buy
  | _ => none

/-- The size of the packed record of a `LimitOrder`: five `int64_t`, one byte for the type and
two `int32_t`. -/
def recordSize : Nat := 49

/-- Modelled from the spec: the packed record of a `LimitOrder` in the binary file, missing
from `src/`: the members in the order of `LimitOrder.h`, each in its declared width.  §6:
the layout "must round-trip all LimitOrder fields losslessly". -/
def encodeOrder (o : LimitOrder) : List Nat :=
  encodeInt 8 o.id ++ (encodeInt 8 o.initialId ++ (encodeInt 8 o.start ++
    (encodeInt 8 o.cancel ++ (encodeInt 8 o.delivery ++ (typeByte o.type ::
      (encodeInt 4 o.price ++ encodeInt 4 o.volume))))))

/-- Modelled from the spec: the `LimitOrder` of a packed record, missing from `src/`. -/
def decodeOrder (bs : List Nat) : Option LimitOrder :=
  match (takeInt 8 (takeInt 8 (takeInt 8 (takeInt 8 (takeInt 8 bs).2).2).2).2).2 with
  | [] => none
  | b :: rest =>
    match typeOfByte b with
    | none => none
    | some ty =>
      some
        { id := (takeInt 8 bs).1
          initialId := (takeInt 8 (takeInt 8 bs).2).1
          start := (takeInt 8 (takeInt 8 (takeInt 8 bs).2).2).1
          cancel := (takeInt 8 (takeInt 8 (takeInt 8 (takeInt 8 bs).2).2).2).1
          delivery := (takeInt 8 (takeInt 8 (takeInt 8 (takeInt 8 (takeInt 8 bs).2).2).2).2).1
          type := ty
          price := (takeInt 4 rest).1
          volume := (takeInt 4 (takeInt 4 rest).2).1 }

/-- Modelled from the spec: the content of the binary file of a list of orders: their packed
records, one after the other. -/
def encodeOrders : List LimitOrder → List Nat
  | [] => []
  | o :: os => encodeOrder o ++ encodeOrders os

/-- Modelled from the spec: the orders of `n` packed records. -/
def decodeRecords : Nat → List Nat → Option (List LimitOrder)
  | 0, _ => some []
  | n + 1, bs =>
    match decodeOrder (bs.take recordSize) with
    | none => none
    | some o =>
      match decodeRecords n (bs.drop recordSize) with
      | none => none
      | some os => some (o :: os)

/-- Modelled from the spec: the orders of the content of a binary file; a content that is not
a sequence of whole records has none. -/
def decodeOrders (bs : List Nat) : Option (List LimitOrder) :=
  if bs.length % recordSize = 0 then decodeRecords (bs.length / recordSize) bs else none

/-- The files of the host, by path: the bytes of a file, or nothing. -/
abbrev FileSystem := String → Option (List Nat)

/-- Modelled from the spec: `Simulation::writeOrderBinFromPandas`: the binary file is
"written once from tabular input" (§6); nothing is written when the conversion fails. -/
def writeOrderBinFromPandas (a : Adapter) (fs : FileSystem) (pathName : String)
    (c : OrderColumns) : Except IngestError Unit × FileSystem :=
  match a.convertColumns c with
  | Except.error e => (Except.error e, fs)
  | Except.ok os => (Except.ok (), Function.update fs pathName (some (encodeOrders os)))

/-- Modelled from the spec: the orders of a binary file, or the failure of the ingestion
step. -/
def readOrderBin (fs : FileSystem) (pathName : String) : Except IngestError (List LimitOrder) :=
  match fs pathName with
  | none => Except.error IngestError.noFile
  | some bs =>
    match decodeOrders bs with
    | none => Except.error IngestError.badFile
    | some os => checkBatch os

/-- Modelled from the spec: `Simulation::addOrderQueueFromBin` on the order queue: the file is
"re-loadable without re-parsing text" (§6). -/
def addOrderQueueFromBin (fs : FileSystem) (queue : List LimitOrder) (pathName : String) :
    Except IngestError Unit × List LimitOrder :=
  commitBatch queue (readOrderBin fs pathName)

/-- The members of a `LimitOrder` lie in the ranges of their C++ types: `int64_t` for the ids
and timestamps, `int32_t` for price and volume. -/
@[reducible]
def LimitOrder.Representable (o : LimitOrder) : Prop :=
  (-2 ^ 63 ≤ o.id ∧ o.id < 2 ^ 63) ∧ (-2 ^ 63 ≤ o.initialId ∧ o.initialId < 2 ^ 63) ∧
  (-2 ^ 63 ≤ o.start ∧ o.start < 2 ^ 63) ∧ (-2 ^ 63 ≤ o.cancel ∧ o.cancel < 2 ^ 63) ∧
  (-2 ^ 63 ≤ o.delivery ∧ o.delivery < 2 ^ 63) ∧
  (-2 ^ 31 ≤ o.price ∧ o.price < 2 ^ 31) ∧ (-2 ^ 31 ≤ o.volume ∧ o.volume < 2 ^ 31)

/-- The adapter builds orders whose members lie in the ranges of their C++ types. -/
def Adapter.Representable (a : Adapter) : Prop :=
  ∀ (r : RawOrder) (t1 t2 t3 : Int) (o : LimitOrder), a.build r t1 t2 t3 = some o →
    o.Representable

/-- The order that the adapter of the examples builds from a row. -/
def exampleOrder (r : RawOrder) (t1 t2 t3 : Int) : LimitOrder where
  id := r.id
  initialId := r.initial
  start := t2
  cancel := t3
  delivery := t1
  type := if r.side = "BUY" then OrderType.Buy else OrderType.Sell
  price := 100
  volume := 10

/-- An adapter for the examples: the timestamps `"t1"`, `"t2"`, `"t3"` denote the times 1, 2,
3 and every other string is unparsable; the side is `"BUY"` or sell; an order starts at its
transaction time, is cancelled at its validity and delivers at its start column; price and
volume are fixed to 100 and 10 units; an order with a member out of range is refused. -/
def exampleAdapter : Adapter where
  parseTime := fun s =>
    if s = "t1" then some 1 else if s = "t2" then some 2 else if s = "t3" then some 3
    else none
  build := fun r t1 t2 t3 =>
    if LimitOrder.Representable (exampleOrder r t1 t2 t3) then some (exampleOrder r t1 t2 t3)
    else none

/-- Two well-formed rows: a buy order placed at time 1 and a sell order placed at time 2. -/
def exampleColumns : OrderColumns where
  ids := [11, 12]
  initials := [11, 12]
  sides := ["BUY", "SELL"]
  starts := ["t3", "t3"]
  transactions := ["t1", "t2"]
  validities := ["t2", "t3"]
  prices := [Double.finite 1, Double.finite 1]
  quantities := [Double.finite 1, Double.finite 1]

/-- The rows of `exampleColumns` with an unparsable validity in the second row. -/
def brokenColumns : OrderColumns :=
  { exampleColumns with validities := ["t2", "never"] }

/-- The rows of `exampleColumns` with a price column that is one entry short. -/
def shortColumns : OrderColumns :=
  { exampleColumns with prices := [Double.finite 1] }

/-- The rows of `exampleColumns` with the placement times in descending order. -/
def descendingColumns : OrderColumns :=
  { exampleColumns with transactions := ["t2", "t1"] }

/-- A host without files. -/
def emptyFileSystem : FileSystem := fun _ => none

/-! ## Rounding to binary64 -/

theorem ilog2Aux_spec (fuel : Nat) : ∀ n : Nat, n ≤ fuel → n ≠ 0 →
    2 ^ ilog2Aux fuel n ≤ n ∧ n < 2 ^ (ilog2Aux fuel n + 1) := by
  induction fuel with
  | zero => intro n h1 h2; omega
  | succ fuel ih =>
    intro n h1 h2
    unfold ilog2Aux
    by_cases h : n < 2
    · have : n = 1 := by omega
      subst this
      simp
    · simp only [h, if_false]
      have h3 := ih (n / 2) (by omega) (by omega)
      obtain ⟨h4, h5⟩ := h3
      constructor
      · rw [pow_succ]
        omega
      · rw [pow_succ]
        omega

theorem ilog2_spec (n : Nat) (h : n ≠ 0) : 2 ^ ilog2 n ≤ n ∧ n < 2 ^ (ilog2 n + 1) :=
  ilog2Aux_spec n n (le_refl n) h

theorem roundHalfEven_spec (a b : Nat) (hb : 0 < b) :
    2 * (roundHalfEven a b * b) ≤ 2 * a + b ∧ 2 * a ≤ 2 * (roundHalfEven a b * b) + b := by
  have h1 : b * (a / b) + a % b = a := Nat.div_add_mod a b
  have h2 : a % b < b := Nat.mod_lt a hb
  have h3 : (a / b + 1) * b = b * (a / b) + b := by ring
  have h4 : a / b * b = b * (a / b) := by ring
  unfold roundHalfEven
  simp only
  split_ifs <;> simp only [h3, h4] <;> omega

theorem scaledDen_pos (d : Nat) (hd : 0 < d) (k : Int) : 0 < scaledDen d k := by
  unfold scaledDen
  positivity

theorem scaled_ratio (n d : Nat) (k : Int) :
    (scaledNum n k : ℚ) / (scaledDen d k : ℚ) = (n : ℚ) / d * (2 : ℚ) ^ k := by
  unfold scaledNum scaledDen
  rcases le_total 0 k with h | h
  · obtain ⟨m, rfl⟩ := Int.eq_ofNat_of_zero_le h
    simp
    ring
  · obtain ⟨m, rfl⟩ := Int.exists_eq_neg_ofNat h
    simp
    field_simp

theorem guessExp_spec (n d : Nat) (hn : 0 < n) (hd : 0 < d) :
    (2 : ℚ) ^ 52 < (n : ℚ) / d * (2 : ℚ) ^ guessExp n d ∧
      (n : ℚ) / d * (2 : ℚ) ^ guessExp n d < (2 : ℚ) ^ 54 := by
  obtain ⟨hn1, hn2⟩ := ilog2_spec n hn.ne'
  obtain ⟨hd1, hd2⟩ := ilog2_spec d hd.ne'
  have hn1q : (2 : ℚ) ^ ilog2 n ≤ n := by exact_mod_cast hn1
  have hn2q : (n : ℚ) < 2 * (2 : ℚ) ^ ilog2 n := by
    have : (n : ℚ) < (2 : ℚ) ^ (ilog2 n + 1) := by exact_mod_cast hn2
    rw [pow_succ] at this
    linarith
  have hd1q : (2 : ℚ) ^ ilog2 d ≤ d := by exact_mod_cast hd1
  have hd2q : (d : ℚ) < 2 * (2 : ℚ) ^ ilog2 d := by
    have : (d : ℚ) < (2 : ℚ) ^ (ilog2 d + 1) := by exact_mod_cast hd2
    rw [pow_succ] at this
    linarith
  have ha : (0 : ℚ) < (2 : ℚ) ^ ilog2 n := by positivity
  have hb : (0 : ℚ) < (2 : ℚ) ^ ilog2 d := by positivity
  have hdq : (0 : ℚ) < d := by exact_mod_cast hd
  have hnq : (0 : ℚ) < n := by exact_mod_cast hn
  have hk : (2 : ℚ) ^ guessExp n d = (2 : ℚ) ^ 53 * (2 : ℚ) ^ ilog2 d / (2 : ℚ) ^ ilog2 n := by
    unfold guessExp
    rw [zpow_sub₀ (by norm_num), zpow_add₀ (by norm_num)]
    simp [zpow_natCast]
    norm_cast
  rw [hk]
  generalize (2 : ℚ) ^ ilog2 n = a at *
  generalize (2 : ℚ) ^ ilog2 d = b at *
  have e : (n : ℚ) / d * ((2 : ℚ) ^ 53 * b / a) = (2 : ℚ) ^ 53 * (n * b) / (d * a) := by
    field_simp
    ring
  rw [e]
  constructor
  · rw [lt_div_iff₀ (by positivity)]
    have : (d : ℚ) * a < 2 * (n * b) := by nlinarith
    nlinarith
  · rw [div_lt_iff₀ (by positivity)]
    have : (n : ℚ) * b < 2 * (d * a) := by nlinarith
    nlinarith

theorem normExp_spec (n d : Nat) (hn : 0 < n) (hd : 0 < d) :
    (2 : ℚ) ^ 52 ≤ (n : ℚ) / d * (2 : ℚ) ^ normExp n d ∧
      (n : ℚ) / d * (2 : ℚ) ^ normExp n d < (2 : ℚ) ^ 53 := by
  obtain ⟨h1, h2⟩ := guessExp_spec n d hn hd
  have hsd : (0 : ℚ) < scaledDen d (guessExp n d) := by
    exact_mod_cast scaledDen_pos d hd (guessExp n d)
  have hr := scaled_ratio n d (guessExp n d)
  unfold normExp
  split_ifs with h
  · have hq : (2 : ℚ) ^ 53 * scaledDen d (guessExp n d) ≤ scaledNum n (guessExp n d) := by
      exact_mod_cast h
    have h3 : (2 : ℚ) ^ 53 ≤ (n : ℚ) / d * (2 : ℚ) ^ guessExp n d := by
      rw [← hr, le_div_iff₀ hsd]
      exact hq
    rw [zpow_sub₀ (by norm_num)]
    simp only [zpow_one]
    constructor
    · rw [← mul_div_assoc, le_div_iff₀ (by norm_num)]
      linarith
    · rw [← mul_div_assoc, div_lt_iff₀ (by norm_num)]
      linarith
  · have hq : (scaledNum n (guessExp n d) : ℚ) < (2 : ℚ) ^ 53 * scaledDen d (guessExp n d) := by
      exact_mod_cast (not_le.mp h)
    have h3 : (n : ℚ) / d * (2 : ℚ) ^ guessExp n d < (2 : ℚ) ^ 53 := by
      rw [← hr, div_lt_iff₀ hsd]
      exact hq
    exact ⟨h1.le, h3⟩

theorem roundMant_spec (n d : Nat) (hd : 0 < d) :
    |(roundMant n d : ℚ) - (n : ℚ) / d * (2 : ℚ) ^ binExp n d| ≤ 1 / 2 := by
  have hsd : (0 : ℚ) < scaledDen d (binExp n d) := by
    exact_mod_cast scaledDen_pos d hd (binExp n d)
  obtain ⟨h1, h2⟩ := roundHalfEven_spec (scaledNum n (binExp n d)) (scaledDen d (binExp n d))
    (scaledDen_pos d hd _)
  have h1q : 2 * ((roundMant n d : ℚ) * scaledDen d (binExp n d)) ≤
      2 * scaledNum n (binExp n d) + scaledDen d (binExp n d) := by
    unfold roundMant
    exact_mod_cast h1
  have h2q : 2 * (scaledNum n (binExp n d) : ℚ) ≤
      2 * ((roundMant n d : ℚ) * scaledDen d (binExp n d)) + scaledDen d (binExp n d) := by
    unfold roundMant
    exact_mod_cast h2
  rw [← scaled_ratio n d (binExp n d), abs_le]
  have hx : (scaledNum n (binExp n d) : ℚ) =
      (scaledNum n (binExp n d) : ℚ) / scaledDen d (binExp n d) * scaledDen d (binExp n d) := by
    field_simp
  generalize (scaledNum n (binExp n d) : ℚ) / scaledDen d (binExp n d) = x at *
  generalize (scaledDen d (binExp n d) : ℚ) = b at *
  generalize (scaledNum n (binExp n d) : ℚ) = a at *
  generalize (roundMant n d : ℚ) = m at *
  subst hx
  constructor
  · by_contra hcon
    push_neg at hcon
    nlinarith
  · by_contra hcon
    push_neg at hcon
    nlinarith

theorem roundPos_spec (q : ℚ) (hq : 0 < q) (hlo : (2 : ℚ) ^ (-1022 : ℤ) ≤ q) :
    |roundPos q - q| ≤ q * (2 : ℚ) ^ (-53 : ℤ) := by
  have hD : 0 < q.den := q.den_pos
  have hnum : 0 < q.num := Rat.num_pos.mpr hq
  have hN : 0 < q.num.natAbs := Int.natAbs_pos.mpr hnum.ne'
  have hcast : ((q.num.natAbs : ℕ) : ℚ) = (q.num : ℚ) := by
    have h : ((q.num.natAbs : ℕ) : ℤ) = q.num := Int.natAbs_of_nonneg hnum.le
    calc ((q.num.natAbs : ℕ) : ℚ) = (((q.num.natAbs : ℕ) : ℤ) : ℚ) := (Int.cast_natCast _).symm
      _ = (q.num : ℚ) := by rw [h]
  have hqe : ((q.num.natAbs : ℕ) : ℚ) / (q.den : ℚ) = q := by
    rw [hcast]
    exact Rat.num_div_den q
  obtain ⟨hn1, hn2⟩ := normExp_spec q.num.natAbs q.den hN hD
  rw [hqe] at hn1 hn2
  have hk : binExp q.num.natAbs q.den = normExp q.num.natAbs q.den := by
    unfold binExp
    apply min_eq_left
    by_contra hcon
    push_neg at hcon
    have h1075 : (1075 : ℤ) ≤ normExp q.num.natAbs q.den := by omega
    have hmono : (2 : ℚ) ^ (1075 : ℤ) ≤ (2 : ℚ) ^ normExp q.num.natAbs q.den :=
      zpow_le_zpow_right₀ (by norm_num) h1075
    have : (2 : ℚ) ^ (-1022 : ℤ) * (2 : ℚ) ^ (1075 : ℤ) ≤
        q * (2 : ℚ) ^ normExp q.num.natAbs q.den := by
      apply mul_le_mul hlo hmono (by positivity) hq.le
    have e : (2 : ℚ) ^ (-1022 : ℤ) * (2 : ℚ) ^ (1075 : ℤ) = (2 : ℚ) ^ 53 := by
      rw [← zpow_add₀ (by norm_num)]
      norm_num
    rw [e] at this
    linarith
  have hm := roundMant_spec q.num.natAbs q.den hD
  rw [hqe, hk] at hm
  unfold roundPos
  rw [hk]
  generalize normExp q.num.natAbs q.den = k at *
  generalize (roundMant q.num.natAbs q.den : ℚ) = m at *
  have hp : (0 : ℚ) < (2 : ℚ) ^ k := by positivity
  have e1 : m / (2 : ℚ) ^ k - q = (m - q * (2 : ℚ) ^ k) / (2 : ℚ) ^ k := by
    field_simp
    ring
  rw [e1, abs_div, abs_of_pos hp, div_le_iff₀ hp]
  have e2 : q * (2 : ℚ) ^ (-53 : ℤ) * (2 : ℚ) ^ k = q * (2 : ℚ) ^ k / (2 : ℚ) ^ 53 := by
    rw [zpow_neg]
    field_simp
    norm_cast
  rw [e2, le_div_iff₀ (by positivity)]
  have : |m - q * (2 : ℚ) ^ k| * (2 : ℚ) ^ 53 ≤ 1 / 2 * (2 : ℚ) ^ 53 :=
    mul_le_mul_of_nonneg_right hm (by positivity)
  have e3 : (1 : ℚ) / 2 * (2 : ℚ) ^ 53 = (2 : ℚ) ^ 52 := by norm_num
  linarith

theorem roundToDouble_spec (q : ℚ) (hlo : (2 : ℚ) ^ (-1022 : ℤ) ≤ |q|)
    (hhi : |q| ≤ (2 : ℚ) ^ 1023) :
    ∃ r : ℚ, roundToDouble q = Double.finite r ∧ |r - q| ≤ |q| * (2 : ℚ) ^ (-53 : ℤ) := by
  have hpos : 0 < |q| := lt_of_lt_of_le (by positivity) hlo
  have hq0 : q ≠ 0 := abs_pos.mp hpos
  have hsp := roundPos_spec |q| hpos hlo
  have hup : roundPos |q| < (2 : ℚ) ^ 1024 := by
    have h1 := (abs_le.mp hsp).2
    have h2 : |q| * (2 : ℚ) ^ (-53 : ℤ) < |q| := by
      have : (2 : ℚ) ^ (-53 : ℤ) < 1 := by
        rw [zpow_neg]
        apply inv_lt_one_of_one_lt₀
        norm_num
      nlinarith
    have h3 : (2 : ℚ) ^ 1024 = 2 * (2 : ℚ) ^ 1023 := by norm_num
    rw [h3]
    generalize (2 : ℚ) ^ 1023 = M at *
    linarith
  unfold roundToDouble
  rw [if_neg hq0, if_neg (not_le.mpr hup)]
  refine ⟨_, rfl, ?_⟩
  by_cases hneg : q < 0
  · rw [if_pos hneg]
    have e : |q| = -q := abs_of_neg hneg
    rw [e] at hsp ⊢
    have : -roundPos (-q) - q = -(roundPos (-q) - -q) := by ring
    rw [this, abs_neg]
    exact hsp
  · rw [if_neg hneg]
    have e : |q| = q := abs_of_nonneg (not_lt.mp hneg)
    rw [e] at hsp ⊢
    exact hsp

theorem Double.div_int_lit (n : Int) (c : Nat) (hc : 0 < c) :
    Double.ofInt32 n / Double.lit c = roundToDouble ((n : ℚ) / (c : ℚ)) := by
  have hc0 : (c : ℚ) ≠ 0 := by exact_mod_cast hc.ne'
  show Double.div (Double.finite n) (Double.finite c) = _
  unfold Double.div
  simp [hc0]

/-- A 32-bit `int` divided by one of the literals `10.0`, `100.0`, `1000.0` is a finite
double whose product with the literal differs from the integer by a relative error of at
most `2 ^ (-53)`. -/
theorem Double.div_int_lit_spec (n : Int) (c : Nat) (hc : 0 < c) (hc2 : c ≤ 1000)
    (hn : |n| ≤ 2 ^ 31) :
    ∃ r : ℚ, Double.ofInt32 n / Double.lit c = Double.finite r ∧
      |r * c - n| ≤ |(n : ℚ)| * (2 : ℚ) ^ (-53 : ℤ) := by
  rw [Double.div_int_lit n c hc]
  have hcq : (0 : ℚ) < c := by exact_mod_cast hc
  by_cases h0 : n = 0
  · subst h0
    refine ⟨0, ?_, ?_⟩
    · simp [roundToDouble]
    · simp
  · have hn1 : (1 : ℚ) ≤ |(n : ℚ)| := by
      have : (1 : ℤ) ≤ |n| := Int.one_le_abs h0
      exact_mod_cast this
    have hn2 : |(n : ℚ)| ≤ (2 : ℚ) ^ 31 := by exact_mod_cast hn
    have habs : |(n : ℚ) / (c : ℚ)| = |(n : ℚ)| / c := by
      rw [abs_div, abs_of_pos hcq]
    have hlo : (2 : ℚ) ^ (-1022 : ℤ) ≤ |(n : ℚ) / (c : ℚ)| := by
      rw [habs, le_div_iff₀ hcq]
      have h1 : (2 : ℚ) ^ (-1022 : ℤ) ≤ 1 / 1000 := by
        rw [zpow_neg, ← one_div]
        apply one_div_le_one_div_of_le (by norm_num)
        norm_num
      have h2 : (c : ℚ) ≤ 1000 := by exact_mod_cast hc2
      have h3 : (0 : ℚ) ≤ (2 : ℚ) ^ (-1022 : ℤ) := by positivity
      have h4 : (2 : ℚ) ^ (-1022 : ℤ) * c ≤ 1 / 1000 * 1000 :=
        mul_le_mul h1 h2 hcq.le (by norm_num)
      generalize (2 : ℚ) ^ (-1022 : ℤ) = e at *
      linarith
    have hhi : |(n : ℚ) / (c : ℚ)| ≤ (2 : ℚ) ^ 1023 := by
      rw [habs, div_le_iff₀ hcq]
      have h1 : (1 : ℚ) ≤ c := by exact_mod_cast hc
      have h2 : (2 : ℚ) ^ 31 ≤ (2 : ℚ) ^ 1023 := by norm_num
      have h3 : (0 : ℚ) ≤ (2 : ℚ) ^ 1023 := by positivity
      have h4 : (2 : ℚ) ^ 1023 * 1 ≤ (2 : ℚ) ^ 1023 * c := mul_le_mul_of_nonneg_left h1 h3
      generalize (2 : ℚ) ^ 1023 = M at *
      linarith
    obtain ⟨r, hr, hb⟩ := roundToDouble_spec _ hlo hhi
    refine ⟨r, hr, ?_⟩
    have e : r * c - n = (r - (n : ℚ) / c) * c := by
      field_simp
    rw [e, abs_mul, abs_of_pos hcq]
    rw [habs] at hb
    calc |r - (n : ℚ) / c| * c ≤ |(n : ℚ)| / c * (2 : ℚ) ^ (-53 : ℤ) * c :=
          mul_le_mul_of_nonneg_right hb hcq.le
      _ = |(n : ℚ)| * (2 : ℚ) ^ (-53 : ℤ) := by
          field_simp
          ring

/-- Distinct 32-bit `int`s divided by the same literal give distinct doubles. -/
theorem Double.div_int_lit_injective (n1 n2 : Int) (c : Nat) (hc : 0 < c) (hc2 : c ≤ 1000)
    (h1 : |n1| ≤ 2 ^ 31) (h2 : |n2| ≤ 2 ^ 31)
    (he : Double.ofInt32 n1 / Double.lit c = Double.ofInt32 n2 / Double.lit c) : n1 = n2 := by
  obtain ⟨r1, hr1, hb1⟩ := Double.div_int_lit_spec n1 c hc hc2 h1
  obtain ⟨r2, hr2, hb2⟩ := Double.div_int_lit_spec n2 c hc hc2 h2
  rw [hr1, hr2] at he
  have hr : r1 = r2 := by
    injection he
  subst hr
  have hn1 : |(n1 : ℚ)| ≤ (2 : ℚ) ^ 31 := by exact_mod_cast h1
  have hn2 : |(n2 : ℚ)| ≤ (2 : ℚ) ^ 31 := by exact_mod_cast h2
  have hs : (2 : ℚ) ^ 31 * (2 : ℚ) ^ (-53 : ℤ) ≤ 1 / 4 := by
    rw [zpow_neg]
    norm_num
  have hp : (0 : ℚ) ≤ (2 : ℚ) ^ (-53 : ℤ) := by positivity
  have hb1' : |r1 * c - n1| ≤ 1 / 4 :=
    le_trans hb1 (le_trans (mul_le_mul_of_nonneg_right hn1 hp) hs)
  have hb2' : |r1 * c - n2| ≤ 1 / 4 :=
    le_trans hb2 (le_trans (mul_le_mul_of_nonneg_right hn2 hp) hs)
  have hd : |(n1 : ℚ) - n2| < 1 := by
    have := abs_sub_le (n1 : ℚ) (r1 * c) n2
    have e : |(n1 : ℚ) - r1 * c| = |r1 * c - n1| := abs_sub_comm _ _
    rw [e] at this
    linarith
  have hz : |n1 - n2| < 1 := by exact_mod_cast hd
  have := Int.abs_lt_one_iff.mp hz
  omega

theorem roundMant_one_hundredth : roundMant 1 100 = 5764607523034235 := by decide

theorem binExp_one_hundredth : binExp 1 100 = 59 := by decide

theorem num_one_hundredth : ((1 : ℚ) / 100).num = 1 := by
  simp

theorem den_one_hundredth : ((1 : ℚ) / 100).den = 100 := by
  simp

theorem roundPos_one_hundredth : roundPos (1 / 100) = 5764607523034235 / 2 ^ 59 := by
  unfold roundPos
  rw [num_one_hundredth, den_one_hundredth]
  simp only [Int.natAbs_one]
  rw [roundMant_one_hundredth, binExp_one_hundredth]
  norm_cast

theorem one_div_hundred : Double.ofInt32 1 / Double.lit 100 =
    Double.finite (5764607523034235 / 2 ^ 59) := by
  rw [Double.div_int_lit 1 100 (by decide)]
  have e : ((1 : ℤ) : ℚ) / ((100 : ℕ) : ℚ) = 1 / 100 := by norm_num
  rw [e]
  unfold roundToDouble
  have h1 : |(1 : ℚ) / 100| = 1 / 100 := abs_of_pos (by norm_num)
  rw [h1, roundPos_one_hundredth]
  norm_num

/-! ## The order book: matching (C1) -/

theorem OrderBook.step_error_of_lt (b : OrderBook) (op : BookOp) (h : op.time < b.now) :
    b.step op = Except.error BookError.orderingViolation := by
  cases op <;> simp_all [OrderBook.step, OrderBook.submit, OrderBook.cancel, OrderBook.advanceTo,
    BookOp.time]

theorem OrderBook.step_ok_time (b b1 : OrderBook) (op : BookOp) (h : b.step op = Except.ok b1) :
    b.now ≤ op.time ∧ b1.now = op.time := by
  cases op <;>
    simp only [OrderBook.step, OrderBook.submit, OrderBook.cancel, OrderBook.advanceTo,
      BookOp.time] at h ⊢ <;>
    split_ifs at h with hlt <;>
    · simp only [Except.ok.injEq] at h
      subst h
      exact ⟨not_lt.mp hlt, rfl⟩

theorem OrderBook.run_append (b : OrderBook) (pre post : List BookOp) :
    b.run (pre ++ post) =
      match b.run pre with
      | Except.error e => Except.error e
      | Except.ok b1 => b1.run post := by
  induction pre generalizing b with
  | nil => rfl
  | cons op pre ih =>
    simp only [List.cons_append, OrderBook.run]
    cases hstep : b.step op with
    | error e => rfl
    | ok b1 => exact ih b1

theorem OrderBook.run_now_le (b b1 : OrderBook) (ops : List BookOp)
    (h : b.run ops = Except.ok b1) : b.now ≤ b1.now := by
  induction ops generalizing b with
  | nil =>
    simp only [OrderBook.run, Except.ok.injEq] at h
    subst h
    exact le_refl _
  | cons op ops ih =>
    simp only [OrderBook.run] at h
    cases hstep : b.step op with
    | error e => simp [hstep] at h
    | ok b2 =>
      rw [hstep] at h
      have h1 := OrderBook.step_ok_time b b2 op hstep
      have h2 := ih b2 h
      omega

/-- C10. The book's current time never decreases over a run of submissions, cancellations
and time advances, and an operation whose timestamp is earlier than the book's current time
fails with the fatal ordering violation: it returns no new book, and a feed that contains
such an operation aborts there, whatever follows. -/
theorem C10_time_monotone :
    (∀ (b : OrderBook) (op : BookOp), op.time < b.now →
      b.step op = Except.error BookError.orderingViolation) ∧
    (∀ (b b1 : OrderBook) (op : BookOp), b.step op = Except.ok b1 →
      b.now ≤ b1.now ∧ b1.now = op.time) ∧
    (∀ (b b1 : OrderBook) (ops : List BookOp), b.run ops = Except.ok b1 → b.now ≤ b1.now) ∧
    (∀ (b b1 : OrderBook) (pre post : List BookOp) (op : BookOp),
      b.run pre = Except.ok b1 → op.time < b1.now →
      b.run (pre ++ op :: post) = Except.error BookError.orderingViolation) := by
  refine ⟨OrderBook.step_error_of_lt, ?_, OrderBook.run_now_le, ?_⟩
  · intro b b1 op h
    have h1 := OrderBook.step_ok_time b b1 op h
    omega
  · intro b b1 pre post op hpre hlt
    rw [OrderBook.run_append, hpre]
    simp only [OrderBook.run, OrderBook.step_error_of_lt b1 op hlt]

/-- A feed that advances the book to time 10 and then submits the scenario's buy order with
the timestamp 5 aborts with the ordering violation; the submission alone, at time 12,
moves the book's time from 10 to 12. -/
theorem C10_time_monotone_witness :
    ((BookOp.submit 5 scenarioBuy).time < (OrderBook.empty 10).now ∧
      (OrderBook.empty 10).step (BookOp.submit 5 scenarioBuy) =
        Except.error BookError.orderingViolation) ∧
    ((OrderBook.empty 0).run ([BookOp.advanceTo 10] ++
        BookOp.submit 5 scenarioBuy :: [BookOp.advanceTo 20]) =
      Except.error BookError.orderingViolation) ∧
    (∃ b1, (OrderBook.empty 10).step (BookOp.submit 12 scenarioBuy) = Except.ok b1 ∧
      (OrderBook.empty 10).now ≤ b1.now ∧ b1.now = 12) :=
  ⟨⟨by decide, C10_time_monotone.1 (OrderBook.empty 10) (BookOp.submit 5 scenarioBuy)
      (by decide)⟩,
    C10_time_monotone.2.2.2 (OrderBook.empty 0) { (OrderBook.empty 0) with now := 10 }
      [BookOp.advanceTo 10] [BookOp.advanceTo 20] (BookOp.submit 5 scenarioBuy) rfl (by decide),
    ⟨_, rfl, C10_time_monotone.2.1 (OrderBook.empty 10) _ (BookOp.submit 12 scenarioBuy) rfl⟩⟩

/-! ## The order book: accounting of fills and removals (C4) -/

theorem volumeOf_append (x : Int) (l1 l2 : List LimitOrder) :
    volumeOf x (l1 ++ l2) = volumeOf x l1 + volumeOf x l2 := by
  simp [volumeOf, List.sum_append]

theorem volumeOf_cons (x : Int) (r : LimitOrder) (l : List LimitOrder) :
    volumeOf x (r :: l) = (if r.initialId = x then r.volume else 0) + volumeOf x l := by
  simp [volumeOf]

theorem volumeOf_insertBid (x : Int) (o : LimitOrder) (l : List LimitOrder) :
    volumeOf x (insertBid o l) = volumeOf x l + (if o.initialId = x then o.volume else 0) := by
  induction l with
  | nil => simp [insertBid, volumeOf]
  | cons r rest ih =>
    unfold insertBid
    by_cases h : o.price ≤ r.price
    · simp only [h, if_true, volumeOf_cons, ih]
      split_ifs <;> omega
    · simp only [h, if_false, volumeOf_cons]
      split_ifs <;> omega

theorem volumeOf_insertAsk (x : Int) (o : LimitOrder) (l : List LimitOrder) :
    volumeOf x (insertAsk o l) = volumeOf x l + (if o.initialId = x then o.volume else 0) := by
  induction l with
  | nil => simp [insertAsk, volumeOf]
  | cons r rest ih =>
    unfold insertAsk
    by_cases h : r.price ≤ o.price
    · simp only [h, if_true, volumeOf_cons, ih]
      split_ifs <;> omega
    · simp only [h, if_false, volumeOf_cons]
      split_ifs <;> omega

theorem volumeOf_filter_split (x : Int) (p : LimitOrder → Bool) (l : List LimitOrder) :
    volumeOf x (l.filter p) + volumeOf x (l.filter (fun r => !p r)) = volumeOf x l := by
  induction l with
  | nil => simp [volumeOf]
  | cons r rest ih =>
    by_cases h : p r = true
    · simp only [List.filter_cons, h, if_true, Bool.not_true, Bool.false_eq_true, if_false,
        volumeOf_cons]
      omega
    · simp only [Bool.not_eq_true] at h
      simp only [List.filter_cons, h, Bool.false_eq_true, if_false, Bool.not_false, if_true,
        volumeOf_cons]
      omega

theorem mem_insertBid (o r : LimitOrder) (l : List LimitOrder) (h : r ∈ insertBid o l) :
    r = o ∨ r ∈ l := by
  induction l with
  | nil =>
    simp only [insertBid, List.mem_singleton] at h
    exact Or.inl h
  | cons a rest ih =>
    unfold insertBid at h
    split_ifs at h with hp
    · rcases List.mem_cons.mp h with h1 | h1
      · exact Or.inr (h1 ▸ List.mem_cons_self _ _)
      · rcases ih h1 with h2 | h2
        · exact Or.inl h2
        · exact Or.inr (List.mem_cons_of_mem _ h2)
    · rcases List.mem_cons.mp h with h1 | h1
      · exact Or.inl h1
      · exact Or.inr h1

theorem mem_insertAsk (o r : LimitOrder) (l : List LimitOrder) (h : r ∈ insertAsk o l) :
    r = o ∨ r ∈ l := by
  induction l with
  | nil =>
    simp only [insertAsk, List.mem_singleton] at h
    exact Or.inl h
  | cons a rest ih =>
    unfold insertAsk at h
    split_ifs at h with hp
    · rcases List.mem_cons.mp h with h1 | h1
      · exact Or.inr (h1 ▸ List.mem_cons_self _ _)
      · rcases ih h1 with h2 | h2
        · exact Or.inl h2
        · exact Or.inr (List.mem_cons_of_mem _ h2)
    · rcases List.mem_cons.mp h with h1 | h1
      · exact Or.inl h1
      · exact Or.inr h1

theorem matchAgainst_cons_done (t : Int) (o r : LimitOrder) (rest : List LimitOrder)
    (h1 : o.volume ≤ 0) : matchAgainst t o (r :: rest) = (o, r :: rest, []) := by
  simp [matchAgainst, h1]

theorem matchAgainst_cons_skip (t : Int) (o r : LimitOrder) (rest : List LimitOrder)
    (h1 : 0 < o.volume) (h2 : r.eligible t = false) :
    matchAgainst t o (r :: rest) =
      ((matchAgainst t o rest).1, r :: (matchAgainst t o rest).2.1,
        (matchAgainst t o rest).2.2) := by
  simp [matchAgainst, not_le.mpr h1, h2]

theorem matchAgainst_cons_nocross (t : Int) (o r : LimitOrder) (rest : List LimitOrder)
    (h1 : 0 < o.volume) (h2 : r.eligible t = true) (h3 : crosses r o = false) :
    matchAgainst t o (r :: rest) = (o, r :: rest, []) := by
  simp [matchAgainst, not_le.mpr h1, h2, h3]

theorem matchAgainst_cons_small (t : Int) (o r : LimitOrder) (rest : List LimitOrder)
    (h1 : 0 < o.volume) (h2 : r.eligible t = true) (h3 : crosses r o = true)
    (h4 : o.volume < r.volume) :
    matchAgainst t o (r :: rest) =
      ({ o with volume := 0 }, { r with volume := r.volume - o.volume } :: rest,
        [mkTrade t r o]) := by
  simp [matchAgainst, not_le.mpr h1, h2, h3, h4]

theorem matchAgainst_cons_large (t : Int) (o r : LimitOrder) (rest : List LimitOrder)
    (h1 : 0 < o.volume) (h2 : r.eligible t = true) (h3 : crosses r o = true)
    (h4 : r.volume ≤ o.volume) :
    matchAgainst t o (r :: rest) =
      ((matchAgainst t { o with volume := o.volume - r.volume } rest).1,
        (matchAgainst t { o with volume := o.volume - r.volume } rest).2.1,
        mkTrade t r o :: (matchAgainst t { o with volume := o.volume - r.volume } rest).2.2) := by
  simp [matchAgainst, not_le.mpr h1, h2, h3, not_lt.mpr h4]

theorem mkTrade_volumeFor (t x : Int) (r o : LimitOrder) :
    Trade.volumeFor x (mkTrade t r o) =
      (if r.initialId = x then min r.volume o.volume else 0) +
        (if o.initialId = x then min r.volume o.volume else 0) := rfl

/-- Matching keeps the parent of the incoming order, does not raise its volume, leaves a
non-negative remainder and resting orders with volume, and conserves volume: what the
incoming order and the opposite side lose is the volume of the executions. -/
theorem matchAgainst_account (t x : Int) (l : List LimitOrder) :
    ∀ o : LimitOrder, 0 ≤ o.volume → (∀ r ∈ l, 0 < r.volume) →
      (matchAgainst t o l).1.initialId = o.initialId ∧
      0 ≤ (matchAgainst t o l).1.volume ∧
      (matchAgainst t o l).1.volume ≤ o.volume ∧
      (∀ r ∈ (matchAgainst t o l).2.1, 0 < r.volume) ∧
      volumeOf x l + (if o.initialId = x then o.volume else 0) =
        volumeOf x (matchAgainst t o l).2.1 +
          (if o.initialId = x then (matchAgainst t o l).1.volume else 0) +
          ((matchAgainst t o l).2.2.map (Trade.volumeFor x)).sum := by
  induction l with
  | nil =>
    intro o ho _
    simp [matchAgainst, ho, volumeOf]
  | cons r rest ih =>
    intro o ho hl
    have hr : 0 < r.volume := hl r (List.mem_cons_self _ _)
    have hrest : ∀ r2 ∈ rest, 0 < r2.volume := fun r2 h2 => hl r2 (List.mem_cons_of_mem _ h2)
    by_cases h1 : o.volume ≤ 0
    · rw [matchAgainst_cons_done t o r rest h1]
      exact ⟨rfl, ho, le_refl _, hl, by simp⟩
    · have h1' : 0 < o.volume := not_le.mp h1
      cases h2 : r.eligible t with
      | false =>
        rw [matchAgainst_cons_skip t o r rest h1' h2]
        obtain ⟨a1, a2, a3, a4, a5⟩ := ih o ho hrest
        refine ⟨a1, a2, a3, ?_, ?_⟩
        · intro r2 hr2
          rcases List.mem_cons.mp hr2 with h | h
          · rw [h]
            exact hr
          · exact a4 r2 h
        · simp only [volumeOf_cons]
          omega
      | true =>
        cases h3 : crosses r o with
        | false =>
          rw [matchAgainst_cons_nocross t o r rest h1' h2 h3]
          exact ⟨rfl, ho, le_refl _, hl, by simp⟩
        | true =>
          by_cases h4 : o.volume < r.volume
          · rw [matchAgainst_cons_small t o r rest h1' h2 h3 h4]
            have hmin : min r.volume o.volume = o.volume := min_eq_right h4.le
            refine ⟨rfl, le_refl _, ho, ?_, ?_⟩
            · intro r2 hr2
              rcases List.mem_cons.mp hr2 with h | h
              · rw [h]
                show 0 < r.volume - o.volume
                omega
              · exact hrest r2 h
            · simp only [volumeOf_cons, List.map_cons, List.map_nil, List.sum_cons,
                List.sum_nil, mkTrade_volumeFor, hmin]
              split_ifs <;> omega
          · have h4' : r.volume ≤ o.volume := not_lt.mp h4
            rw [matchAgainst_cons_large t o r rest h1' h2 h3 h4']
            have hmin : min r.volume o.volume = r.volume := min_eq_left h4'
            obtain ⟨a1, a2, a3, a4, a5⟩ := ih { o with volume := o.volume - r.volume }
              (by show 0 ≤ o.volume - r.volume; omega) hrest
            have a3' : (matchAgainst t { o with volume := o.volume - r.volume } rest).1.volume ≤
                o.volume - r.volume := a3
            have a5' : volumeOf x rest + (if o.initialId = x then o.volume - r.volume else 0) =
                volumeOf x (matchAgainst t { o with volume := o.volume - r.volume } rest).2.1 +
                (if o.initialId = x then
                  (matchAgainst t { o with volume := o.volume - r.volume } rest).1.volume
                  else 0) +
                ((matchAgainst t { o with volume := o.volume - r.volume } rest).2.2.map
                  (Trade.volumeFor x)).sum := a5
            refine ⟨a1, a2, le_trans a3' (by omega), a4, ?_⟩
            simp only [volumeOf_cons, List.map_cons, List.sum_cons, mkTrade_volumeFor, hmin]
            split_ifs at a5' ⊢ <;> omega

theorem removalEntry_volume (t x : Int) (l : List LimitOrder) :
    ((l.map (removalEntry t)).map (fun m => if m.initialId = x then m.volume else 0)).sum =
      volumeOf x l := by
  simp [volumeOf, removalEntry, List.map_map, Function.comp_def]

theorem HourBook.empty_inv : HourBook.empty.Inv := by
  simp [HourBook.Inv, HourBook.empty, HourBook.acceptedVolume, HourBook.tradedVolume,
    HourBook.removedVolume, HourBook.restingVolume, HourBook.droppedVolume, volumeOf]

theorem HourBook.submit_inv (t : Int) (hb : HourBook) (o : LimitOrder) (h : hb.Inv) :
    (HourBook.submit t hb o).Inv := by
  obtain ⟨i1, i2, i3, i4⟩ := h
  unfold HourBook.submit
  by_cases hacc : o.eligible t = false ∨ o.volume ≤ 0
  · rw [if_pos hacc]
    exact ⟨i1, i2, i3, i4⟩
  · rw [if_neg hacc]
    have hpos : 0 < o.volume := by
      by_contra hc
      exact hacc (Or.inr (not_lt.mp hc))
    cases hty : o.type with
    | Buy =>
      simp only
      refine ⟨?_, ?_, ?_, ?_⟩
      · intro x
        obtain ⟨a1, a2, a3, a4, a5⟩ := matchAgainst_account t x hb.asks o hpos.le i3
        have hi := i1 x
        simp only [HourBook.acceptedVolume, HourBook.tradedVolume, HourBook.removedVolume,
          HourBook.restingVolume, HourBook.droppedVolume, List.map_append, List.sum_append,
          List.map_cons, List.map_nil, List.sum_cons, List.sum_nil, acceptedEntry] at hi ⊢
        by_cases hins : 0 < (matchAgainst t o hb.asks).1.volume
        · rw [if_pos hins, volumeOf_insertBid, a1]
          split_ifs at a5 ⊢ <;> omega
        · rw [if_neg hins]
          split_ifs at a5 ⊢ <;> omega
      · intro r hr
        by_cases hins : 0 < (matchAgainst t o hb.asks).1.volume
        · rw [if_pos hins] at hr
          rcases mem_insertBid _ _ _ hr with h1 | h1
          · rw [h1]
            exact hins
          · exact i2 r h1
        · rw [if_neg hins] at hr
          exact i2 r hr
      · exact (matchAgainst_account t 0 hb.asks o hpos.le i3).2.2.2.1
      · intro a ha
        rcases List.mem_append.mp ha with h1 | h1
        · exact i4 a h1
        · simp only [List.mem_singleton] at h1
          obtain ⟨_, a2, a3, _, _⟩ := matchAgainst_account t 0 hb.asks o hpos.le i3
          rw [h1]
          simp only [acceptedEntry]
          omega
    | Sell =>
      simp only
      refine ⟨?_, ?_, ?_, ?_⟩
      · intro x
        obtain ⟨a1, a2, a3, a4, a5⟩ := matchAgainst_account t x hb.bids o hpos.le i2
        have hi := i1 x
        simp only [HourBook.acceptedVolume, HourBook.tradedVolume, HourBook.removedVolume,
          HourBook.restingVolume, HourBook.droppedVolume, List.map_append, List.sum_append,
          List.map_cons, List.map_nil, List.sum_cons, List.sum_nil, acceptedEntry] at hi ⊢
        by_cases hins : 0 < (matchAgainst t o hb.bids).1.volume
        · rw [if_pos hins, volumeOf_insertAsk, a1]
          split_ifs at a5 ⊢ <;> omega
        · rw [if_neg hins]
          split_ifs at a5 ⊢ <;> omega
      · exact (matchAgainst_account t 0 hb.bids o hpos.le i2).2.2.2.1
      · intro r hr
        by_cases hins : 0 < (matchAgainst t o hb.bids).1.volume
        · rw [if_pos hins] at hr
          rcases mem_insertAsk _ _ _ hr with h1 | h1
          · rw [h1]
            exact hins
          · exact i3 r h1
        · rw [if_neg hins] at hr
          exact i3 r hr
      · intro a ha
        rcases List.mem_append.mp ha with h1 | h1
        · exact i4 a h1
        · simp only [List.mem_singleton] at h1
          obtain ⟨_, a2, a3, _, _⟩ := matchAgainst_account t 0 hb.bids o hpos.le i2
          rw [h1]
          simp only [acceptedEntry]
          omega

theorem HourBook.cancel_inv (t : Int) (hb : HourBook) (orderId : Int) (h : hb.Inv) :
    (HourBook.cancel t hb orderId).Inv := by
  obtain ⟨i1, i2, i3, i4⟩ := h
  unfold HourBook.cancel
  refine ⟨?_, ?_, ?_, i4⟩
  · intro x
    have hi := i1 x
    have s1 := volumeOf_filter_split x (cancelDue t orderId) hb.bids
    have s2 := volumeOf_filter_split x (cancelDue t orderId) hb.asks
    have s3 := volumeOf_filter_split x hb.leavesEntry
      ((hb.bids ++ hb.asks).filter (cancelDue t orderId))
    have s4 : volumeOf x ((hb.bids ++ hb.asks).filter (cancelDue t orderId)) =
        volumeOf x (hb.bids.filter (cancelDue t orderId)) +
          volumeOf x (hb.asks.filter (cancelDue t orderId)) := by
      rw [List.filter_append, volumeOf_append]
    have s5 := removalEntry_volume t x
      (((hb.bids ++ hb.asks).filter (cancelDue t orderId)).filter hb.leavesEntry)
    simp only [HourBook.acceptedVolume, HourBook.tradedVolume, HourBook.removedVolume,
      HourBook.restingVolume, HourBook.droppedVolume, List.map_append, List.sum_append,
      volumeOf_append] at hi ⊢
    rw [s5]
    omega
  · intro r hr
    exact i2 r (List.mem_filter.mp hr).1
  · intro r hr
    exact i3 r (List.mem_filter.mp hr).1

theorem book_step_inv (b b1 : OrderBook) (op : BookOp) (h : b.Inv)
    (hstep : b.step op = Except.ok b1) : b1.Inv := by
  cases op with
  | submit t o =>
    simp only [OrderBook.step, OrderBook.submit] at hstep
    split_ifs at hstep
    simp only [Except.ok.injEq] at hstep
    subst hstep
    intro hr
    by_cases e : hr = o.delivery
    · subst e
      simp only [Function.update_same]
      exact HourBook.submit_inv t _ o (h _)
    · simp only [Function.update_noteq e]
      exact h hr
  | cancel t delivery orderId =>
    simp only [OrderBook.step, OrderBook.cancel] at hstep
    split_ifs at hstep
    simp only [Except.ok.injEq] at hstep
    subst hstep
    intro hr
    by_cases e : hr = delivery
    · subst e
      simp only [Function.update_same]
      exact HourBook.cancel_inv t _ orderId (h _)
    · simp only [Function.update_noteq e]
      exact h hr
  | advanceTo t =>
    simp only [OrderBook.step, OrderBook.advanceTo] at hstep
    split_ifs at hstep
    simp only [Except.ok.injEq] at hstep
    subst hstep
    exact h

theorem book_run_inv (b b1 : OrderBook) (ops : List BookOp) (h : b.Inv)
    (hrun : b.run ops = Except.ok b1) : b1.Inv := by
  induction ops generalizing b with
  | nil =>
    simp only [OrderBook.run, Except.ok.injEq] at hrun
    subst hrun
    exact h
  | cons op ops ih =>
    simp only [OrderBook.run] at hrun
    cases hstep : b.step op with
    | error e => simp [hstep] at hrun
    | ok b2 =>
      rw [hstep] at hrun
      exact ih b2 (book_step_inv b b2 op h hstep) hrun

/-! ## The binding `getLogs` (C6) -/

theorem foldl_append_singleton {α β : Type} (f : α → β) (l : List α) (init : List β) :
    l.foldl (fun acc r => acc ++ [f r]) init = init ++ l.map f := by
  induction l generalizing init with
  | nil => simp
  | cons a l ih => simp [ih]

theorem bite_getLogs_eq_map (fmt : EpochFormat) (self : Simulation) :
    BiteBinding.getLogs fmt self =
      (self.getDecisionData.map BiteBinding.decisionRecord,
       self.getPriceData.map BiteBinding.priceRecord,
       self.getAccOrders.map (BiteBinding.accOrderRecord fmt),
       self.getExOrders.map (BiteBinding.execOrderRecord fmt),
       self.getForeOrders.map (BiteBinding.foreOrderRecord fmt),
       self.getRemOrders.map (BiteBinding.removedOrderRecord fmt),
       self.getBalOrders.map (BiteBinding.balOrderRecord fmt)) := by
  simp [BiteBinding.getLogs, foldl_append_singleton]

theorem bitepy_getLogs_eq_map (fmt : EpochFormat) (self : Simulation) :
    BitepyBinding.getLogs fmt self =
      (self.getDecisionData.map BitepyBinding.decisionRecord,
       self.getPriceData.map BitepyBinding.priceRecord,
       self.getAccOrders.map (BitepyBinding.accOrderRecord fmt),
       self.getExOrders.map (BitepyBinding.execOrderRecord fmt),
       self.getForeOrders.map (BitepyBinding.foreOrderRecord fmt),
       self.getRemOrders.map (BitepyBinding.removedOrderRecord fmt),
       self.getBalOrders.map (BitepyBinding.balOrderRecord fmt)) := by
  simp [BitepyBinding.getLogs, foldl_append_singleton]

theorem builtFrom_map {α : Type} (f : α → PyDict) (src : List α) :
    BuiltFrom f src (src.map f) := by
  constructor
  · simp
  · intro i
    simp

/-- C6. `getLogs`, in `src/bite/_bite.cpp` and in `src/bitepy/_bite.cpp`, returns the
7-tuple of the decision, price, accepted-order, executed-order, forecast-order,
removed-order and balancing-order record lists, in this order; each list has as many
records as the collection returned by the corresponding getter and its `i`-th record is
the dict built from the `i`-th element of that collection. -/
theorem C6_getLogs_tuple (fmt : EpochFormat) (self : Simulation) :
    (BuiltFrom BiteBinding.decisionRecord self.getDecisionData (BiteBinding.getLogs fmt self).1 ∧
     BuiltFrom BiteBinding.priceRecord self.getPriceData (BiteBinding.getLogs fmt self).2.1 ∧
     BuiltFrom (BiteBinding.accOrderRecord fmt) self.getAccOrders
       (BiteBinding.getLogs fmt self).2.2.1 ∧
     BuiltFrom (BiteBinding.execOrderRecord fmt) self.getExOrders
       (BiteBinding.getLogs fmt self).2.2.2.1 ∧
     BuiltFrom (BiteBinding.foreOrderRecord fmt) self.getForeOrders
       (BiteBinding.getLogs fmt self).2.2.2.2.1 ∧
     BuiltFrom (BiteBinding.removedOrderRecord fmt) self.getRemOrders
       (BiteBinding.getLogs fmt self).2.2.2.2.2.1 ∧
     BuiltFrom (BiteBinding.balOrderRecord fmt) self.getBalOrders
       (BiteBinding.getLogs fmt self).2.2.2.2.2.2) ∧
    (BuiltFrom BitepyBinding.decisionRecord self.getDecisionData
       (BitepyBinding.getLogs fmt self).1 ∧
     BuiltFrom BitepyBinding.priceRecord self.getPriceData (BitepyBinding.getLogs fmt self).2.1 ∧
     BuiltFrom (BitepyBinding.accOrderRecord fmt) self.getAccOrders
       (BitepyBinding.getLogs fmt self).2.2.1 ∧
     BuiltFrom (BitepyBinding.execOrderRecord fmt) self.getExOrders
       (BitepyBinding.getLogs fmt self).2.2.2.1 ∧
     BuiltFrom (BitepyBinding.foreOrderRecord fmt) self.getForeOrders
       (BitepyBinding.getLogs fmt self).2.2.2.2.1 ∧
     BuiltFrom (BitepyBinding.removedOrderRecord fmt) self.getRemOrders
       (BitepyBinding.getLogs fmt self).2.2.2.2.2.1 ∧
     BuiltFrom (BitepyBinding.balOrderRecord fmt) self.getBalOrders
       (BitepyBinding.getLogs fmt self).2.2.2.2.2.2) := by
  rw [bite_getLogs_eq_map, bitepy_getLogs_eq_map]
  exact ⟨⟨builtFrom_map _ _, builtFrom_map _ _, builtFrom_map _ _, builtFrom_map _ _,
    builtFrom_map _ _, builtFrom_map _ _, builtFrom_map _ _⟩,
    ⟨builtFrom_map _ _, builtFrom_map _ _, builtFrom_map _ _, builtFrom_map _ _,
    builtFrom_map _ _, builtFrom_map _ _, builtFrom_map _ _⟩⟩

/-! ## Scaling of accepted orders (C7) -/

theorem IsInt32.abs_bound {x : Int} (h : IsInt32 x) : |x| ≤ 2 ^ 31 := by
  obtain ⟨h1, h2⟩ := h
  rw [abs_le]
  constructor <;> omega

theorem BiteBinding.accOrderRecord_eq (fmt : EpochFormat) (record : LogAcceptedOrder) :
    BiteBinding.accOrderRecord fmt record = [
      ("dp_run", PyValue.int record._dpRun),
      ("time", PyValue.str (fmt.LogAcceptedOrder_epochToLocalDateTimeMS record.time)),
      ("id", PyValue.int record.id),
      ("initial_id", PyValue.int record.initialId),
      ("start", PyValue.str (fmt.LogAcceptedOrder_epochToLocalDateTimeMS record.start)),
      ("cancel", PyValue.str (fmt.LogAcceptedOrder_epochToLocalDateTimeMS record.cancel)),
      ("delivery", PyValue.str (fmt.LogAcceptedOrder_epochToLocalDateTime record.delivery)),
      ("type", PyValue.str (sideString record.type)),
      ("price", PyValue.float (Double.ofInt32 record.price / Double.lit 100)),
      ("volume", PyValue.float (Double.ofInt32 record.volume / Double.lit 10)),
      ("partial", PyValue.bool record.partialFlag),
      ("partial_volume",
        PyValue.float (Double.ofInt32 record.partialVolume / Double.lit 10))] := by
  simp [BiteBinding.accOrderRecord, PyDict.assign, PyDict.setItem]

theorem BiteBinding.accOrderRecord_price (fmt : EpochFormat) (r : LogAcceptedOrder) :
    PyDict.getItem (BiteBinding.accOrderRecord fmt r) "price" =
      some (PyValue.float (Double.ofInt32 r.price / Double.lit 100)) := by
  simp [BiteBinding.accOrderRecord_eq, PyDict.getItem]

theorem BiteBinding.accOrderRecord_volume (fmt : EpochFormat) (r : LogAcceptedOrder) :
    PyDict.getItem (BiteBinding.accOrderRecord fmt r) "volume" =
      some (PyValue.float (Double.ofInt32 r.volume / Double.lit 10)) := by
  simp [BiteBinding.accOrderRecord_eq, PyDict.getItem]

theorem BiteBinding.accOrderRecord_partial_volume (fmt : EpochFormat) (r : LogAcceptedOrder) :
    PyDict.getItem (BiteBinding.accOrderRecord fmt r) "partial_volume" =
      some (PyValue.float (Double.ofInt32 r.partialVolume / Double.lit 10)) := by
  simp [BiteBinding.accOrderRecord_eq, PyDict.getItem]

theorem BiteBinding.accOrderRecord_id (fmt : EpochFormat) (r : LogAcceptedOrder) :
    PyDict.getItem (BiteBinding.accOrderRecord fmt r) "id" = some (PyValue.int r.id) := by
  simp [BiteBinding.accOrderRecord_eq, PyDict.getItem]

theorem BiteBinding.accOrderRecord_initial_id (fmt : EpochFormat) (r : LogAcceptedOrder) :
    PyDict.getItem (BiteBinding.accOrderRecord fmt r) "initial_id" =
      some (PyValue.int r.initialId) := by
  simp [BiteBinding.accOrderRecord_eq, PyDict.getItem]

theorem BiteBinding.accOrderRecord_dp_run (fmt : EpochFormat) (r : LogAcceptedOrder) :
    PyDict.getItem (BiteBinding.accOrderRecord fmt r) "dp_run" =
      some (PyValue.int r._dpRun) := by
  simp [BiteBinding.accOrderRecord_eq, PyDict.getItem]

theorem BiteBinding.accOrderRecord_partialFlag (fmt : EpochFormat) (r : LogAcceptedOrder) :
    PyDict.getItem (BiteBinding.accOrderRecord fmt r) "partial" =
      some (PyValue.bool r.partialFlag) := by
  simp [BiteBinding.accOrderRecord_eq, PyDict.getItem]

/-- C7, as stated, fails: for the accepted order with stored price 1 the reported price is
the double `5764607523034235 / 2 ^ 59` (the double nearest to 0.01), and 100 times this
rational is not the stored price 1. -/
theorem C7_counterexample :
    (BiteBinding.getLogs exampleFormat centSimulation).2.2.1.map
        (fun d => PyDict.getItem d "price") =
      [some (PyValue.float (Double.finite (5764607523034235 / 2 ^ 59)))] ∧
    (5764607523034235 / 2 ^ 59 : ℚ) * 100 ≠ ((centOrder.price : Int) : ℚ) := by
  constructor
  · rw [bite_getLogs_eq_map]
    simp only [centSimulation, List.map_cons, List.map_nil, BiteBinding.accOrderRecord_price]
    show [some (PyValue.float (Double.ofInt32 1 / Double.lit 100))] = _
    rw [one_div_hundred]
  · show (5764607523034235 / 2 ^ 59 : ℚ) * 100 ≠ ((1 : Int) : ℚ)
    norm_num

/-- C7 (amended). For every accepted-order log entry whose price, volume and partialVolume
are 32-bit `int`s, the record that `getLogs` reports at the same index carries `id`,
`initial_id`, `dp_run` and `partial` unchanged, and its `price`, `volume` and
`partial_volume` are the finite doubles `stored / 100.0`, `stored / 10.0`, `stored / 10.0`:
as exact rationals, `price * 100`, `volume * 10` and `partial_volume * 10` differ from the
stored integers by a relative error of at most `2 ^ (-53)`; and an entry with a different
stored price (or volume) is never reported with the same price (or volume). -/
theorem C7_accepted_order_scaling (fmt : EpochFormat) (self : Simulation) (i : Nat)
    (r : LogAcceptedOrder) (hi : self.getAccOrders[i]? = some r)
    (hp : IsInt32 r.price) (hv : IsInt32 r.volume) (hpv : IsInt32 r.partialVolume) :
    ∃ d : PyDict, (BiteBinding.getLogs fmt self).2.2.1[i]? = some d ∧
      (∃ p : ℚ, PyDict.getItem d "price" = some (PyValue.float (Double.finite p)) ∧
        |p * 100 - r.price| ≤ |(r.price : ℚ)| * (2 : ℚ) ^ (-53 : ℤ)) ∧
      (∃ v : ℚ, PyDict.getItem d "volume" = some (PyValue.float (Double.finite v)) ∧
        |v * 10 - r.volume| ≤ |(r.volume : ℚ)| * (2 : ℚ) ^ (-53 : ℤ)) ∧
      (∃ pv : ℚ, PyDict.getItem d "partial_volume" = some (PyValue.float (Double.finite pv)) ∧
        |pv * 10 - r.partialVolume| ≤ |(r.partialVolume : ℚ)| * (2 : ℚ) ^ (-53 : ℤ)) ∧
      PyDict.getItem d "id" = some (PyValue.int r.id) ∧
      PyDict.getItem d "initial_id" = some (PyValue.int r.initialId) ∧
      PyDict.getItem d "dp_run" = some (PyValue.int r._dpRun) ∧
      PyDict.getItem d "partial" = some (PyValue.bool r.partialFlag) ∧
      ∀ (j : Nat) (r2 : LogAcceptedOrder) (d2 : PyDict),
        self.getAccOrders[j]? = some r2 → (BiteBinding.getLogs fmt self).2.2.1[j]? = some d2 →
        (IsInt32 r2.price → PyDict.getItem d2 "price" = PyDict.getItem d "price" →
          r2.price = r.price) ∧
        (IsInt32 r2.volume → PyDict.getItem d2 "volume" = PyDict.getItem d "volume" →
          r2.volume = r.volume) := by
  rw [bite_getLogs_eq_map]
  refine ⟨BiteBinding.accOrderRecord fmt r, by simp [hi], ?_, ?_, ?_,
    BiteBinding.accOrderRecord_id fmt r, BiteBinding.accOrderRecord_initial_id fmt r,
    BiteBinding.accOrderRecord_dp_run fmt r, BiteBinding.accOrderRecord_partialFlag fmt r, ?_⟩
  · obtain ⟨p, h1, h2⟩ := Double.div_int_lit_spec r.price 100 (by decide) (by decide)
      hp.abs_bound
    refine ⟨p, ?_, by simpa using h2⟩
    rw [BiteBinding.accOrderRecord_price, h1]
  · obtain ⟨p, h1, h2⟩ := Double.div_int_lit_spec r.volume 10 (by decide) (by decide)
      hv.abs_bound
    refine ⟨p, ?_, by simpa using h2⟩
    rw [BiteBinding.accOrderRecord_volume, h1]
  · obtain ⟨p, h1, h2⟩ := Double.div_int_lit_spec r.partialVolume 10 (by decide) (by decide)
      hpv.abs_bound
    refine ⟨p, ?_, by simpa using h2⟩
    rw [BiteBinding.accOrderRecord_partial_volume, h1]
  · intro j r2 d2 hj hd2
    have hd2' : d2 = BiteBinding.accOrderRecord fmt r2 := by
      simp only [List.getElem?_map, hj, Option.map_some', Option.some.injEq] at hd2
      exact hd2.symm
    subst hd2'
    constructor
    · intro h32 he
      rw [BiteBinding.accOrderRecord_price, BiteBinding.accOrderRecord_price] at he
      simp only [Option.some.injEq, PyValue.float.injEq] at he
      exact Double.div_int_lit_injective _ _ 100 (by decide) (by decide) h32.abs_bound
        hp.abs_bound he
    · intro h32 he
      rw [BiteBinding.accOrderRecord_volume, BiteBinding.accOrderRecord_volume] at he
      simp only [Option.some.injEq, PyValue.float.injEq] at he
      exact Double.div_int_lit_injective _ _ 10 (by decide) (by decide) h32.abs_bound
        hv.abs_bound he

theorem C7_accepted_order_scaling_witness :
    ∃ d : PyDict, (BiteBinding.getLogs exampleFormat centSimulation).2.2.1[0]? = some d ∧
      (∃ p : ℚ, PyDict.getItem d "price" = some (PyValue.float (Double.finite p)) ∧
        |p * 100 - centOrder.price| ≤ |(centOrder.price : ℚ)| * (2 : ℚ) ^ (-53 : ℤ)) ∧
      (∃ v : ℚ, PyDict.getItem d "volume" = some (PyValue.float (Double.finite v)) ∧
        |v * 10 - centOrder.volume| ≤ |(centOrder.volume : ℚ)| * (2 : ℚ) ^ (-53 : ℤ)) ∧
      (∃ pv : ℚ, PyDict.getItem d "partial_volume" = some (PyValue.float (Double.finite pv)) ∧
        |pv * 10 - centOrder.partialVolume| ≤
          |(centOrder.partialVolume : ℚ)| * (2 : ℚ) ^ (-53 : ℤ)) ∧
      PyDict.getItem d "id" = some (PyValue.int centOrder.id) ∧
      PyDict.getItem d "initial_id" = some (PyValue.int centOrder.initialId) ∧
      PyDict.getItem d "dp_run" = some (PyValue.int centOrder._dpRun) ∧
      PyDict.getItem d "partial" = some (PyValue.bool centOrder.partialFlag) ∧
      ∀ (j : Nat) (r2 : LogAcceptedOrder) (d2 : PyDict),
        centSimulation.getAccOrders[j]? = some r2 →
        (BiteBinding.getLogs exampleFormat centSimulation).2.2.1[j]? = some d2 →
        (IsInt32 r2.price → PyDict.getItem d2 "price" = PyDict.getItem d "price" →
          r2.price = centOrder.price) ∧
        (IsInt32 r2.volume → PyDict.getItem d2 "volume" = PyDict.getItem d "volume" →
          r2.volume = centOrder.volume) :=
  C7_accepted_order_scaling exampleFormat centSimulation 0 centOrder rfl
    (by unfold IsInt32; decide) (by unfold IsInt32; decide) (by unfold IsInt32; decide)

/-! ## The binding `return_vol_price_pairs` (C8) -/

theorem foldl_append_bind {α β : Type} (g : List β → α → List β) (F : α → List β)
    (hg : ∀ acc x, g acc x = acc ++ F x) (l : List α) (init : List β) :
    l.foldl g init = init ++ l.flatMap F := by
  induction l generalizing init with
  | nil => simp
  | cons a l ih => simp [ih, hg, List.append_assoc]

theorem bite_return_vol_price_pairs_eq (fmt : EpochFormat) (self : Simulation)
    (last : Bool) (frequency : Int) (volumes : List Int) :
    BiteBinding.return_vol_price_pairs fmt self last frequency volumes =
      (VolPriceMap.items (self.return_vol_price_pairs last frequency volumes)).map
        (fun e => BiteBinding.volPriceRecord fmt e.1.1 e.1.2.1 e.1.2.2 e.2) := by
  unfold BiteBinding.return_vol_price_pairs VolPriceMap.items
  simp only
  rw [foldl_append_bind _ (fun kv1 => kv1.2.flatMap (fun kv2 => kv2.2.map (fun kv3 =>
    BiteBinding.volPriceRecord fmt kv1.1 kv2.1 kv3.1 kv3.2)))]
  · simp [List.map_flatMap, Function.comp_def]
  · intro acc kv1
    rw [foldl_append_bind _ (fun kv2 => kv2.2.map (fun kv3 =>
      BiteBinding.volPriceRecord fmt kv1.1 kv2.1 kv3.1 kv3.2))]
    intro acc2 kv2
    exact foldl_append_singleton _ _ _

theorem VolPriceMap.length_items (m : VolPriceMap) :
    (VolPriceMap.items m).length = VolPriceMap.size m := by
  unfold VolPriceMap.items VolPriceMap.size
  simp [List.length_flatMap, Function.comp_def]

theorem StdMap.keys_ne_of_WF {K V : Type} [Preorder K] (kv : K × V) (m : StdMap K V)
    (h : StdMap.WF (kv :: m)) : ∀ x ∈ m, kv.1 ≠ x.1 := by
  intro x hx
  have := (List.pairwise_cons.mp h).1 x hx
  exact ne_of_lt this

theorem StdMap.mem_iff_find {K V : Type} [Preorder K] [DecidableEq K] (m : StdMap K V)
    (h : StdMap.WF m) (k : K) (v : V) : (k, v) ∈ m ↔ StdMap.find m k = some v := by
  induction m with
  | nil => simp [StdMap.find]
  | cons kv m ih =>
    have hne := StdMap.keys_ne_of_WF kv m h
    have ih2 := ih (List.pairwise_cons.mp h).2
    unfold StdMap.find at ih2 ⊢
    by_cases hk : kv.1 = k
    · simp only [List.find?_cons, hk, decide_True, Option.map_some', Option.some.injEq,
        List.mem_cons]
      constructor
      · rintro (h1 | h1)
        · rw [← h1]
        · exact absurd hk (by simpa using hne (k, v) h1)
      · intro h1
        left
        rw [← h1, ← hk]
    · simp only [List.find?_cons, hk, decide_False, List.mem_cons]
      rw [← ih2]
      constructor
      · rintro (h1 | h1)
        · exact absurd (by rw [← h1]) hk
        · exact h1
      · intro h1
        exact Or.inr h1

theorem keyLt_ne (a b : Int × Int × Int) (h : keyLt a b) : a ≠ b := by
  intro e
  subst e
  unfold keyLt at h
  omega

theorem VolPriceMap.items_sorted (m : VolPriceMap) (h : VolPriceMap.WF m) :
    (VolPriceMap.items m).Pairwise (fun a b => keyLt a.1 b.1) := by
  obtain ⟨h0, h1⟩ := h
  unfold VolPriceMap.items
  rw [List.pairwise_flatMap]
  constructor
  · intro kv1 hkv1
    obtain ⟨h2, h3⟩ := h1 kv1 hkv1
    rw [List.pairwise_flatMap]
    constructor
    · intro kv2 hkv2
      rw [List.pairwise_map]
      exact List.Pairwise.imp (fun hab => Or.inr ⟨rfl, Or.inr ⟨rfl, hab⟩⟩) (h3 kv2 hkv2)
    · refine List.Pairwise.imp ?_ h2
      intro a b hab x hx y hy
      simp only [List.mem_map] at hx hy
      obtain ⟨x0, _, rfl⟩ := hx
      obtain ⟨y0, _, rfl⟩ := hy
      exact Or.inr ⟨rfl, Or.inl hab⟩
  · refine List.Pairwise.imp ?_ h0
    intro a b hab x hx y hy
    simp only [List.mem_flatMap, List.mem_map] at hx hy
    obtain ⟨x1, _, x0, _, rfl⟩ := hx
    obtain ⟨y1, _, y0, _, rfl⟩ := hy
    exact Or.inl hab

theorem VolPriceMap.mem_items_iff_lookup (m : VolPriceMap) (h : VolPriceMap.WF m)
    (t hr v : Int) (p : Int × Int) :
    ((t, hr, v), p) ∈ VolPriceMap.items m ↔ VolPriceMap.lookup m t hr v = some p := by
  obtain ⟨h0, h1⟩ := h
  unfold VolPriceMap.items VolPriceMap.lookup
  simp only [List.mem_flatMap, List.mem_map, Option.bind_eq_some, Prod.mk.injEq]
  constructor
  · rintro ⟨kv1, hkv1, kv2, hkv2, kv3, hkv3, ⟨rfl, rfl, rfl⟩, rfl⟩
    obtain ⟨h2, h3⟩ := h1 kv1 hkv1
    exact ⟨kv1.2, (StdMap.mem_iff_find m h0 kv1.1 kv1.2).mp hkv1, kv2.2,
      (StdMap.mem_iff_find kv1.2 h2 kv2.1 kv2.2).mp hkv2,
      (StdMap.mem_iff_find kv2.2 (h3 kv2 hkv2) kv3.1 kv3.2).mp hkv3⟩
  · rintro ⟨m1, hm1, m2, hm2, hp⟩
    have a1 := (StdMap.mem_iff_find m h0 t m1).mpr hm1
    obtain ⟨h2, h3⟩ := h1 (t, m1) a1
    have a2 := (StdMap.mem_iff_find m1 h2 hr m2).mpr hm2
    have a3 := (StdMap.mem_iff_find m2 (h3 (hr, m2) a2) v p).mpr hp
    exact ⟨(t, m1), a1, (hr, m2), a2, (v, p), a3, ⟨rfl, rfl, rfl⟩, rfl⟩

theorem bitepy_return_vol_price_pairs_eq (fmt : EpochFormat) (self : Simulation)
    (last : Bool) (frequency : Int) (volumes : List Int) :
    BitepyBinding.return_vol_price_pairs fmt self last frequency volumes =
      (VolPriceMap.items (self.return_vol_price_pairs last frequency volumes)).map
        (fun e => BitepyBinding.volPriceRecord fmt e.1.1 e.1.2.1 e.1.2.2 e.2) := by
  unfold BitepyBinding.return_vol_price_pairs VolPriceMap.items
  simp only
  rw [foldl_append_bind _ (fun kv1 => kv1.2.flatMap (fun kv2 => kv2.2.map (fun kv3 =>
    BitepyBinding.volPriceRecord fmt kv1.1 kv2.1 kv3.1 kv3.2)))]
  · simp [List.map_flatMap, Function.comp_def]
  · intro acc kv1
    rw [foldl_append_bind _ (fun kv2 => kv2.2.map (fun kv3 =>
      BitepyBinding.volPriceRecord fmt kv1.1 kv2.1 kv3.1 kv3.2))]
    intro acc2 kv2
    exact foldl_append_singleton _ _ _

/-- C8. For every nested map `m` returned by the core, the list that the binding
`return_vol_price_pairs` returns (in `src/bite/_bite.cpp` and in `src/bitepy/_bite.cpp`) is
the list of the records of the innermost items of `m`: its length is the number of innermost
items; when `m` satisfies the `std::map` invariant, no two items carry the same key triple
and the items are exactly the `((t, h, v), (p1, p2))` with `m[t][h][v] = (p1, p2)`; and the
record of such an item reports `volume = v / 10.0`, `price_full = p1 / 1000.0` and
`worst_accepted_price = p2 / 100.0`, the quotients being those of `double` arithmetic. -/
theorem C8_return_vol_price_pairs (fmt : EpochFormat) (self : Simulation) (last : Bool)
    (frequency : Int) (volumes : List Int) :
    (BiteBinding.return_vol_price_pairs fmt self last frequency volumes =
        (VolPriceMap.items (self.return_vol_price_pairs last frequency volumes)).map
          (fun e => BiteBinding.volPriceRecord fmt e.1.1 e.1.2.1 e.1.2.2 e.2) ∧
      BitepyBinding.return_vol_price_pairs fmt self last frequency volumes =
        (VolPriceMap.items (self.return_vol_price_pairs last frequency volumes)).map
          (fun e => BitepyBinding.volPriceRecord fmt e.1.1 e.1.2.1 e.1.2.2 e.2)) ∧
    ((BiteBinding.return_vol_price_pairs fmt self last frequency volumes).length =
        VolPriceMap.size (self.return_vol_price_pairs last frequency volumes) ∧
      (BitepyBinding.return_vol_price_pairs fmt self last frequency volumes).length =
        VolPriceMap.size (self.return_vol_price_pairs last frequency volumes)) ∧
    (VolPriceMap.WF (self.return_vol_price_pairs last frequency volumes) →
      (VolPriceMap.items (self.return_vol_price_pairs last frequency volumes)).Pairwise
          (fun a b => a.1 ≠ b.1) ∧
        ∀ (t h v : Int) (p : Int × Int),
          ((t, h, v), p) ∈ VolPriceMap.items (self.return_vol_price_pairs last frequency volumes) ↔
            VolPriceMap.lookup (self.return_vol_price_pairs last frequency volumes) t h v
              = some p) ∧
    (∀ (t h v : Int) (p : Int × Int),
      (PyDict.getItem (BiteBinding.volPriceRecord fmt t h v p) "volume" =
          some (PyValue.float (Double.ofInt32 v / Double.lit 10)) ∧
        PyDict.getItem (BiteBinding.volPriceRecord fmt t h v p) "price_full" =
          some (PyValue.float (Double.ofInt32 p.1 / Double.lit 1000)) ∧
        PyDict.getItem (BiteBinding.volPriceRecord fmt t h v p) "worst_accepted_price" =
          some (PyValue.float (Double.ofInt32 p.2 / Double.lit 100))) ∧
      (PyDict.getItem (BitepyBinding.volPriceRecord fmt t h v p) "volume" =
          some (PyValue.float (Double.ofInt32 v / Double.lit 10)) ∧
        PyDict.getItem (BitepyBinding.volPriceRecord fmt t h v p) "price_full" =
          some (PyValue.float (Double.ofInt32 p.1 / Double.lit 1000)) ∧
        PyDict.getItem (BitepyBinding.volPriceRecord fmt t h v p) "worst_accepted_price" =
          some (PyValue.float (Double.ofInt32 p.2 / Double.lit 100)))) := by
  refine ⟨⟨bite_return_vol_price_pairs_eq _ _ _ _ _,
    bitepy_return_vol_price_pairs_eq _ _ _ _ _⟩, ⟨?_, ?_⟩, ?_, ?_⟩
  · rw [bite_return_vol_price_pairs_eq, List.length_map, VolPriceMap.length_items]
  · rw [bitepy_return_vol_price_pairs_eq, List.length_map, VolPriceMap.length_items]
  · intro hwf
    exact ⟨List.Pairwise.imp (fun hab => keyLt_ne _ _ hab) (VolPriceMap.items_sorted _ hwf),
      fun t h v p => VolPriceMap.mem_items_iff_lookup _ hwf t h v p⟩
  · intro t h v p
    simp [BiteBinding.volPriceRecord, BitepyBinding.volPriceRecord, PyDict.assign,
      PyDict.setItem, PyDict.getItem]

theorem exampleSimulation_WF :
    VolPriceMap.WF (exampleSimulation.return_vol_price_pairs true 1 [5, 10]) := by
  simp [VolPriceMap.WF, StdMap.WF, exampleSimulation]

theorem C8_return_vol_price_pairs_witness :
    VolPriceMap.WF (exampleSimulation.return_vol_price_pairs true 1 [5, 10]) ∧
    (VolPriceMap.items (exampleSimulation.return_vol_price_pairs true 1 [5, 10])).Pairwise
      (fun a b => a.1 ≠ b.1) ∧
    ∀ (t h v : Int) (p : Int × Int),
      ((t, h, v), p) ∈ VolPriceMap.items (exampleSimulation.return_vol_price_pairs true 1 [5, 10]) ↔
        VolPriceMap.lookup (exampleSimulation.return_vol_price_pairs true 1 [5, 10]) t h v
          = some p :=
  ⟨exampleSimulation_WF,
    (C8_return_vol_price_pairs exampleFormat exampleSimulation true 1 [5, 10]).2.2.1
      exampleSimulation_WF⟩

/-! ## Settlement: one balancing entry per delivery hour (C9) -/

theorem commitPosition_hours (h p : Int) (l : List HourAccount) :
    (commitPosition h p l).map HourAccount.hour =
      if h ∈ l.map HourAccount.hour then l.map HourAccount.hour
      else l.map HourAccount.hour ++ [h] := by
  induction l with
  | nil => simp [commitPosition]
  | cons a rest ih =>
    unfold commitPosition
    by_cases ha : a.hour = h
    · simp [ha]
    · have ha2 : ¬ h = a.hour := fun e => ha e.symm
      simp only [ha, if_false, List.map_cons, ih, List.mem_cons, ha2, false_or]
      split_ifs <;> simp

theorem addExecuted_hours (h v : Int) (l : List HourAccount) :
    (addExecuted h v l).map HourAccount.hour =
      if h ∈ l.map HourAccount.hour then l.map HourAccount.hour
      else l.map HourAccount.hour ++ [h] := by
  induction l with
  | nil => simp [addExecuted]
  | cons a rest ih =>
    unfold addExecuted
    by_cases ha : a.hour = h
    · simp [ha]
    · have ha2 : ¬ h = a.hour := fun e => ha e.symm
      simp only [ha, if_false, List.map_cons, ih, List.mem_cons, ha2, false_or]
      split_ifs <;> simp

theorem hours_extend_ok (now h : Int) (hs hs2 : List Int) (hlt : now < h)
    (he : hs2 = if h ∈ hs then hs else hs ++ [h])
    (h1 : ∀ x ∈ hs, now < x) (h2 : hs.Nodup) : (∀ x ∈ hs2, now < x) ∧ hs2.Nodup := by
  subst he
  split_ifs with hm
  · exact ⟨h1, h2⟩
  · constructor
    · intro x hx
      rcases List.mem_append.mp hx with hx | hx
      · exact h1 x hx
      · simp only [List.mem_singleton] at hx
        omega
    · rw [List.nodup_append]
      refine ⟨h2, List.nodup_singleton h, ?_⟩
      intro x hx hx2
      simp only [List.mem_singleton] at hx2
      exact hm (hx2 ▸ hx)

theorem solve_hours_ok (now : Int) (positions : List (Int × Int)) (l : List HourAccount)
    (h1 : ∀ x ∈ l.map HourAccount.hour, now < x) (h2 : (l.map HourAccount.hour).Nodup) :
    (∀ x ∈ (positions.foldl
        (fun acc hp => if now < hp.1 then commitPosition hp.1 hp.2 acc else acc) l).map
        HourAccount.hour, now < x) ∧
      ((positions.foldl
        (fun acc hp => if now < hp.1 then commitPosition hp.1 hp.2 acc else acc) l).map
        HourAccount.hour).Nodup := by
  induction positions generalizing l with
  | nil => exact ⟨h1, h2⟩
  | cons hp rest ih =>
    simp only [List.foldl_cons]
    by_cases hlt : now < hp.1
    · simp only [hlt, if_true]
      have := hours_extend_ok now hp.1 _ _ hlt (commitPosition_hours hp.1 hp.2 l) h1 h2
      exact ih _ this.1 this.2
    · simp only [hlt, if_false]
      exact ih _ h1 h2

theorem closeEntries_mem (vol : Int → Int → Double) (dpRun t : Int) (l : List HourAccount)
    (e : BalancingOrder) (he : e ∈ closeEntries vol dpRun t l) :
    e.time = t ∧ e.hour ≤ t ∧ e.hour ∈ l.map HourAccount.hour := by
  unfold closeEntries at he
  simp only [List.mem_map, List.mem_filter, decide_eq_true_eq] at he
  obtain ⟨a, ⟨⟨ha1, ha2⟩, _⟩, rfl⟩ := he
  exact ⟨rfl, ha2, List.mem_map.mpr ⟨a, ha1, rfl⟩⟩

theorem closeEntries_nodup (vol : Int → Int → Double) (dpRun t : Int) (l : List HourAccount)
    (h : (l.map HourAccount.hour).Nodup) :
    ((closeEntries vol dpRun t l).map BalancingOrder.hour).Nodup := by
  unfold closeEntries
  rw [List.map_map]
  have e : (BalancingOrder.hour ∘ fun a : HourAccount =>
      ({ dpRun := dpRun, time := t, hour := a.hour, volume := vol a.committed a.executed } :
        BalancingOrder)) = HourAccount.hour := by
    funext a
    rfl
  rw [e]
  exact (h.sublist ((List.filter_sublist _).map _)).sublist
    ((List.filter_sublist _).map _) |>.sublist (List.Sublist.refl _)

theorem settlement_step_inv (vol : Int → Int → Double) (s : Settlement) (ev : SettleEvent)
    (h : s.Inv) : (s.step vol ev).Inv := by
  obtain ⟨h1, h2, h3, h4⟩ := h
  have h2' : ∀ x ∈ s.openHours.map HourAccount.hour, s.now < x := by
    intro x hx
    obtain ⟨a, ha, rfl⟩ := List.mem_map.mp hx
    exact h2 a ha
  cases ev with
  | solve positions =>
    have := solve_hours_ok s.now positions s.openHours h2' h3
    refine ⟨h1, ?_, this.2, h4⟩
    intro a ha
    exact this.1 a.hour (List.mem_map.mpr ⟨a, ha, rfl⟩)
  | execute hour volume =>
    simp only [Settlement.step]
    split_ifs with hlt
    · have := hours_extend_ok s.now hour _ _ hlt (addExecuted_hours hour volume s.openHours)
        h2' h3
      refine ⟨h1, ?_, this.2, h4⟩
      intro a ha
      exact this.1 a.hour (List.mem_map.mpr ⟨a, ha, rfl⟩)
    · exact ⟨h1, h2, h3, h4⟩
  | advanceTo t =>
    simp only [Settlement.step]
    split_ifs with hlt
    · exact ⟨h1, h2, h3, h4⟩
    · have hle : s.now ≤ t := not_lt.mp hlt
      refine ⟨?_, ?_, ?_, ?_⟩
      · intro e he
        rcases List.mem_append.mp he with he | he
        · have := h1 e he
          exact ⟨this.1, le_trans this.2 hle⟩
        · have := closeEntries_mem vol s.dpRun t s.openHours e he
          exact ⟨by rw [this.1]; exact this.2.1, this.2.1⟩
      · intro a ha
        simp only [List.mem_filter, decide_eq_true_eq] at ha
        exact ha.2
      · exact h3.sublist ((List.filter_sublist _).map _)
      · simp only [List.map_append]
        rw [List.nodup_append]
        refine ⟨h4, closeEntries_nodup vol s.dpRun t s.openHours h3, ?_⟩
        intro x hx hx2
        obtain ⟨e1, he1, rfl⟩ := List.mem_map.mp hx
        obtain ⟨e2, he2, he3⟩ := List.mem_map.mp hx2
        have a1 := (h1 e1 he1).2
        have a2 := closeEntries_mem vol s.dpRun t s.openHours e2 he2
        have a3 := h2' e2.hour a2.2.2
        omega

theorem settlement_run_inv (vol : Int → Int → Double) (events : List SettleEvent)
    (s : Settlement) (h : s.Inv) : (events.foldl (Settlement.step vol) s).Inv := by
  induction events generalizing s with
  | nil => exact h
  | cons ev rest ih => exact ih _ (settlement_step_inv vol s ev h)

/-- C9. After every run of settlement (any sequence of DP runs, executed trades and time
advances, from any start time), the balancing-order log contains no two entries with the
same delivery hour, and the creation time of every entry is not earlier than its delivery
hour. -/
theorem C9_one_balancing_entry_per_hour (vol : Int → Int → Double) (t0 : Int)
    (events : List SettleEvent) :
    ((Settlement.run vol t0 events).balOrders.map BalancingOrder.hour).Nodup ∧
    ∀ e ∈ (Settlement.run vol t0 events).balOrders, e.hour ≤ e.time := by
  have h0 : (Settlement.init t0).Inv := by
    simp [Settlement.Inv, Settlement.init]
  have h := settlement_run_inv vol events _ h0
  exact ⟨h.2.2.2, fun e he => (h.1 e he).1⟩

/-- A run that writes a balancing entry: the DP commits to 5 for the delivery hour 3600 and
to 0 for the hour 7200, 3 are executed for the hour 3600, and time advances from 0 to 4000;
one entry is written, for the hour 3600, at time 4000, and C9 holds of the log. -/
theorem C9_one_balancing_entry_per_hour_witness :
    ((Settlement.run (fun c e => Double.ofInt32 (c - e)) 0
      [SettleEvent.solve [(3600, 5), (7200, 0)], SettleEvent.execute 3600 3,
        SettleEvent.advanceTo 4000]).balOrders.map
      (fun e => (e.dpRun, e.time, e.hour))) = [(1, 4000, 3600)] ∧
    (((Settlement.run (fun c e => Double.ofInt32 (c - e)) 0
      [SettleEvent.solve [(3600, 5), (7200, 0)], SettleEvent.execute 3600 3,
        SettleEvent.advanceTo 4000]).balOrders.map BalancingOrder.hour).Nodup ∧
      ∀ e ∈ (Settlement.run (fun c e => Double.ofInt32 (c - e)) 0
        [SettleEvent.solve [(3600, 5), (7200, 0)], SettleEvent.execute 3600 3,
          SettleEvent.advanceTo 4000]).balOrders, e.hour ≤ e.time) :=
  ⟨by decide, C9_one_balancing_entry_per_hour (fun c e => Double.ofInt32 (c - e)) 0
    [SettleEvent.solve [(3600, 5), (7200, 0)], SettleEvent.execute 3600 3,
      SettleEvent.advanceTo 4000]⟩

/-! ## The two bindings agree (C18) -/

theorem bitepy_decisionRecord_eq_bite :
    BitepyBinding.decisionRecord = BiteBinding.decisionRecord := rfl

theorem bitepy_priceRecord_eq_bite :
    BitepyBinding.priceRecord = BiteBinding.priceRecord := rfl

theorem bitepy_accOrderRecord_eq_bite :
    BitepyBinding.accOrderRecord = BiteBinding.accOrderRecord := rfl

theorem bitepy_execOrderRecord_eq_bite :
    BitepyBinding.execOrderRecord = BiteBinding.execOrderRecord := rfl

theorem bitepy_foreOrderRecord_eq_bite :
    BitepyBinding.foreOrderRecord = BiteBinding.foreOrderRecord := rfl

theorem bitepy_removedOrderRecord_eq_bite :
    BitepyBinding.removedOrderRecord = BiteBinding.removedOrderRecord := rfl

theorem bitepy_balOrderRecord_eq_bite :
    BitepyBinding.balOrderRecord = BiteBinding.balOrderRecord := rfl

theorem bitepy_volPriceRecord_eq_bite :
    BitepyBinding.volPriceRecord = BiteBinding.volPriceRecord := rfl

theorem bitepy_getLogs_eq_bite (fmt : EpochFormat) (self : Simulation) :
    BitepyBinding.getLogs fmt self = BiteBinding.getLogs fmt self := by
  rw [bitepy_getLogs_eq_map, bite_getLogs_eq_map, bitepy_decisionRecord_eq_bite,
    bitepy_priceRecord_eq_bite, bitepy_accOrderRecord_eq_bite, bitepy_execOrderRecord_eq_bite,
    bitepy_foreOrderRecord_eq_bite, bitepy_removedOrderRecord_eq_bite,
    bitepy_balOrderRecord_eq_bite]

/-- C18. For every state of the core (every value of the seven log collections and of the
nested volume-price map) and every formatting of epochs, `getLogs` of
`src/bitepy/_bite.cpp` returns the same 7-tuple of record lists as `getLogs` of
`src/bite/_bite.cpp`, and `return_vol_price_pairs` of `src/bitepy/_bite.cpp` returns the
same list of records as that of `src/bite/_bite.cpp`, for every argument triple: the same
keys with the same values in the same order. -/
theorem C18_bindings_agree (fmt : EpochFormat) (self : Simulation) (last : Bool)
    (frequency : Int) (volumes : List Int) :
    BitepyBinding.getLogs fmt self = BiteBinding.getLogs fmt self ∧
    BitepyBinding.return_vol_price_pairs fmt self last frequency volumes =
      BiteBinding.return_vol_price_pairs fmt self last frequency volumes := by
  refine ⟨bitepy_getLogs_eq_bite fmt self, ?_⟩
  rw [bitepy_return_vol_price_pairs_eq, bite_return_vol_price_pairs_eq,
    bitepy_volPriceRecord_eq_bite]

/-! ## The reported side (C16) -/

theorem BiteBinding.execOrderRecord_eq (fmt : EpochFormat) (record : ExecMarketOrder) :
    BiteBinding.execOrderRecord fmt record = [
      ("dp_run", PyValue.int record.dpRun),
      ("time", PyValue.str (fmt.ExecMarketOrder_epochToDateTimeMS record.time)),
      ("last_solve_time",
        PyValue.str (fmt.ExecMarketOrder_epochToDateTimeMS record.lastSolveTime)),
      ("hour", PyValue.str (fmt.ExecMarketOrder_epochToDateTime record.hour)),
      ("reward", PyValue.float (Double.ofInt32 record.reward / Double.lit 1000)),
      ("reward_incl_deg_costs",
        PyValue.float (Double.ofInt32 record.rewardInclDegCosts / Double.lit 1000)),
      ("volume", PyValue.float (Double.ofInt32 record.volume / Double.lit 10)),
      ("type", PyValue.str (sideString record.type)),
      ("final_pos", PyValue.float (Double.ofInt32 record.finalPos / Double.lit 10)),
      ("final_stor", PyValue.float (record.finalStor / Double.lit 10))] := by
  simp [BiteBinding.execOrderRecord, PyDict.assign, PyDict.setItem]

theorem BiteBinding.removedOrderRecord_eq_exec :
    BiteBinding.removedOrderRecord = BiteBinding.execOrderRecord := rfl

theorem BiteBinding.foreOrderRecord_eq (fmt : EpochFormat) (record : ForeLogOrder) :
    BiteBinding.foreOrderRecord fmt record = [
      ("dp_run", PyValue.int record.dpRun),
      ("time", PyValue.str (fmt.ForeLogOrder_epochToDateTimeMS record.time)),
      ("last_solve_time", PyValue.str (fmt.ForeLogOrder_epochToDateTimeMS record.lastSolveTime)),
      ("hour", PyValue.str (fmt.ForeLogOrder_epochToDateTime record.hour)),
      ("reward", PyValue.float (Double.ofInt32 record.reward / Double.lit 1000)),
      ("volume", PyValue.float (Double.ofInt32 record.volume / Double.lit 10)),
      ("volume_previous",
        PyValue.float (Double.ofInt32 record.volumePrevious / Double.lit 10))] := by
  simp [BiteBinding.foreOrderRecord, PyDict.assign, PyDict.setItem]

theorem BiteBinding.balOrderRecord_eq (fmt : EpochFormat) (record : BalancingOrder) :
    BiteBinding.balOrderRecord fmt record = [
      ("dp_run", PyValue.int record.dpRun),
      ("time", PyValue.str (fmt.BalancingOrder_epochToDateTimeMS record.time)),
      ("hour", PyValue.str (fmt.BalancingOrder_epochToDateTime record.hour)),
      ("volume", PyValue.float (record.volume / Double.lit 10))] := by
  simp [BiteBinding.balOrderRecord, PyDict.assign, PyDict.setItem]

theorem BiteBinding.accOrderRecord_side (fmt : EpochFormat) (r : LogAcceptedOrder) :
    ReportsSide (BiteBinding.accOrderRecord fmt r) r.type := by
  simp [ReportsSide, BiteBinding.accOrderRecord_eq, PyDict.getItem]

theorem BiteBinding.execOrderRecord_side (fmt : EpochFormat) (r : ExecMarketOrder) :
    ReportsSide (BiteBinding.execOrderRecord fmt r) r.type := by
  simp [ReportsSide, BiteBinding.execOrderRecord_eq, PyDict.getItem]

theorem sideString_eq_buy_iff (t : OrderType) : sideString t = "Buy" ↔ t = OrderType.Buy := by
  cases t <;> simp [sideString]

theorem sideString_eq_sell_iff (t : OrderType) :
    sideString t = "Sell" ↔ t = OrderType.Sell := by
  cases t <;> simp [sideString]

theorem getElem?_map_of_eq {α β : Type} (f : α → β) (l : List α) (i : Nat) (a : α)
    (h : l[i]? = some a) : (l.map f)[i]? = some (f a) := by
  simp [h]

/-- C16. In both bindings, the record that `getLogs` reports for the `i`-th accepted,
executed or removed entry carries under `type` the string of the stored side; that string
is `"Buy"` or `"Sell"`, it is `"Buy"` if and only if the stored type is
`LimitOrder::Type::Buy` and `"Sell"` if and only if it is `LimitOrder::Type::Sell`; hence
two entries reported with the same string have the same stored side. -/
theorem C16_side_strings (fmt : EpochFormat) (self : Simulation) :
    (∀ (i : Nat) (r : LogAcceptedOrder), self.getAccOrders[i]? = some r →
      ∃ d, (BiteBinding.getLogs fmt self).2.2.1[i]? = some d ∧
        (BitepyBinding.getLogs fmt self).2.2.1[i]? = some d ∧ ReportsSide d r.type) ∧
    (∀ (i : Nat) (r : ExecMarketOrder), self.getExOrders[i]? = some r →
      ∃ d, (BiteBinding.getLogs fmt self).2.2.2.1[i]? = some d ∧
        (BitepyBinding.getLogs fmt self).2.2.2.1[i]? = some d ∧ ReportsSide d r.type) ∧
    (∀ (i : Nat) (r : ExecMarketOrder), self.getRemOrders[i]? = some r →
      ∃ d, (BiteBinding.getLogs fmt self).2.2.2.2.2.1[i]? = some d ∧
        (BitepyBinding.getLogs fmt self).2.2.2.2.2.1[i]? = some d ∧ ReportsSide d r.type) ∧
    (∀ t : OrderType, (sideString t = "Buy" ∨ sideString t = "Sell") ∧
      (sideString t = "Buy" ↔ t = OrderType.Buy) ∧
      (sideString t = "Sell" ↔ t = OrderType.Sell)) ∧
    (∀ t1 t2 : OrderType, sideString t1 = sideString t2 → t1 = t2) := by
  rw [bitepy_getLogs_eq_bite, bite_getLogs_eq_map]
  refine ⟨?_, ?_, ?_, ?_, ?_⟩
  · intro i r hi
    exact ⟨_, getElem?_map_of_eq _ _ _ _ hi, getElem?_map_of_eq _ _ _ _ hi,
      BiteBinding.accOrderRecord_side fmt r⟩
  · intro i r hi
    exact ⟨_, getElem?_map_of_eq _ _ _ _ hi, getElem?_map_of_eq _ _ _ _ hi,
      BiteBinding.execOrderRecord_side fmt r⟩
  · intro i r hi
    refine ⟨_, getElem?_map_of_eq _ _ _ _ hi, getElem?_map_of_eq _ _ _ _ hi, ?_⟩
    rw [BiteBinding.removedOrderRecord_eq_exec]
    exact BiteBinding.execOrderRecord_side fmt r
  · intro t
    refine ⟨?_, sideString_eq_buy_iff t, sideString_eq_sell_iff t⟩
    cases t
    · right
      exact (sideString_eq_sell_iff _).mpr rfl
    · left
      exact (sideString_eq_buy_iff _).mpr rfl
  · intro t1 t2 h
    cases t1 <;> cases t2 <;> first | rfl | (exfalso; revert h; simp [sideString])

theorem C16_side_strings_witness :
    (∃ d, (BiteBinding.getLogs exampleFormat ledgerSimulation).2.2.1[0]? = some d ∧
      (BitepyBinding.getLogs exampleFormat ledgerSimulation).2.2.1[0]? = some d ∧
      ReportsSide d OrderType.Buy) ∧
    (∃ d, (BiteBinding.getLogs exampleFormat ledgerSimulation).2.2.2.1[0]? = some d ∧
      (BitepyBinding.getLogs exampleFormat ledgerSimulation).2.2.2.1[0]? = some d ∧
      ReportsSide d OrderType.Sell) ∧
    (∃ d, (BiteBinding.getLogs exampleFormat ledgerSimulation).2.2.2.2.2.1[0]? = some d ∧
      (BitepyBinding.getLogs exampleFormat ledgerSimulation).2.2.2.2.2.1[0]? = some d ∧
      ReportsSide d OrderType.Sell) :=
  ⟨(C16_side_strings exampleFormat ledgerSimulation).1 0 centOrder rfl,
    (C16_side_strings exampleFormat ledgerSimulation).2.1 0 saleOrder rfl,
    (C16_side_strings exampleFormat ledgerSimulation).2.2.1 0 saleOrder rfl⟩

/-! ## Order of the volume-price records (C19) -/

/-- C19. When the nested map returned by the core satisfies the `std::map` invariant, the
list returned by `return_vol_price_pairs` (in both bindings) is the list of the records of
the innermost items taken in strictly increasing lexicographic order of their stored key
triples (current time, delivery hour, volume): of two records, the earlier one has the
smaller current time, or the same current time and the smaller delivery hour, or the same
current time and delivery hour and the smaller volume; no two records stem from the same
key triple. -/
theorem C19_vol_price_pairs_sorted (fmt : EpochFormat) (self : Simulation) (last : Bool)
    (frequency : Int) (volumes : List Int)
    (hwf : VolPriceMap.WF (self.return_vol_price_pairs last frequency volumes)) :
    BiteBinding.return_vol_price_pairs fmt self last frequency volumes =
      (VolPriceMap.items (self.return_vol_price_pairs last frequency volumes)).map
        (fun e => BiteBinding.volPriceRecord fmt e.1.1 e.1.2.1 e.1.2.2 e.2) ∧
    BitepyBinding.return_vol_price_pairs fmt self last frequency volumes =
      (VolPriceMap.items (self.return_vol_price_pairs last frequency volumes)).map
        (fun e => BitepyBinding.volPriceRecord fmt e.1.1 e.1.2.1 e.1.2.2 e.2) ∧
    (∀ (i j : Nat) (a b : (Int × Int × Int) × (Int × Int)), i < j →
      (VolPriceMap.items (self.return_vol_price_pairs last frequency volumes))[i]? = some a →
      (VolPriceMap.items (self.return_vol_price_pairs last frequency volumes))[j]? = some b →
      keyLt a.1 b.1) ∧
    ((VolPriceMap.items (self.return_vol_price_pairs last frequency volumes)).map
      Prod.fst).Nodup := by
  have hs := VolPriceMap.items_sorted _ hwf
  refine ⟨bite_return_vol_price_pairs_eq _ _ _ _ _, bitepy_return_vol_price_pairs_eq _ _ _ _ _,
    ?_, ?_⟩
  · intro i j a b hij ha hb
    obtain ⟨hi, hai⟩ := List.getElem?_eq_some.mp ha
    obtain ⟨hj, hbj⟩ := List.getElem?_eq_some.mp hb
    have h := List.pairwise_iff_getElem.mp hs i j hi hj hij
    rw [hai, hbj] at h
    exact h
  · rw [List.Nodup, List.pairwise_map]
    exact List.Pairwise.imp (fun hab => keyLt_ne _ _ hab) hs

theorem C19_vol_price_pairs_sorted_witness :
    VolPriceMap.WF (exampleSimulation.return_vol_price_pairs true 1 [5, 10]) ∧
    (∀ (i j : Nat) (a b : (Int × Int × Int) × (Int × Int)), i < j →
      (VolPriceMap.items (exampleSimulation.return_vol_price_pairs true 1 [5, 10]))[i]?
        = some a →
      (VolPriceMap.items (exampleSimulation.return_vol_price_pairs true 1 [5, 10]))[j]?
        = some b →
      keyLt a.1 b.1) ∧
    ((VolPriceMap.items (exampleSimulation.return_vol_price_pairs true 1 [5, 10])).map
      Prod.fst).Nodup :=
  ⟨exampleSimulation_WF,
    (C19_vol_price_pairs_sorted exampleFormat exampleSimulation true 1 [5, 10]
      exampleSimulation_WF).2.2⟩

/-! ## The exposed parameters (C15) -/

/-- C15, as stated, fails: the data model enumerates `stoRoundDec`, and the property chain of
`src/bitepy/_bite.cpp` holds no property of that name (its `def_property` is commented
out), although the chain of `src/bite/_bite.cpp` does. -/
theorem C15_counterexample :
    "stoRoundDec" ∈ dataModelParameters ∧
    Exposes BiteBinding.simulationParametersProperties "stoRoundDec" = true ∧
    Exposes BitepyBinding.simulationParametersProperties "stoRoundDec" = false ∧
    (∀ p ∈ BitepyBinding.simulationParametersProperties, p.name ≠ "stoRoundDec") := by
  decide

/-- C15 (amended). Every parameter that the data model enumerates is exposed by
`src/bite/_bite.cpp` as a property of `SimulationParameters` with a getter and a setter
declared in `SimulationParameters.h`; `src/bitepy/_bite.cpp` exposes in the same way exactly
those enumerated parameters that are not among `stoRoundDec`, `foreHorizonStart`,
`foreHorizonEnd`, `bidAskPenalty`, `checkProfit`, `checkLOExec` and `useSliding`; every
property of `src/bitepy/_bite.cpp` is a property of `src/bite/_bite.cpp` with the same
getter and setter, and no binding defines a property name twice. -/
theorem C15_exposed_parameters :
    (∀ name ∈ dataModelParameters,
      Exposes BiteBinding.simulationParametersProperties name = true) ∧
    (∀ name ∈ dataModelParameters,
      (Exposes BitepyBinding.simulationParametersProperties name = true ↔
        name ∉ bitepyWithheldParameters)) ∧
    (∀ name ∈ bitepyWithheldParameters, name ∈ dataModelParameters) ∧
    (∀ p ∈ BitepyBinding.simulationParametersProperties,
      p ∈ BiteBinding.simulationParametersProperties) ∧
    (BiteBinding.simulationParametersProperties.map PropertyDef.name).Nodup ∧
    (BitepyBinding.simulationParametersProperties.map PropertyDef.name).Nodup := by
  refine ⟨by decide, by decide, by decide, by decide, by decide, by decide⟩

/-! ## Division of a stored double by a literal -/

theorem Double.div_finite_lit (s : ℚ) (c : Nat) (hc : 0 < c) :
    Double.finite s / Double.lit c = roundToDouble (s / (c : ℚ)) := by
  have hc0 : (c : ℚ) ≠ 0 := by exact_mod_cast hc.ne'
  show Double.div (Double.finite s) (Double.finite c) = _
  unfold Double.div
  simp [hc0]

/-- A finite double of normal magnitude divided by the literal `10.0` is a finite double
whose product with 10 differs from the dividend by a relative error of at most
`2 ^ (-53)`. -/
theorem Double.div_finite_ten_spec (s : ℚ) (hlo : (2 : ℚ) ^ (-1018 : ℤ) ≤ |s|)
    (hhi : |s| ≤ (2 : ℚ) ^ 1023) :
    ∃ r : ℚ, Double.finite s / Double.lit 10 = Double.finite r ∧
      |r * (10 : ℕ) - s| ≤ |s| * (2 : ℚ) ^ (-53 : ℤ) := by
  rw [Double.div_finite_lit s 10 (by decide)]
  have habs : |s / ((10 : ℕ) : ℚ)| = |s| / 10 := by
    rw [abs_div]
    norm_num
  have hlo2 : (2 : ℚ) ^ (-1022 : ℤ) ≤ |s / ((10 : ℕ) : ℚ)| := by
    rw [habs, le_div_iff₀ (by norm_num)]
    have e : (2 : ℚ) ^ (-1018 : ℤ) = (2 : ℚ) ^ (-1022 : ℤ) * 16 := by
      rw [show (-1018 : ℤ) = -1022 + 4 by norm_num, zpow_add₀ (by norm_num)]
      norm_num
    have h3 : (0 : ℚ) ≤ (2 : ℚ) ^ (-1022 : ℤ) := by positivity
    rw [e] at hlo
    generalize (2 : ℚ) ^ (-1022 : ℤ) = e at *
    linarith
  have hhi2 : |s / ((10 : ℕ) : ℚ)| ≤ (2 : ℚ) ^ 1023 := by
    rw [habs, div_le_iff₀ (by norm_num)]
    have h3 : (0 : ℚ) ≤ (2 : ℚ) ^ 1023 := by positivity
    generalize (2 : ℚ) ^ 1023 = M at *
    linarith
  obtain ⟨r, hr, hb⟩ := roundToDouble_spec _ hlo2 hhi2
  refine ⟨r, hr, ?_⟩
  have e : r * ((10 : ℕ) : ℚ) - s = (r - s / ((10 : ℕ) : ℚ)) * 10 := by
    push_cast
    ring
  rw [e, abs_mul, abs_of_pos (by norm_num : (0 : ℚ) < 10)]
  rw [habs] at hb
  calc |r - s / ((10 : ℕ) : ℚ)| * 10 ≤ |s| / 10 * (2 : ℚ) ^ (-53 : ℤ) * 10 :=
        mul_le_mul_of_nonneg_right hb (by norm_num)
    _ = |s| * (2 : ℚ) ^ (-53 : ℤ) := by ring

/-- The double nearest to a positive rational, from its significand and binary scale. -/
theorem roundToDouble_pos_eq (q : ℚ) (n d m k : Nat) (hq : 0 < q)
    (hn : q.num.natAbs = n) (hd : q.den = d) (hm : roundMant n d = m)
    (hk : binExp n d = (k : Int)) (hfin : m < 2 ^ (1024 + k)) :
    roundToDouble q = Double.finite ((m : ℚ) / 2 ^ k) := by
  have hr : roundPos |q| = (m : ℚ) / 2 ^ k := by
    unfold roundPos
    rw [abs_of_pos hq, hn, hd, hm, hk, zpow_natCast]
  have hlt : ¬ (2 : ℚ) ^ 1024 ≤ (m : ℚ) / 2 ^ k := by
    rw [not_le, div_lt_iff₀ (by positivity), ← pow_add]
    exact_mod_cast hfin
  unfold roundToDouble
  rw [hr, if_neg hq.ne', if_neg hlt, if_neg (not_lt.mpr hq.le)]

theorem one_div_ten : Double.ofInt32 1 / Double.lit 10 =
    Double.finite (3602879701896397 / 2 ^ 55) := by
  rw [Double.div_int_lit 1 10 (by decide)]
  have e : ((1 : ℤ) : ℚ) / ((10 : ℕ) : ℚ) = 1 / 10 := by norm_num
  rw [e, roundToDouble_pos_eq (1 / 10) 1 10 7205759403792794 56 (by norm_num) (by simp)
    (by simp) (by decide) (by decide) (by norm_num)]
  norm_num

theorem five_halves_div_ten : Double.finite (5 / 2) / Double.lit 10 =
    Double.finite (1 / 4) := by
  rw [Double.div_finite_lit _ 10 (by decide)]
  have e : (5 / 2 : ℚ) / ((10 : ℕ) : ℚ) = 1 / 4 := by norm_num
  rw [e, roundToDouble_pos_eq (1 / 4) 1 4 (2 ^ 52) 54 (by norm_num) (by simp)
    (by simp) (by decide) (by decide) (by norm_num)]
  norm_num

/-! ## Reported volumes (C13) -/

theorem reportsScaled_int (d : PyDict) (key : String) (c : Nat) (n : Int) (hc : 0 < c)
    (hc2 : c ≤ 1000) (hn : IsInt32 n)
    (hd : PyDict.getItem d key = some (PyValue.float (Double.ofInt32 n / Double.lit c))) :
    ReportsScaled d key c n := by
  obtain ⟨x, h1, h2⟩ := Double.div_int_lit_spec n c hc hc2 hn.abs_bound
  exact ⟨x, by rw [hd, h1], h2⟩

theorem reportsScaled_double (d : PyDict) (key : String) (s : ℚ)
    (hlo : (2 : ℚ) ^ (-1018 : ℤ) ≤ |s|) (hhi : |s| ≤ (2 : ℚ) ^ 1023)
    (hd : PyDict.getItem d key = some (PyValue.float (Double.finite s / Double.lit 10))) :
    ReportsScaled d key 10 s := by
  obtain ⟨x, h1, h2⟩ := Double.div_finite_ten_spec s hlo hhi
  exact ⟨x, by rw [hd, h1], h2⟩

theorem BiteBinding.execOrderRecord_volume (fmt : EpochFormat) (r : ExecMarketOrder) :
    PyDict.getItem (BiteBinding.execOrderRecord fmt r) "volume" =
      some (PyValue.float (Double.ofInt32 r.volume / Double.lit 10)) := by
  simp [BiteBinding.execOrderRecord_eq, PyDict.getItem]

theorem BiteBinding.execOrderRecord_final_stor (fmt : EpochFormat) (r : ExecMarketOrder) :
    PyDict.getItem (BiteBinding.execOrderRecord fmt r) "final_stor" =
      some (PyValue.float (r.finalStor / Double.lit 10)) := by
  simp [BiteBinding.execOrderRecord_eq, PyDict.getItem]

theorem BiteBinding.execOrderRecord_reward (fmt : EpochFormat) (r : ExecMarketOrder) :
    PyDict.getItem (BiteBinding.execOrderRecord fmt r) "reward" =
      some (PyValue.float (Double.ofInt32 r.reward / Double.lit 1000)) := by
  simp [BiteBinding.execOrderRecord_eq, PyDict.getItem]

theorem BiteBinding.execOrderRecord_reward_incl (fmt : EpochFormat) (r : ExecMarketOrder) :
    PyDict.getItem (BiteBinding.execOrderRecord fmt r) "reward_incl_deg_costs" =
      some (PyValue.float (Double.ofInt32 r.rewardInclDegCosts / Double.lit 1000)) := by
  simp [BiteBinding.execOrderRecord_eq, PyDict.getItem]

theorem BiteBinding.foreOrderRecord_volume (fmt : EpochFormat) (r : ForeLogOrder) :
    PyDict.getItem (BiteBinding.foreOrderRecord fmt r) "volume" =
      some (PyValue.float (Double.ofInt32 r.volume / Double.lit 10)) := by
  simp [BiteBinding.foreOrderRecord_eq, PyDict.getItem]

theorem BiteBinding.foreOrderRecord_reward (fmt : EpochFormat) (r : ForeLogOrder) :
    PyDict.getItem (BiteBinding.foreOrderRecord fmt r) "reward" =
      some (PyValue.float (Double.ofInt32 r.reward / Double.lit 1000)) := by
  simp [BiteBinding.foreOrderRecord_eq, PyDict.getItem]

theorem BiteBinding.foreOrderRecord_reward_incl (fmt : EpochFormat) (r : ForeLogOrder) :
    PyDict.getItem (BiteBinding.foreOrderRecord fmt r) "reward_incl_deg_costs" = none := by
  simp [BiteBinding.foreOrderRecord_eq, PyDict.getItem]

theorem BiteBinding.balOrderRecord_volume (fmt : EpochFormat) (r : BalancingOrder) :
    PyDict.getItem (BiteBinding.balOrderRecord fmt r) "volume" =
      some (PyValue.float (r.volume / Double.lit 10)) := by
  simp [BiteBinding.balOrderRecord_eq, PyDict.getItem]

/-- C13, as stated, fails. The volume of a balancing entry is stored as a `double`
(`BalancingOrder.h`): for the entry whose stored volume is the double 2.5, `getLogs` reports
the volume 0.25, and 0.25 times 10 is not an integer.  Even for the integer-stored volume 1
of an accepted order the reported volume is the double `3602879701896397 / 2 ^ 55` nearest
to 0.1, whose exact product with 10 is not an integer. -/
theorem C13_counterexample :
    halfUnitBalancing.volume = Double.finite (5 / 2) ∧
    (BiteBinding.getLogs exampleFormat ledgerSimulation).2.2.2.2.2.2.map
        (fun d => PyDict.getItem d "volume") =
      [some (PyValue.float (Double.finite (1 / 4)))] ∧
    (¬ ∃ n : Int, (1 / 4 : ℚ) * 10 = n) ∧
    (BiteBinding.getLogs exampleFormat ledgerSimulation).2.2.1.map
        (fun d => PyDict.getItem d "volume") =
      [some (PyValue.float (Double.finite (3602879701896397 / 2 ^ 55)))] ∧
    (¬ ∃ n : Int, (3602879701896397 / 2 ^ 55 : ℚ) * 10 = n) := by
  refine ⟨rfl, ?_, ?_, ?_, ?_⟩
  · rw [bite_getLogs_eq_map]
    simp only [ledgerSimulation, List.map_cons, List.map_nil,
      BiteBinding.balOrderRecord_volume]
    show [some (PyValue.float (Double.finite (5 / 2) / Double.lit 10))] = _
    rw [five_halves_div_ten]
  · rintro ⟨n, hn⟩
    have h2 : (5 : ℚ) = 2 * n := by linarith
    have h3 : (5 : ℤ) = 2 * n := by exact_mod_cast h2
    omega
  · rw [bite_getLogs_eq_map]
    simp only [ledgerSimulation, List.map_cons, List.map_nil,
      BiteBinding.accOrderRecord_volume]
    show [some (PyValue.float (Double.ofInt32 1 / Double.lit 10))] = _
    rw [one_div_ten]
  · rintro ⟨n, hn⟩
    have h2 : (36028797018963970 : ℚ) = 36028797018963968 * n := by
      have e : (2 : ℚ) ^ 55 = 36028797018963968 := by norm_num
      rw [e] at hn
      field_simp at hn
      linarith
    have h3 : (36028797018963970 : ℤ) = 36028797018963968 * n := by exact_mod_cast h2
    omega

/-- C13 (amended). Accepted, executed and forecast entries hold their volume as a 32-bit
integer; `getLogs` reports it as the double `stored / 10.0`, and the exact product of the
reported volume with 10 differs from the stored integer by a relative error of at most
`2 ^ (-53)`.  The volume of a balancing entry and the final storage of an executed entry are
stored as doubles; `getLogs` reports the double quotient `stored / 10.0`, and for a finite
stored value `s` with `2 ^ (-1018) ≤ |s| ≤ 2 ^ 1023` the exact product of the reported value
with 10 differs from `s` by a relative error of at most `2 ^ (-53)`. -/
theorem C13_volume_reporting (fmt : EpochFormat) (self : Simulation) :
    (∀ (i : Nat) (r : LogAcceptedOrder), self.getAccOrders[i]? = some r → IsInt32 r.volume →
      ∃ d, (BiteBinding.getLogs fmt self).2.2.1[i]? = some d ∧
        ReportsScaled d "volume" 10 r.volume) ∧
    (∀ (i : Nat) (r : ExecMarketOrder), self.getExOrders[i]? = some r → IsInt32 r.volume →
      ∃ d, (BiteBinding.getLogs fmt self).2.2.2.1[i]? = some d ∧
        ReportsScaled d "volume" 10 r.volume ∧
        PyDict.getItem d "final_stor" = some (PyValue.float (r.finalStor / Double.lit 10)) ∧
        ∀ s : ℚ, r.finalStor = Double.finite s → (2 : ℚ) ^ (-1018 : ℤ) ≤ |s| →
          |s| ≤ (2 : ℚ) ^ 1023 → ReportsScaled d "final_stor" 10 s) ∧
    (∀ (i : Nat) (r : ForeLogOrder), self.getForeOrders[i]? = some r → IsInt32 r.volume →
      ∃ d, (BiteBinding.getLogs fmt self).2.2.2.2.1[i]? = some d ∧
        ReportsScaled d "volume" 10 r.volume) ∧
    (∀ (i : Nat) (r : BalancingOrder), self.getBalOrders[i]? = some r →
      ∃ d, (BiteBinding.getLogs fmt self).2.2.2.2.2.2[i]? = some d ∧
        PyDict.getItem d "volume" = some (PyValue.float (r.volume / Double.lit 10)) ∧
        ∀ s : ℚ, r.volume = Double.finite s → (2 : ℚ) ^ (-1018 : ℤ) ≤ |s| →
          |s| ≤ (2 : ℚ) ^ 1023 → ReportsScaled d "volume" 10 s) := by
  rw [bite_getLogs_eq_map]
  refine ⟨?_, ?_, ?_, ?_⟩
  · intro i r hi hv
    exact ⟨_, getElem?_map_of_eq _ _ _ _ hi, reportsScaled_int _ _ 10 _ (by decide)
      (by decide) hv (BiteBinding.accOrderRecord_volume fmt r)⟩
  · intro i r hi hv
    refine ⟨_, getElem?_map_of_eq _ _ _ _ hi, reportsScaled_int _ _ 10 _ (by decide)
      (by decide) hv (BiteBinding.execOrderRecord_volume fmt r),
      BiteBinding.execOrderRecord_final_stor fmt r, ?_⟩
    intro s hs hlo hhi
    apply reportsScaled_double _ _ s hlo hhi
    rw [BiteBinding.execOrderRecord_final_stor, hs]
  · intro i r hi hv
    exact ⟨_, getElem?_map_of_eq _ _ _ _ hi, reportsScaled_int _ _ 10 _ (by decide)
      (by decide) hv (BiteBinding.foreOrderRecord_volume fmt r)⟩
  · intro i r hi
    refine ⟨_, getElem?_map_of_eq _ _ _ _ hi, BiteBinding.balOrderRecord_volume fmt r, ?_⟩
    intro s hs hlo hhi
    apply reportsScaled_double _ _ s hlo hhi
    rw [BiteBinding.balOrderRecord_volume, hs]

theorem C13_volume_reporting_witness :
    (∃ d, (BiteBinding.getLogs exampleFormat ledgerSimulation).2.2.1[0]? = some d ∧
      ReportsScaled d "volume" 10 centOrder.volume) ∧
    (∃ d, (BiteBinding.getLogs exampleFormat ledgerSimulation).2.2.2.1[0]? = some d ∧
      ReportsScaled d "volume" 10 saleOrder.volume ∧ ReportsScaled d "final_stor" 10 425) ∧
    (∃ d, (BiteBinding.getLogs exampleFormat ledgerSimulation).2.2.2.2.1[0]? = some d ∧
      ReportsScaled d "volume" 10 forecastEntry.volume) ∧
    (∃ d, (BiteBinding.getLogs exampleFormat ledgerSimulation).2.2.2.2.2.2[0]? = some d ∧
      ReportsScaled d "volume" 10 (5 / 2)) := by
  have h := C13_volume_reporting exampleFormat ledgerSimulation
  have hone : (2 : ℚ) ^ (-1018 : ℤ) ≤ 1 := by
    rw [zpow_neg]
    apply inv_le_one_of_one_le₀
    norm_num
  have hk : (1000 : ℚ) ≤ (2 : ℚ) ^ 1023 := by norm_num
  have e1 : |(425 : ℚ)| = 425 := abs_of_pos (by norm_num)
  have e2 : |(5 / 2 : ℚ)| = 5 / 2 := abs_of_pos (by norm_num)
  refine ⟨h.1 0 centOrder rfl (by unfold IsInt32; decide), ?_,
    h.2.2.1 0 forecastEntry rfl (by unfold IsInt32; decide), ?_⟩
  · obtain ⟨d, h1, h2, _, h4⟩ := h.2.1 0 saleOrder rfl (by unfold IsInt32; decide)
    refine ⟨d, h1, h2, h4 425 rfl ?_ ?_⟩
    · rw [e1]
      linarith
    · rw [e1]
      linarith
  · obtain ⟨d, h1, _, h3⟩ := h.2.2.2 0 halfUnitBalancing rfl
    refine ⟨d, h1, h3 (5 / 2) rfl ?_ ?_⟩
    · rw [e2]
      linarith
    · rw [e2]
      linarith

/-! ## Reported rewards (C20) -/

theorem num_div_of_coprime (a b : Nat) (hb : 0 < b) (h : Nat.Coprime a b) :
    ((a : ℚ) / (b : ℚ)).num.natAbs = a ∧ ((a : ℚ) / (b : ℚ)).den = b := by
  have h1 := Rat.num_div_eq_of_coprime (a := (a : ℤ)) (b := (b : ℤ)) (by exact_mod_cast hb)
    (by simpa using h)
  have h2 := Rat.den_div_eq_of_coprime (a := (a : ℤ)) (b := (b : ℤ)) (by exact_mod_cast hb)
    (by simpa using h)
  push_cast at h1 h2
  constructor
  · rw [h1]
    simp
  · exact_mod_cast h2

theorem reward_1001_div_thousand : Double.ofInt32 1001 / Double.lit 1000 =
    Double.finite (2254051613498933 / 2 ^ 51) := by
  rw [Double.div_int_lit 1001 1000 (by decide)]
  have e : ((1001 : ℤ) : ℚ) / ((1000 : ℕ) : ℚ) = ((1001 : ℕ) : ℚ) / ((1000 : ℕ) : ℚ) := by
    norm_num
  have hc := num_div_of_coprime 1001 1000 (by decide) (by norm_num)
  rw [e, roundToDouble_pos_eq _ 1001 1000 4508103226997866 52 (by norm_num) hc.1 hc.2
    (by decide) (by decide) (by norm_num)]
  norm_num

theorem reward_1001_times_thousand :
    roundToDouble ((2254051613498933 / 2 ^ 51 : ℚ) * 1000) =
      Double.finite (8804889115230207 / 2 ^ 43) := by
  have e : (2254051613498933 / 2 ^ 51 : ℚ) * 1000 =
      ((281756451687366625 : ℕ) : ℚ) / ((281474976710656 : ℕ) : ℚ) := by norm_num
  have hc := num_div_of_coprime 281756451687366625 281474976710656 (by decide) (by norm_num)
  rw [e, roundToDouble_pos_eq _ 281756451687366625 281474976710656 8804889115230207 43
    (by norm_num) hc.1 hc.2 (by decide) (by decide) (by norm_num)]
  norm_num

/-- The double quotients `p * v / 1000.0`, `p / 100.0` and `v / 10.0` of 32-bit integers:
the first differs from the exact product of the other two by at most
`|p * v| / 1000 * 2 ^ (-51)`. -/
theorem reward_product_bound (p v : Int) (hp : IsInt32 p) (hv : IsInt32 v)
    (hpv : IsInt32 (p * v)) :
    ∃ R P V : ℚ, Double.ofInt32 (p * v) / Double.lit 1000 = Double.finite R ∧
      Double.ofInt32 p / Double.lit 100 = Double.finite P ∧
      Double.ofInt32 v / Double.lit 10 = Double.finite V ∧
      |R - P * V| * 1000 ≤ |((p * v : Int) : ℚ)| * (2 : ℚ) ^ (-51 : ℤ) := by
  obtain ⟨R, hR, bR⟩ := Double.div_int_lit_spec (p * v) 1000 (by decide) (by decide)
    hpv.abs_bound
  obtain ⟨P, hP, bP⟩ := Double.div_int_lit_spec p 100 (by decide) (by decide) hp.abs_bound
  obtain ⟨V, hV, bV⟩ := Double.div_int_lit_spec v 10 (by decide) (by decide) hv.abs_bound
  refine ⟨R, P, V, hR, hP, hV, ?_⟩
  push_cast at bR bP bV ⊢
  have hu0 : (0 : ℚ) ≤ (2 : ℚ) ^ (-53 : ℤ) := by positivity
  have hu1 : (2 : ℚ) ^ (-53 : ℤ) ≤ 1 := by
    rw [zpow_neg]
    apply inv_le_one_of_one_le₀
    norm_num
  have hu4 : (2 : ℚ) ^ (-51 : ℤ) = 4 * (2 : ℚ) ^ (-53 : ℤ) := by
    rw [show (-51 : ℤ) = 2 + -53 by norm_num, zpow_add₀ (by norm_num)]
    norm_num
  have e : (R - P * V) * 1000 =
      (R * 1000 - (p : ℚ) * v) - (p : ℚ) * (V * 10 - v) - (P * 100 - p) * v
        - (P * 100 - p) * (V * 10 - v) := by ring
  have e0 : |R - P * V| * 1000 = |(R - P * V) * 1000| := by
    rw [abs_mul, abs_of_pos (by norm_num : (0 : ℚ) < 1000)]
  rw [e0, e, hu4]
  have t1 := abs_sub ((R * 1000 - (p : ℚ) * v) - (p : ℚ) * (V * 10 - v) - (P * 100 - p) * v)
    ((P * 100 - p) * (V * 10 - v))
  have t2 := abs_sub ((R * 1000 - (p : ℚ) * v) - (p : ℚ) * (V * 10 - v)) ((P * 100 - p) * v)
  have t3 := abs_sub (R * 1000 - (p : ℚ) * v) ((p : ℚ) * (V * 10 - v))
  rw [abs_mul] at t1 t2 t3
  have hpn : (0 : ℚ) ≤ |(p : ℚ)| := abs_nonneg _
  have hvn : (0 : ℚ) ≤ |(v : ℚ)| := abs_nonneg _
  have m1 : |(p : ℚ)| * |V * 10 - v| ≤ |(p : ℚ)| * (|(v : ℚ)| * (2 : ℚ) ^ (-53 : ℤ)) :=
    mul_le_mul_of_nonneg_left bV hpn
  have m2 : |P * 100 - p| * |(v : ℚ)| ≤ |(p : ℚ)| * (2 : ℚ) ^ (-53 : ℤ) * |(v : ℚ)| :=
    mul_le_mul_of_nonneg_right bP hvn
  have m3 : |P * 100 - p| * |V * 10 - v| ≤
      |(p : ℚ)| * (2 : ℚ) ^ (-53 : ℤ) * (|(v : ℚ)| * (2 : ℚ) ^ (-53 : ℤ)) :=
    mul_le_mul bP bV (abs_nonneg _) (mul_nonneg hpn hu0)
  have m4 : |(p : ℚ)| * (2 : ℚ) ^ (-53 : ℤ) * (|(v : ℚ)| * (2 : ℚ) ^ (-53 : ℤ)) ≤
      |(p : ℚ)| * |(v : ℚ)| * (2 : ℚ) ^ (-53 : ℤ) := by
    have : |(p : ℚ)| * |(v : ℚ)| * (2 : ℚ) ^ (-53 : ℤ) * (2 : ℚ) ^ (-53 : ℤ) ≤
        |(p : ℚ)| * |(v : ℚ)| * (2 : ℚ) ^ (-53 : ℤ) * 1 :=
      mul_le_mul_of_nonneg_left hu1 (mul_nonneg (mul_nonneg hpn hvn) hu0)
    calc |(p : ℚ)| * (2 : ℚ) ^ (-53 : ℤ) * (|(v : ℚ)| * (2 : ℚ) ^ (-53 : ℤ))
        = |(p : ℚ)| * |(v : ℚ)| * (2 : ℚ) ^ (-53 : ℤ) * (2 : ℚ) ^ (-53 : ℤ) := by ring
      _ ≤ |(p : ℚ)| * |(v : ℚ)| * (2 : ℚ) ^ (-53 : ℤ) * 1 := this
      _ = |(p : ℚ)| * |(v : ℚ)| * (2 : ℚ) ^ (-53 : ℤ) := by ring
  rw [abs_mul] at bR ⊢
  generalize (2 : ℚ) ^ (-53 : ℤ) = u at *
  nlinarith [m1, m2, m3, m4, t1, t2, t3, bR]

/-- C20, as stated, fails: for the executed order with stored reward 1001 the reported reward
is the double `2254051613498933 / 2 ^ 51` nearest to 1.001; its exact product with 1000 is
not 1001, and the double nearest to that product (`8804889115230207 / 2 ^ 43`, printed
1000.9999999999999) is not 1001 either. -/
theorem C20_counterexample :
    (BiteBinding.getLogs exampleFormat ledgerSimulation).2.2.2.1.map
        (fun d => PyDict.getItem d "reward") =
      [some (PyValue.float (Double.finite (2254051613498933 / 2 ^ 51)))] ∧
    (2254051613498933 / 2 ^ 51 : ℚ) * 1000 ≠ ((saleOrder.reward : Int) : ℚ) ∧
    roundToDouble ((2254051613498933 / 2 ^ 51 : ℚ) * 1000) ≠
      Double.finite ((saleOrder.reward : Int) : ℚ) := by
  refine ⟨?_, ?_, ?_⟩
  · rw [bite_getLogs_eq_map]
    simp only [ledgerSimulation, List.map_cons, List.map_nil,
      BiteBinding.execOrderRecord_reward]
    show [some (PyValue.float (Double.ofInt32 1001 / Double.lit 1000))] = _
    rw [reward_1001_div_thousand]
  · show (2254051613498933 / 2 ^ 51 : ℚ) * 1000 ≠ ((1001 : Int) : ℚ)
    norm_num
  · rw [reward_1001_times_thousand]
    show Double.finite (8804889115230207 / 2 ^ 43) ≠ Double.finite ((1001 : Int) : ℚ)
    intro h
    injection h with h
    norm_num at h

/-- C20 (amended). `getLogs` reports the reward of an executed, removed or forecast entry as
the double `stored / 1000.0`, and the reward including degradation costs of an executed or
removed entry likewise (a forecast record has no such key): for 32-bit stored integers the
exact product of the reported value with 1000 differs from the stored integer by a relative
error of at most `2 ^ (-53)`.  For a stored reward `p * v` of 32-bit integers `p` and `v`, the
reported reward `p * v / 1000.0` differs from the exact product of the reported price
`p / 100.0` and the reported volume `v / 10.0` by at most `|p * v| / 1000 * 2 ^ (-51)`. -/
theorem C20_reward_scaling (fmt : EpochFormat) (self : Simulation) :
    (∀ (i : Nat) (r : ExecMarketOrder), self.getExOrders[i]? = some r → IsInt32 r.reward →
      IsInt32 r.rewardInclDegCosts →
      ∃ d, (BiteBinding.getLogs fmt self).2.2.2.1[i]? = some d ∧
        ReportsScaled d "reward" 1000 r.reward ∧
        ReportsScaled d "reward_incl_deg_costs" 1000 r.rewardInclDegCosts) ∧
    (∀ (i : Nat) (r : ExecMarketOrder), self.getRemOrders[i]? = some r → IsInt32 r.reward →
      IsInt32 r.rewardInclDegCosts →
      ∃ d, (BiteBinding.getLogs fmt self).2.2.2.2.2.1[i]? = some d ∧
        ReportsScaled d "reward" 1000 r.reward ∧
        ReportsScaled d "reward_incl_deg_costs" 1000 r.rewardInclDegCosts) ∧
    (∀ (i : Nat) (r : ForeLogOrder), self.getForeOrders[i]? = some r → IsInt32 r.reward →
      ∃ d, (BiteBinding.getLogs fmt self).2.2.2.2.1[i]? = some d ∧
        ReportsScaled d "reward" 1000 r.reward ∧
        PyDict.getItem d "reward_incl_deg_costs" = none) ∧
    (∀ p v : Int, IsInt32 p → IsInt32 v → IsInt32 (p * v) →
      ∃ R P V : ℚ, Double.ofInt32 (p * v) / Double.lit 1000 = Double.finite R ∧
        Double.ofInt32 p / Double.lit 100 = Double.finite P ∧
        Double.ofInt32 v / Double.lit 10 = Double.finite V ∧
        |R - P * V| * 1000 ≤ |((p * v : Int) : ℚ)| * (2 : ℚ) ^ (-51 : ℤ)) := by
  rw [bite_getLogs_eq_map]
  refine ⟨?_, ?_, ?_, reward_product_bound⟩
  · intro i r hi h1 h2
    exact ⟨_, getElem?_map_of_eq _ _ _ _ hi,
      reportsScaled_int _ _ 1000 _ (by decide) (by decide) h1
        (BiteBinding.execOrderRecord_reward fmt r),
      reportsScaled_int _ _ 1000 _ (by decide) (by decide) h2
        (BiteBinding.execOrderRecord_reward_incl fmt r)⟩
  · intro i r hi h1 h2
    refine ⟨_, getElem?_map_of_eq _ _ _ _ hi, ?_, ?_⟩
    · rw [BiteBinding.removedOrderRecord_eq_exec]
      exact reportsScaled_int _ _ 1000 _ (by decide) (by decide) h1
        (BiteBinding.execOrderRecord_reward fmt r)
    · rw [BiteBinding.removedOrderRecord_eq_exec]
      exact reportsScaled_int _ _ 1000 _ (by decide) (by decide) h2
        (BiteBinding.execOrderRecord_reward_incl fmt r)
  · intro i r hi h1
    exact ⟨_, getElem?_map_of_eq _ _ _ _ hi,
      reportsScaled_int _ _ 1000 _ (by decide) (by decide) h1
        (BiteBinding.foreOrderRecord_reward fmt r),
      BiteBinding.foreOrderRecord_reward_incl fmt r⟩

theorem C20_reward_scaling_witness :
    (∃ d, (BiteBinding.getLogs exampleFormat ledgerSimulation).2.2.2.1[0]? = some d ∧
      ReportsScaled d "reward" 1000 saleOrder.reward ∧
      ReportsScaled d "reward_incl_deg_costs" 1000 saleOrder.rewardInclDegCosts) ∧
    (∃ d, (BiteBinding.getLogs exampleFormat ledgerSimulation).2.2.2.2.2.1[0]? = some d ∧
      ReportsScaled d "reward" 1000 saleOrder.reward ∧
      ReportsScaled d "reward_incl_deg_costs" 1000 saleOrder.rewardInclDegCosts) ∧
    (∃ d, (BiteBinding.getLogs exampleFormat ledgerSimulation).2.2.2.2.1[0]? = some d ∧
      ReportsScaled d "reward" 1000 forecastEntry.reward ∧
      PyDict.getItem d "reward_incl_deg_costs" = none) ∧
    (∃ R P V : ℚ, Double.ofInt32 (7 * 143) / Double.lit 1000 = Double.finite R ∧
      Double.ofInt32 7 / Double.lit 100 = Double.finite P ∧
      Double.ofInt32 143 / Double.lit 10 = Double.finite V ∧
      |R - P * V| * 1000 ≤ |((7 * 143 : Int) : ℚ)| * (2 : ℚ) ^ (-51 : ℤ)) :=
  ⟨(C20_reward_scaling exampleFormat ledgerSimulation).1 0 saleOrder rfl
      (by unfold IsInt32; decide) (by unfold IsInt32; decide),
    (C20_reward_scaling exampleFormat ledgerSimulation).2.1 0 saleOrder rfl
      (by unfold IsInt32; decide) (by unfold IsInt32; decide),
    (C20_reward_scaling exampleFormat ledgerSimulation).2.2.1 0 forecastEntry rfl
      (by unfold IsInt32; decide),
    (C20_reward_scaling exampleFormat ledgerSimulation).2.2.2 7 143
      (by unfold IsInt32; decide) (by unfold IsInt32; decide) (by unfold IsInt32; decide)⟩

/-! ## Removal entries (C17) -/

theorem filter_cancelDue_of_absent (t k : Int) (l : List LimitOrder)
    (h : ∀ x ∈ l, x.id ≠ k) : l.filter (cancelDue t k) = [] := by
  rw [List.filter_eq_nil_iff]
  intro x hx
  simp [cancelDue, h x hx]

theorem filter_cancelDue_of_mem (t : Int) (r : LimitOrder) (l : List LimitOrder)
    (hr : r ∈ l) (hid : (l.map LimitOrder.id).Nodup) :
    l.filter (cancelDue t r.id) = if r.cancel ≤ t then [r] else [] := by
  induction l with
  | nil => simp at hr
  | cons a l ih =>
    rw [List.map_cons, List.nodup_cons] at hid
    obtain ⟨ha, hl⟩ := hid
    rcases List.mem_cons.mp hr with e | hr2
    · subst e
      have habs : ∀ x ∈ l, x.id ≠ r.id := by
        intro x hx hxe
        exact ha (List.mem_map.mpr ⟨x, hx, hxe⟩)
      rw [List.filter_cons, filter_cancelDue_of_absent t r.id l habs]
      by_cases hc : r.cancel ≤ t <;> simp [cancelDue, hc]
    · have hne : a.id ≠ r.id := by
        intro e
        exact ha (List.mem_map.mpr ⟨r, hr2, e.symm⟩)
      rw [List.filter_cons, ih hr2 hl]
      simp [cancelDue, hne]

theorem HourBook.cancel_removals_of_absent (t : Int) (hb : HourBook) (orderId : Int)
    (h : ∀ x ∈ hb.resting, x.id ≠ orderId) :
    (HourBook.cancel t hb orderId).removals = hb.removals := by
  unfold HourBook.cancel
  have e : (hb.bids ++ hb.asks).filter (cancelDue t orderId) = [] :=
    filter_cancelDue_of_absent t orderId _ h
  simp [e]

theorem HourBook.cancel_removals_of_mem (t : Int) (hb : HourBook) (r : LimitOrder)
    (hr : r ∈ hb.resting) (hid : (hb.resting.map LimitOrder.id).Nodup) :
    (HourBook.cancel t hb r.id).removals =
      hb.removals ++ (if r.cancel ≤ t ∧ r.volume ≠ 0 ∧ hb.hasTraded r = true
        then [removalEntry t r] else []) := by
  unfold HourBook.cancel
  have e : (hb.bids ++ hb.asks).filter (cancelDue t r.id) = if r.cancel ≤ t then [r] else [] :=
    filter_cancelDue_of_mem t r _ hr hid
  simp only [e]
  by_cases hc : r.cancel ≤ t
  · by_cases hv : r.volume ≠ 0
    · by_cases ht : hb.hasTraded r = true
      · simp [hc, hv, ht, HourBook.leavesEntry]
      · simp [hc, hv, ht, HourBook.leavesEntry]
    · simp [hc, hv, HourBook.leavesEntry]
  · simp [hc]

theorem HourBook.submit_removals (t : Int) (hb : HourBook) (o : LimitOrder) :
    (HourBook.submit t hb o).removals = hb.removals ∧
      (HourBook.submit t hb o).dropped = hb.dropped := by
  unfold HourBook.submit
  by_cases hc : o.eligible t = false ∨ o.volume ≤ 0
  · rw [if_pos hc]
    exact ⟨rfl, rfl⟩
  · rw [if_neg hc]
    split <;> exact ⟨rfl, rfl⟩

theorem HourBook.empty_positive : HourBook.empty.PositiveRemovals := by
  constructor <;> intro x hx <;> simp [HourBook.empty] at hx

theorem HourBook.submit_positive (t : Int) (hb : HourBook) (o : LimitOrder)
    (h : hb.PositiveRemovals) : (HourBook.submit t hb o).PositiveRemovals := by
  unfold HourBook.PositiveRemovals
  rw [(HourBook.submit_removals t hb o).1, (HourBook.submit_removals t hb o).2]
  exact h

theorem HourBook.cancel_positive (t : Int) (hb : HourBook) (orderId : Int) (hinv : hb.Inv)
    (h : hb.PositiveRemovals) : (HourBook.cancel t hb orderId).PositiveRemovals := by
  obtain ⟨_, i2, i3, _⟩ := hinv
  have hpos : ∀ r ∈ hb.bids ++ hb.asks, 0 < r.volume := by
    intro r hr
    rcases List.mem_append.mp hr with h1 | h1
    · exact i2 r h1
    · exact i3 r h1
  unfold HourBook.cancel
  constructor
  · intro m hm
    rcases List.mem_append.mp hm with h1 | h1
    · exact h.1 m h1
    · obtain ⟨r, hr, e⟩ := List.mem_map.mp h1
      rw [← e]
      exact hpos r (List.mem_filter.mp (List.mem_filter.mp hr).1).1
  · intro r hr
    rcases List.mem_append.mp hr with h1 | h1
    · exact h.2 r h1
    · exact hpos r (List.mem_filter.mp (List.mem_filter.mp h1).1).1

theorem book_step_positive (b b1 : OrderBook) (op : BookOp) (hinv : b.Inv)
    (h : ∀ hr : Int, (b.hours hr).PositiveRemovals) (hstep : b.step op = Except.ok b1) :
    ∀ hr : Int, (b1.hours hr).PositiveRemovals := by
  cases op with
  | submit t o =>
    simp only [OrderBook.step, OrderBook.submit] at hstep
    split_ifs at hstep
    simp only [Except.ok.injEq] at hstep
    subst hstep
    intro hr
    by_cases e : hr = o.delivery
    · subst e
      simp only [Function.update_same]
      exact HourBook.submit_positive t _ o (h _)
    · simp only [Function.update_noteq e]
      exact h hr
  | cancel t delivery orderId =>
    simp only [OrderBook.step, OrderBook.cancel] at hstep
    split_ifs at hstep
    simp only [Except.ok.injEq] at hstep
    subst hstep
    intro hr
    by_cases e : hr = delivery
    · subst e
      simp only [Function.update_same]
      exact HourBook.cancel_positive t _ orderId (hinv _) (h _)
    · simp only [Function.update_noteq e]
      exact h hr
  | advanceTo t =>
    simp only [OrderBook.step, OrderBook.advanceTo] at hstep
    split_ifs at hstep
    simp only [Except.ok.injEq] at hstep
    subst hstep
    exact h

theorem book_run_positive (b b1 : OrderBook) (ops : List BookOp) (hinv : b.Inv)
    (h : ∀ hr : Int, (b.hours hr).PositiveRemovals) (hrun : b.run ops = Except.ok b1) :
    ∀ hr : Int, (b1.hours hr).PositiveRemovals := by
  induction ops generalizing b with
  | nil =>
    simp only [OrderBook.run, Except.ok.injEq] at hrun
    subst hrun
    exact h
  | cons op ops ih =>
    simp only [OrderBook.run] at hrun
    cases hstep : b.step op with
    | error e => simp [hstep] at hrun
    | ok b2 =>
      rw [hstep] at hrun
      exact ih b2 (book_step_inv b b2 op hinv hstep) (book_step_positive b b2 op hinv h hstep)
        hrun

theorem volumeOf_nonneg (x : Int) (l : List LimitOrder) (h : ∀ r ∈ l, 0 < r.volume) :
    0 ≤ volumeOf x l := by
  induction l with
  | nil => simp [volumeOf]
  | cons a l ih =>
    rw [volumeOf_cons]
    have h1 := h a (List.mem_cons_self a l)
    have h2 := ih (fun r hr => h r (List.mem_cons_of_mem a hr))
    split_ifs <;> omega

theorem removedVolume_pos_of_mem (x : Int) (l : List RemovalEntry)
    (h : ∀ m ∈ l, 0 < m.volume) :
    0 ≤ (l.map (fun m => if m.initialId = x then m.volume else 0)).sum ∧
    ((l.map (fun m => if m.initialId = x then m.volume else 0)).sum = 0 →
      ∀ m ∈ l, m.initialId ≠ x) := by
  induction l with
  | nil => simp
  | cons a l ih =>
    have h1 := h a (List.mem_cons_self a l)
    obtain ⟨n1, n2⟩ := ih (fun r hr => h r (List.mem_cons_of_mem a hr))
    simp only [List.map_cons, List.sum_cons]
    constructor
    · split_ifs <;> omega
    · intro hs m hm
      by_cases ha : a.initialId = x
      · rw [if_pos ha] at hs
        omega
      · rw [if_neg ha, zero_add] at hs
        rcases List.mem_cons.mp hm with e | hm2
        · rw [e]
          exact ha
        · exact n2 hs m hm2

/-- C17. Let `r` be an order resting in the book of its delivery hour, the resting orders
having distinct ids.  A cancellation of `r` at a time `t` at or after its cancel timestamp
removes `r` from the book and appends exactly one removal entry, that of `r` with its
remainder, if `r` has a non-zero remainder and an execution is linked to it, and appends no
entry otherwise; before the cancel timestamp it leaves `r` resting and writes no entry.  A
cancellation of an id that no resting order carries writes no entry.  In every book reached
by a run from the empty book, a parent whose executions add up to its accepted volume (a
fully filled order) has no removal entry. -/
theorem C17_removal_entry (t : Int) (hb : HourBook) (r : LimitOrder)
    (hr : r ∈ hb.resting) (hid : (hb.resting.map LimitOrder.id).Nodup)
    (hdue : r.cancel ≤ t) :
    r ∉ (HourBook.cancel t hb r.id).resting ∧
    (HourBook.cancel t hb r.id).removals =
      hb.removals ++
        (if r.volume ≠ 0 ∧ hb.hasTraded r = true then [removalEntry t r] else []) ∧
    ((∃ m, (HourBook.cancel t hb r.id).removals = hb.removals ++ [m]) ↔
      (r.volume ≠ 0 ∧ hb.hasTraded r = true)) ∧
    (∀ t2 : Int, t2 < r.cancel →
      r ∈ (HourBook.cancel t2 hb r.id).resting ∧
        (HourBook.cancel t2 hb r.id).removals = hb.removals) ∧
    (∀ (t2 orderId : Int), (∀ x ∈ hb.resting, x.id ≠ orderId) →
      (HourBook.cancel t2 hb orderId).removals = hb.removals) ∧
    (∀ (t0 : Int) (ops : List BookOp) (b : OrderBook),
      (OrderBook.empty t0).run ops = Except.ok b →
      ∀ h x : Int, (b.hours h).tradedVolume x = (b.hours h).acceptedVolume x →
        ∀ m ∈ (b.hours h).removals, m.initialId ≠ x) := by
  have hrem := HourBook.cancel_removals_of_mem t hb r hr hid
  have hrem2 : (HourBook.cancel t hb r.id).removals =
      hb.removals ++
        (if r.volume ≠ 0 ∧ hb.hasTraded r = true then [removalEntry t r] else []) := by
    rw [hrem]
    by_cases hc : r.volume ≠ 0 ∧ hb.hasTraded r = true
    · rw [if_pos hc, if_pos ⟨hdue, hc⟩]
    · rw [if_neg hc, if_neg (fun h => hc h.2)]
  refine ⟨?_, hrem2, ?_, ?_, ?_, ?_⟩
  · intro hmem
    unfold HourBook.resting HourBook.cancel at hmem
    simp only [List.mem_append, List.mem_filter] at hmem
    have hc : cancelDue t r.id r = true := by simp [cancelDue, hdue]
    rcases hmem with ⟨_, h2⟩ | ⟨_, h2⟩ <;> simp [hc] at h2
  · rw [hrem2]
    constructor
    · rintro ⟨m, hm⟩
      by_contra hc
      rw [if_neg hc, List.append_nil] at hm
      have := congrArg List.length hm
      simp at this
    · intro hc
      exact ⟨removalEntry t r, by rw [if_pos hc]⟩
  · intro t2 ht2
    constructor
    · unfold HourBook.resting HourBook.cancel
      have hc : cancelDue t2 r.id r = false := by
        simp [cancelDue, not_le.mpr ht2]
      simp only [List.mem_append, List.mem_filter]
      rcases List.mem_append.mp hr with h1 | h1
      · left
        exact ⟨h1, by simp [hc]⟩
      · right
        exact ⟨h1, by simp [hc]⟩
    · rw [HourBook.cancel_removals_of_mem t2 hb r hr hid,
        if_neg (fun h => absurd h.1 (not_le.mpr ht2)), List.append_nil]
  · intro t2 orderId habs
    exact HourBook.cancel_removals_of_absent t2 hb orderId habs
  · intro t0 ops b hrun h x hfull
    have h0 : (OrderBook.empty t0).Inv := fun _ => HourBook.empty_inv
    have hinv := book_run_inv _ b ops h0 hrun h
    have hpos := book_run_positive _ b ops h0 (fun _ => HourBook.empty_positive) hrun h
    have hacc := hinv.1 x
    have n1 := volumeOf_nonneg x _ hinv.2.1
    have n2 := volumeOf_nonneg x _ hinv.2.2.1
    have n3 := volumeOf_nonneg x _ hpos.2
    obtain ⟨n4, n5⟩ := removedVolume_pos_of_mem x _ hpos.1
    apply n5
    simp only [HourBook.removedVolume, HourBook.restingVolume, HourBook.droppedVolume]
      at hacc
    omega

/-- The scenario of §8 followed by the cancellation of the buy order at its cancel
timestamp 1000: the remainder 5 is removed with one entry. -/
theorem C17_removal_entry_witness :
    scenarioRemainder ∈ scenarioBook.resting ∧
    scenarioRemainder.cancel ≤ 1000 ∧
    scenarioRemainder ∉ (HourBook.cancel 1000 scenarioBook scenarioRemainder.id).resting ∧
    (HourBook.cancel 1000 scenarioBook scenarioRemainder.id).removals =
      scenarioBook.removals ++
        (if scenarioRemainder.volume ≠ 0 ∧ scenarioBook.hasTraded scenarioRemainder = true
          then [removalEntry 1000 scenarioRemainder] else []) ∧
    (HourBook.cancel 1000 scenarioBook scenarioRemainder.id).removals.map
      (fun m => (m.id, m.volume)) = [(1, 5)] :=
  ⟨by decide, by decide,
    (C17_removal_entry 1000 scenarioBook scenarioRemainder (by decide) (by decide)
      (by decide)).1,
    (C17_removal_entry 1000 scenarioBook scenarioRemainder (by decide) (by decide)
      (by decide)).2.1,
    by decide⟩

/-! ## All executions of a submission (C1) -/

theorem crosses_with_volume (r o : LimitOrder) (v : Int) :
    crosses r { o with volume := v } = crosses r o := rfl

theorem mkTrade_with_volume (t : Int) (r o : LimitOrder) (v w : Int) :
    mkTrade t r ({ ({ o with volume := v } : LimitOrder) with volume := w } : LimitOrder) =
      mkTrade t r { o with volume := w } := rfl

theorem countOf_eq_zero_of_absent (x : Int) (l : List LimitOrder)
    (h : ∀ r ∈ l, r.initialId ≠ x) : countOf x l = 0 := by
  unfold countOf
  rw [List.countP_eq_zero]
  intro r hr
  simp [h r hr]

theorem length_leBytes (w n : Nat) : (leBytes w n).length = w := by
  induction w generalizing n with
  | zero => rfl
  | succ w ih => simp [leBytes, ih]

theorem ofLeBytes_leBytes (w n : Nat) : ofLeBytes (leBytes w n) = n % 256 ^ w := by
  induction w generalizing n with
  | zero => simp [leBytes, ofLeBytes, Nat.mod_one]
  | succ w ih =>
    simp only [leBytes, ofLeBytes, ih]
    rw [pow_succ', Nat.mod_mul]

theorem toSigned_toUnsigned (w : Nat) (x : Int) (h1 : -(256 : Int) ^ w ≤ 2 * x)
    (h2 : 2 * x < (256 : Int) ^ w) :
    toSigned w (toUnsigned w x % 256 ^ w) = x := by
  have hM : (0 : Int) < (256 : Int) ^ w := by positivity
  have hcast : (((256 ^ w : Nat)) : Int) = (256 : Int) ^ w := by push_cast; rfl
  have hu : ((toUnsigned w x : Nat) : Int) = x % (256 : Int) ^ w :=
    Int.toNat_of_nonneg (Int.emod_nonneg _ hM.ne')
  have hlt : toUnsigned w x < 256 ^ w := by
    have := Int.emod_lt_of_pos x hM
    have h3 : ((toUnsigned w x : Nat) : Int) < ((256 ^ w : Nat) : Int) := by
      rw [hu, hcast]
      exact this
    exact_mod_cast h3
  rw [Nat.mod_eq_of_lt hlt]
  unfold toSigned
  by_cases hx : 0 ≤ x
  · have e : x % (256 : Int) ^ w = x := Int.emod_eq_of_lt hx (by omega)
    rw [e] at hu
    have hc : 2 * toUnsigned w x < 256 ^ w := by
      have : (2 : Int) * ((toUnsigned w x : Nat) : Int) < ((256 ^ w : Nat) : Int) := by
        rw [hu, hcast]
        exact h2
      exact_mod_cast this
    rw [if_pos hc, hu]
  · have e : x % (256 : Int) ^ w = x + (256 : Int) ^ w := by
      rw [← Int.add_emod_self]
      exact Int.emod_eq_of_lt (by omega) (by omega)
    rw [e] at hu
    have hc : ¬ 2 * toUnsigned w x < 256 ^ w := by
      intro hc
      have : (2 : Int) * ((toUnsigned w x : Nat) : Int) < ((256 ^ w : Nat) : Int) := by
        exact_mod_cast hc
      rw [hu, hcast] at this
      omega
    rw [if_neg hc, hu]
    ring

theorem takeInt_encodeInt (w : Nat) (x : Int) (rest : List Nat)
    (h1 : -(256 : Int) ^ w ≤ 2 * x) (h2 : 2 * x < (256 : Int) ^ w) :
    takeInt w (encodeInt w x ++ rest) = (x, rest) := by
  unfold takeInt encodeInt
  rw [List.take_left' (length_leBytes w _), List.drop_left' (length_leBytes w _),
    ofLeBytes_leBytes, toSigned_toUnsigned w x h1 h2]

theorem takeInt_encodeInt_64 (x : Int) (rest : List Nat) (h : -2 ^ 63 ≤ x ∧ x < 2 ^ 63) :
    takeInt 8 (encodeInt 8 x ++ rest) = (x, rest) := by
  apply takeInt_encodeInt
  · have : (256 : Int) ^ 8 = 2 * 2 ^ 63 := by norm_num
    omega
  · have : (256 : Int) ^ 8 = 2 * 2 ^ 63 := by norm_num
    omega

theorem takeInt_encodeInt_32 (x : Int) (rest : List Nat) (h : -2 ^ 31 ≤ x ∧ x < 2 ^ 31) :
    takeInt 4 (encodeInt 4 x ++ rest) = (x, rest) := by
  apply takeInt_encodeInt
  · have : (256 : Int) ^ 4 = 2 * 2 ^ 31 := by norm_num
    omega
  · have : (256 : Int) ^ 4 = 2 * 2 ^ 31 := by norm_num
    omega

theorem typeOfByte_typeByte (t : OrderType) : typeOfByte (typeByte t) = some t := by
  cases t <;> rfl

theorem length_encodeOrder (o : LimitOrder) : (encodeOrder o).length = recordSize := by
  simp [encodeOrder, encodeInt, length_leBytes, recordSize]

theorem decodeOrder_encodeOrder (o : LimitOrder) (h : o.Representable) :
    decodeOrder (encodeOrder o) = some o := by
  obtain ⟨h1, h2, h3, h4, h5, h6, h7⟩ := h
  have e7 : takeInt 4 (encodeInt 4 o.volume) = (o.volume, []) := by
    have := takeInt_encodeInt_32 o.volume [] h7
    rwa [List.append_nil] at this
  unfold decodeOrder encodeOrder
  simp only [takeInt_encodeInt_64 _ _ h1, takeInt_encodeInt_64 _ _ h2,
    takeInt_encodeInt_64 _ _ h3, takeInt_encodeInt_64 _ _ h4, takeInt_encodeInt_64 _ _ h5,
    typeOfByte_typeByte, takeInt_encodeInt_32 _ _ h6, e7]

theorem length_encodeOrders (os : List LimitOrder) :
    (encodeOrders os).length = os.length * recordSize := by
  induction os with
  | nil => simp [encodeOrders]
  | cons o os ih =>
    simp only [encodeOrders, List.length_append, length_encodeOrder, ih, List.length_cons]
    ring

theorem decodeRecords_encodeOrders (os : List LimitOrder)
    (h : ∀ o ∈ os, o.Representable) :
    decodeRecords os.length (encodeOrders os) = some os := by
  induction os with
  | nil => rfl
  | cons o os ih =>
    simp only [List.length_cons, decodeRecords, encodeOrders]
    rw [List.take_left' (length_encodeOrder o), List.drop_left' (length_encodeOrder o),
      decodeOrder_encodeOrder o (h o (List.mem_cons_self o os)),
      ih (fun x hx => h x (List.mem_cons_of_mem o hx))]

theorem decodeOrders_encodeOrders (os : List LimitOrder)
    (h : ∀ o ∈ os, o.Representable) : decodeOrders (encodeOrders os) = some os := by
  unfold decodeOrders
  rw [length_encodeOrders]
  have hpos : 0 < recordSize := by decide
  rw [Nat.mul_mod_left, if_pos rfl, Nat.mul_div_cancel _ hpos]
  exact decodeRecords_encodeOrders os h

theorem Adapter.convert_representable (a : Adapter) (ha : a.Representable) (r : RawOrder)
    (o : LimitOrder) (h : a.convert r = some o) : o.Representable := by
  unfold Adapter.convert at h
  split at h
  · exact ha _ _ _ _ _ h
  · exact absurd h (by simp)

theorem Adapter.convertRows_representable (a : Adapter) (ha : a.Representable)
    (rs : List RawOrder) (os : List LimitOrder) (h : a.convertRows rs = some os) :
    ∀ o ∈ os, o.Representable := by
  induction rs generalizing os with
  | nil =>
    simp only [Adapter.convertRows, Option.some.injEq] at h
    subst h
    intro o ho
    simp at ho
  | cons r rs ih =>
    simp only [Adapter.convertRows] at h
    cases hc : a.convert r with
    | none => simp [hc] at h
    | some o1 =>
      cases hr : a.convertRows rs with
      | none => simp [hc, hr] at h
      | some os1 =>
        simp only [hc, hr, Option.some.injEq] at h
        subst h
        intro o ho
        rcases List.mem_cons.mp ho with e | ho2
        · rw [e]
          exact Adapter.convert_representable a ha r o1 hc
        · exact ih os1 hr o ho2

theorem checkBatch_ok (os1 os : List LimitOrder) (h : checkBatch os1 = Except.ok os) :
    os1 = os ∧ arrivalMonotone os := by
  unfold checkBatch at h
  split_ifs at h with hm
  simp only [Except.ok.injEq] at h
  subst h
  exact ⟨rfl, hm⟩

theorem Adapter.convertColumns_ok (a : Adapter) (c : OrderColumns) (os : List LimitOrder)
    (h : a.convertColumns c = Except.ok os) :
    c.sameLength = true ∧ a.convertRows c.rows = some os ∧ arrivalMonotone os := by
  unfold Adapter.convertColumns at h
  split_ifs at h with hl
  cases hr : a.convertRows c.rows with
  | none => simp [hr] at h
  | some os1 =>
    simp only [hr] at h
    obtain ⟨e, hm⟩ := checkBatch_ok os1 os h
    subst e
    exact ⟨by simpa using hl, rfl, hm⟩

/-- C11. In the model of the ingestion with a packed binary file (the members of `LimitOrder`
in the order and the widths of `LimitOrder.h`, two's complement, least significant byte
first), for every adapter that builds orders within the ranges of the member types and for
all column vectors: `writeOrderBinFromPandas` succeeds or fails as `addOrderQueueFromPandas`
does on the same columns, and when it succeeds, `addOrderQueueFromBin` on the written file
gives the same result and the same order queue as `addOrderQueueFromPandas` on the columns;
the record of every order within the ranges decodes to the order itself, so all eight
members are equal. -/
theorem C11_binary_round_trip (a : Adapter) (ha : a.Representable) (c : OrderColumns)
    (fs : FileSystem) (pathName : String) (queue : List LimitOrder) :
    (writeOrderBinFromPandas a fs pathName c).1 = (addOrderQueueFromPandas a queue c).1 ∧
    ((writeOrderBinFromPandas a fs pathName c).1 = Except.ok () →
      addOrderQueueFromBin (writeOrderBinFromPandas a fs pathName c).2 queue pathName =
        addOrderQueueFromPandas a queue c) ∧
    (∀ o : LimitOrder, o.Representable → decodeOrder (encodeOrder o) = some o) ∧
    (∀ os : List LimitOrder, (∀ o ∈ os, o.Representable) →
      decodeOrders (encodeOrders os) = some os) := by
  refine ⟨?_, ?_, decodeOrder_encodeOrder, decodeOrders_encodeOrders⟩
  · unfold writeOrderBinFromPandas addOrderQueueFromPandas
    cases a.convertColumns c <;> rfl
  · unfold writeOrderBinFromPandas addOrderQueueFromPandas addOrderQueueFromBin
    cases hc : a.convertColumns c with
    | error e =>
      intro h
      simp at h
    | ok os =>
      intro _
      obtain ⟨_, hrows, hm⟩ := Adapter.convertColumns_ok a c os hc
      have hrep := Adapter.convertRows_representable a ha _ os hrows
      simp only [readOrderBin, Function.update_same, decodeOrders_encodeOrders os hrep,
        checkBatch, if_pos hm]

theorem exampleAdapter_representable : exampleAdapter.Representable := by
  intro r t1 t2 t3 o h
  simp only [exampleAdapter] at h
  split_ifs at h with hc
  simp only [Option.some.injEq] at h
  rw [← h]
  exact hc

/-- The two orders of `exampleColumns`, written to a file and loaded from it. -/
theorem C11_binary_round_trip_witness :
    exampleAdapter.Representable ∧
    (writeOrderBinFromPandas exampleAdapter emptyFileSystem "orders.bin" exampleColumns).1 =
      (addOrderQueueFromPandas exampleAdapter [] exampleColumns).1 ∧
    ((writeOrderBinFromPandas exampleAdapter emptyFileSystem "orders.bin" exampleColumns).1 =
        Except.ok () →
      addOrderQueueFromBin
          (writeOrderBinFromPandas exampleAdapter emptyFileSystem "orders.bin"
            exampleColumns).2 [] "orders.bin" =
        addOrderQueueFromPandas exampleAdapter [] exampleColumns) ∧
    (addOrderQueueFromPandas exampleAdapter [] exampleColumns).1 = Except.ok () ∧
    (addOrderQueueFromPandas exampleAdapter [] exampleColumns).2.map
      (fun o => (o.id, o.start, o.cancel, o.delivery, o.type)) =
        [(11, 1, 2, 3, OrderType.Buy), (12, 2, 3, 3, OrderType.Sell)] :=
  ⟨exampleAdapter_representable,
    (C11_binary_round_trip exampleAdapter exampleAdapter_representable exampleColumns
      emptyFileSystem "orders.bin" []).1,
    (C11_binary_round_trip exampleAdapter exampleAdapter_representable exampleColumns
      emptyFileSystem "orders.bin" []).2.1,
    rfl, by decide⟩

/-! ## Ingestion is all-or-nothing (C14) -/

theorem commitBatch_error (queue : List LimitOrder) (e : IngestError) :
    commitBatch queue (Except.error e) = (Except.error e, queue) := rfl

theorem commitBatch_ok (queue os : List LimitOrder) :
    commitBatch queue (Except.ok os) = (Except.ok (), queue ++ os) := rfl

theorem commitBatch_failed (queue : List LimitOrder)
    (b : Except IngestError (List LimitOrder))
    (h : (commitBatch queue b).1 ≠ Except.ok ()) : (commitBatch queue b).2 = queue := by
  cases b with
  | error e => rfl
  | ok os => exact absurd rfl h

theorem commitBatch_cases (queue : List LimitOrder)
    (b : Except IngestError (List LimitOrder)) :
    (∃ e, commitBatch queue b = (Except.error e, queue)) ∨
      (∃ os, b = Except.ok os ∧ commitBatch queue b = (Except.ok (), queue ++ os)) := by
  cases b with
  | error e => exact Or.inl ⟨e, rfl⟩
  | ok os => exact Or.inr ⟨os, rfl, rfl⟩

theorem Adapter.convert_unparsable (a : Adapter) (r : RawOrder)
    (h : a.parseTime r.start = none ∨ a.parseTime r.transaction = none ∨
      a.parseTime r.validity = none) : a.convert r = none := by
  unfold Adapter.convert
  split
  · rename_i t1 t2 t3 h1 h2 h3
    rcases h with h | h | h
    · rw [h1] at h
      exact absurd h (by simp)
    · rw [h2] at h
      exact absurd h (by simp)
    · rw [h3] at h
      exact absurd h (by simp)
  · rfl

theorem Adapter.convertRows_none (a : Adapter) (rs : List RawOrder) (r : RawOrder)
    (hr : r ∈ rs) (h : a.convert r = none) : a.convertRows rs = none := by
  induction rs with
  | nil => simp at hr
  | cons r1 rs ih =>
    simp only [Adapter.convertRows]
    rcases List.mem_cons.mp hr with e | hr2
    · rw [← e, h]
    · cases a.convert r1 with
      | none => rfl
      | some o => rw [ih hr2]

theorem Adapter.convertRows_length (a : Adapter) (rs : List RawOrder) (os : List LimitOrder)
    (h : a.convertRows rs = some os) : os.length = rs.length := by
  induction rs generalizing os with
  | nil =>
    simp only [Adapter.convertRows, Option.some.injEq] at h
    subst h
    rfl
  | cons r rs ih =>
    simp only [Adapter.convertRows] at h
    cases hc : a.convert r with
    | none => simp [hc] at h
    | some o1 =>
      cases hr : a.convertRows rs with
      | none => simp [hc, hr] at h
      | some os1 =>
        simp only [hc, hr, Option.some.injEq] at h
        rw [← h, List.length_cons, List.length_cons, ih os1 hr]

/-- C14. In the model of the ingestion, a call of `addOrderQueueFromPandas` or of
`addOrderQueueFromBin` that does not succeed leaves the order queue as it was before the
call.  `addOrderQueueFromPandas` fails, with the queue unchanged, when the column vectors
differ in length, when a timestamp of some row is unparsable, and when the placement times of
the converted orders are not monotonic; `addOrderQueueFromBin` fails, with the queue
unchanged, when the file is absent, is not a sequence of whole records, or holds orders whose
placement times are not monotonic.  In every case the queue after the call is the queue
before it, or the queue before it followed by the orders of all rows: never a proper part of
the input. -/
theorem C14_ingestion_atomic (a : Adapter) (queue : List LimitOrder) (c : OrderColumns)
    (fs : FileSystem) (pathName : String) :
    ((addOrderQueueFromPandas a queue c).1 ≠ Except.ok () →
      (addOrderQueueFromPandas a queue c).2 = queue) ∧
    (c.sameLength = false →
      addOrderQueueFromPandas a queue c = (Except.error IngestError.lengthMismatch, queue)) ∧
    ((∃ r ∈ c.rows, a.parseTime r.start = none ∨ a.parseTime r.transaction = none ∨
        a.parseTime r.validity = none) →
      (addOrderQueueFromPandas a queue c).1 ≠ Except.ok () ∧
        (addOrderQueueFromPandas a queue c).2 = queue) ∧
    (∀ os, a.convertRows c.rows = some os → ¬ arrivalMonotone os →
      (addOrderQueueFromPandas a queue c).1 ≠ Except.ok () ∧
        (addOrderQueueFromPandas a queue c).2 = queue) ∧
    ((addOrderQueueFromPandas a queue c).1 = Except.ok () →
      ∃ os, a.convertRows c.rows = some os ∧ os.length = c.rows.length ∧
        c.rows.length = c.ids.length ∧
        (addOrderQueueFromPandas a queue c).2 = queue ++ os) ∧
    ((addOrderQueueFromBin fs queue pathName).1 ≠ Except.ok () →
      (addOrderQueueFromBin fs queue pathName).2 = queue) ∧
    (fs pathName = none →
      addOrderQueueFromBin fs queue pathName = (Except.error IngestError.noFile, queue)) ∧
    (∀ bs, fs pathName = some bs → decodeOrders bs = none →
      addOrderQueueFromBin fs queue pathName = (Except.error IngestError.badFile, queue)) ∧
    (∀ bs os, fs pathName = some bs → decodeOrders bs = some os → ¬ arrivalMonotone os →
      addOrderQueueFromBin fs queue pathName =
        (Except.error IngestError.nonMonotonic, queue)) ∧
    ((addOrderQueueFromBin fs queue pathName).1 = Except.ok () →
      ∃ bs os, fs pathName = some bs ∧ decodeOrders bs = some os ∧
        (addOrderQueueFromBin fs queue pathName).2 = queue ++ os) := by
  refine ⟨commitBatch_failed queue _, ?_, ?_, ?_, ?_, commitBatch_failed queue _, ?_, ?_, ?_,
    ?_⟩
  · intro hl
    unfold addOrderQueueFromPandas Adapter.convertColumns
    rw [if_pos hl, commitBatch_error]
  · rintro ⟨r, hr, hbad⟩
    have hrows := Adapter.convertRows_none a c.rows r hr (Adapter.convert_unparsable a r hbad)
    have hconv : ∃ e, a.convertColumns c = Except.error e := by
      unfold Adapter.convertColumns
      split_ifs
      · exact ⟨_, rfl⟩
      · rw [hrows]
        exact ⟨_, rfl⟩
    obtain ⟨e, he⟩ := hconv
    unfold addOrderQueueFromPandas
    rw [he, commitBatch_error]
    exact ⟨by simp, rfl⟩
  · intro os hrows hm
    have hconv : ∃ e, a.convertColumns c = Except.error e := by
      unfold Adapter.convertColumns
      split_ifs
      · exact ⟨_, rfl⟩
      · rw [hrows]
        simp only [checkBatch, if_neg hm]
        exact ⟨_, rfl⟩
    obtain ⟨e, he⟩ := hconv
    unfold addOrderQueueFromPandas
    rw [he, commitBatch_error]
    exact ⟨by simp, rfl⟩
  · intro hok
    unfold addOrderQueueFromPandas at hok ⊢
    cases hc : a.convertColumns c with
    | error e =>
      rw [hc, commitBatch_error] at hok
      simp at hok
    | ok os =>
      obtain ⟨hl, hrows, _⟩ := Adapter.convertColumns_ok a c os hc
      refine ⟨os, hrows, Adapter.convertRows_length a _ os hrows, ?_, ?_⟩
      · simp only [OrderColumns.sameLength, Bool.and_eq_true, beq_iff_eq] at hl
        obtain ⟨⟨⟨⟨⟨⟨h1, h2⟩, h3⟩, h4⟩, h5⟩, h6⟩, h7⟩ := hl
        simp only [OrderColumns.rows, List.length_map, List.length_zip, h1, h2, h3, h4, h5,
          h6, h7, min_self]
      · rw [commitBatch_ok]
  · intro hf
    unfold addOrderQueueFromBin readOrderBin
    rw [hf, commitBatch_error]
  · intro bs hf hd
    unfold addOrderQueueFromBin readOrderBin
    rw [hf]
    simp only [hd, commitBatch_error]
  · intro bs os hf hd hm
    unfold addOrderQueueFromBin readOrderBin
    rw [hf]
    simp only [hd, checkBatch, if_neg hm, commitBatch_error]
  · intro hok
    unfold addOrderQueueFromBin at hok ⊢
    cases hf : fs pathName with
    | none =>
      simp only [readOrderBin, hf, commitBatch_error] at hok
      simp at hok
    | some bs =>
      cases hd : decodeOrders bs with
      | none =>
        simp only [readOrderBin, hf, hd, commitBatch_error] at hok
        simp at hok
      | some os =>
        by_cases hm : arrivalMonotone os
        · refine ⟨bs, os, rfl, hd, ?_⟩
          simp only [readOrderBin, hf, hd, checkBatch, if_pos hm, commitBatch_ok]
        · simp only [readOrderBin, hf, hd, checkBatch, if_neg hm, commitBatch_error] at hok
          simp at hok

/-- The unparsable validity `"never"` in the second row of `brokenColumns`, the short price
column of `shortColumns` and the descending placement times of `descendingColumns` each make
the call fail and leave the queue, here holding the buy order of the scenario, as it was;
no file makes `addOrderQueueFromBin` fail. -/
theorem C14_ingestion_atomic_witness :
    ((addOrderQueueFromPandas exampleAdapter [scenarioBuy] brokenColumns).1 ≠ Except.ok () ∧
      (addOrderQueueFromPandas exampleAdapter [scenarioBuy] brokenColumns).2 =
        [scenarioBuy]) ∧
    addOrderQueueFromPandas exampleAdapter [scenarioBuy] shortColumns =
      (Except.error IngestError.lengthMismatch, [scenarioBuy]) ∧
    ((addOrderQueueFromPandas exampleAdapter [scenarioBuy] descendingColumns).1 ≠
        Except.ok () ∧
      (addOrderQueueFromPandas exampleAdapter [scenarioBuy] descendingColumns).2 =
        [scenarioBuy]) ∧
    addOrderQueueFromBin emptyFileSystem [scenarioBuy] "orders.bin" =
      (Except.error IngestError.noFile, [scenarioBuy]) :=
  ⟨(C14_ingestion_atomic exampleAdapter [scenarioBuy] brokenColumns emptyFileSystem
      "orders.bin").2.2.1
      ⟨⟨12, 12, "SELL", "t3", "t2", "never", Double.finite 1, Double.finite 1⟩,
        by simp [OrderColumns.rows, brokenColumns, exampleColumns],
        Or.inr (Or.inr (by decide))⟩,
    (C14_ingestion_atomic exampleAdapter [scenarioBuy] shortColumns emptyFileSystem
      "orders.bin").2.1 (by decide),
    (C14_ingestion_atomic exampleAdapter [scenarioBuy] descendingColumns emptyFileSystem
      "orders.bin").2.2.2.1
      [exampleOrder ⟨11, 11, "BUY", "t3", "t2", "t2", Double.finite 1, Double.finite 1⟩ 3 2 2,
        exampleOrder ⟨12, 12, "SELL", "t3", "t1", "t3", Double.finite 1, Double.finite 1⟩ 3 1 3]
      (by rfl) (by decide),
    (C14_ingestion_atomic exampleAdapter [scenarioBuy] descendingColumns emptyFileSystem
      "orders.bin").2.2.2.2.2.2.1 rfl⟩

/-! ## Unreported fields (C21) -/

theorem map_eq_of_forall2 {α β : Type} (R : α → α → Prop) (f : α → β)
    (hf : ∀ a b, R a b → f a = f b) (l1 l2 : List α) (h : List.Forall₂ R l1 l2) :
    l1.map f = l2.map f := by
  induction h with
  | nil => rfl
  | cons hab _ ih => rw [List.map_cons, List.map_cons, hf _ _ hab, ih]

theorem BiteBinding.decisionRecord_congr (a b : DecisionRecord)
    (h : a.agreesApartFromFinalReward b) :
    BiteBinding.decisionRecord a = BiteBinding.decisionRecord b := by
  obtain ⟨h1, h2, h3, h4, h5⟩ := h
  simp only [BiteBinding.decisionRecord, h1, h2, h3, h4, h5]

theorem BiteBinding.execOrderRecord_congr (fmt : EpochFormat) (a b : ExecMarketOrder)
    (h : a.agreesApartFromPrae b) :
    BiteBinding.execOrderRecord fmt a = BiteBinding.execOrderRecord fmt b := by
  obtain ⟨h1, h2, h3, h4, h5, h6, h7, h8, h9, h10⟩ := h
  simp only [BiteBinding.execOrderRecord, h1, h2, h3, h4, h5, h6, h7, h8, h9, h10]

/-- C21. For every two states of the core whose log collections differ only in `finalReward`
of decision records and in `praeFinalPos`, `praeFinalStor` and `praeInitStorage` of executed
and removed entries, `getLogs` returns the same 7-tuple, in `src/bite/_bite.cpp` and in
`src/bitepy/_bite.cpp`. -/
theorem C21_unreported_fields (fmt : EpochFormat) (s1 s2 : Simulation)
    (h : s1.agreesOnReported s2) :
    BiteBinding.getLogs fmt s1 = BiteBinding.getLogs fmt s2 ∧
    BitepyBinding.getLogs fmt s1 = BitepyBinding.getLogs fmt s2 := by
  obtain ⟨hd, hp, ha, he, hf, hr, hb⟩ := h
  have e : BiteBinding.getLogs fmt s1 = BiteBinding.getLogs fmt s2 := by
    rw [bite_getLogs_eq_map, bite_getLogs_eq_map, hp, ha, hf, hb,
      map_eq_of_forall2 _ _ BiteBinding.decisionRecord_congr _ _ hd,
      map_eq_of_forall2 _ _ (BiteBinding.execOrderRecord_congr fmt) _ _ he,
      BiteBinding.removedOrderRecord_eq_exec,
      map_eq_of_forall2 _ _ (BiteBinding.execOrderRecord_congr fmt) _ _ hr]
  exact ⟨e, by rw [bitepy_getLogs_eq_bite, bitepy_getLogs_eq_bite, e]⟩

theorem simulationA_agrees_simulationB : simulationA.agreesOnReported simulationB :=
  ⟨List.Forall₂.cons ⟨rfl, rfl, rfl, rfl, rfl⟩ List.Forall₂.nil, rfl, rfl,
    List.Forall₂.cons ⟨rfl, rfl, rfl, rfl, rfl, rfl, rfl, rfl, rfl, rfl⟩ List.Forall₂.nil, rfl,
    List.Forall₂.cons ⟨rfl, rfl, rfl, rfl, rfl, rfl, rfl, rfl, rfl, rfl⟩ List.Forall₂.nil, rfl⟩

/-- The states `simulationA` and `simulationB` differ in the final reward of their decision
record and in the three `prae...` members of their executed and removed entry, and `getLogs`
returns the same tuple for both. -/
theorem C21_unreported_fields_witness :
    simulationA.agreesOnReported simulationB ∧
    simulationA.getDecisionData ≠ simulationB.getDecisionData ∧
    simulationA.getExOrders ≠ simulationB.getExOrders ∧
    simulationA.getRemOrders ≠ simulationB.getRemOrders ∧
    BiteBinding.getLogs exampleFormat simulationA =
      BiteBinding.getLogs exampleFormat simulationB ∧
    BitepyBinding.getLogs exampleFormat simulationA =
      BitepyBinding.getLogs exampleFormat simulationB := by
  refine ⟨simulationA_agrees_simulationB, ?_, ?_, ?_,
    C21_unreported_fields exampleFormat simulationA simulationB
      simulationA_agrees_simulationB⟩
  · intro h
    have h2 : decisionA.finalReward = decisionB.finalReward :=
      congrArg DecisionRecord.finalReward (List.head_eq_of_cons_eq h)
    have h3 : (5 : ℚ) = 99 := Double.finite.inj h2
    norm_num at h3
  · intro h
    have h2 : saleOrder.praeFinalPos = saleOrderB.praeFinalPos :=
      congrArg ExecMarketOrder.praeFinalPos (List.head_eq_of_cons_eq h)
    exact absurd h2 (by decide)
  · intro h
    have h2 : saleOrder.praeFinalPos = saleOrderB.praeFinalPos :=
      congrArg ExecMarketOrder.praeFinalPos (List.head_eq_of_cons_eq h)
    exact absurd h2 (by decide)

/-! ## Removed entries are reported like executed entries (C22) -/

theorem BiteBinding.execOrderRecord_eq_items (fmt : EpochFormat) (record : ExecMarketOrder) :
    BiteBinding.execOrderRecord fmt record = execItems fmt record :=
  BiteBinding.execOrderRecord_eq fmt record

/-- C22. For every list `L` of `ExecMarketOrder` entries, the removed-order list that
`getLogs` builds when `getRemOrders` returns `L` equals the executed-order list that it
builds when `getExOrders` returns `L`, in `src/bite/_bite.cpp` and in `src/bitepy/_bite.cpp`:
both are the list of the records of the entries of `L`, the record of an entry holding the
ten keys `dp_run`, `time`, `last_solve_time`, `hour`, `reward`, `reward_incl_deg_costs`,
`volume`, `type`, `final_pos`, `final_stor` in this order, with reward and
reward_incl_deg_costs divided by `1000.0` and volume, final_pos and final_stor by `10.0`. -/
theorem C22_removed_like_executed (fmt : EpochFormat) (s1 s2 : Simulation)
    (L : List ExecMarketOrder) (hrem : s1.getRemOrders = L) (hex : s2.getExOrders = L) :
    (BiteBinding.getLogs fmt s1).2.2.2.2.2.1 = (BiteBinding.getLogs fmt s2).2.2.2.1 ∧
    (BitepyBinding.getLogs fmt s1).2.2.2.2.2.1 = (BitepyBinding.getLogs fmt s2).2.2.2.1 ∧
    (BiteBinding.getLogs fmt s1).2.2.2.2.2.1 = L.map (execItems fmt) ∧
    (BiteBinding.getLogs fmt s2).2.2.2.1 = L.map (execItems fmt) ∧
    (∀ record : ExecMarketOrder, (execItems fmt record).map Prod.fst =
      ["dp_run", "time", "last_solve_time", "hour", "reward", "reward_incl_deg_costs",
        "volume", "type", "final_pos", "final_stor"]) := by
  have e1 : (BiteBinding.getLogs fmt s1).2.2.2.2.2.1 = L.map (execItems fmt) := by
    rw [bite_getLogs_eq_map, BiteBinding.removedOrderRecord_eq_exec, hrem]
    exact List.map_congr_left (fun r _ => BiteBinding.execOrderRecord_eq_items fmt r)
  have e2 : (BiteBinding.getLogs fmt s2).2.2.2.1 = L.map (execItems fmt) := by
    rw [bite_getLogs_eq_map, hex]
    exact List.map_congr_left (fun r _ => BiteBinding.execOrderRecord_eq_items fmt r)
  refine ⟨by rw [e1, e2], ?_, e1, e2, fun _ => rfl⟩
  rw [bitepy_getLogs_eq_bite, bitepy_getLogs_eq_bite, e1, e2]

/-- The state `ledgerSimulation` returns the list `[saleOrder]` from `getRemOrders` and from
`getExOrders`: the removed-order list and the executed-order list of `getLogs` are equal. -/
theorem C22_removed_like_executed_witness :
    ledgerSimulation.getRemOrders = [saleOrder] ∧ simulationA.getExOrders = [saleOrder] ∧
    (BiteBinding.getLogs exampleFormat ledgerSimulation).2.2.2.2.2.1 =
      (BiteBinding.getLogs exampleFormat simulationA).2.2.2.1 ∧
    (BitepyBinding.getLogs exampleFormat ledgerSimulation).2.2.2.2.2.1 =
      (BitepyBinding.getLogs exampleFormat simulationA).2.2.2.1 ∧
    (BiteBinding.getLogs exampleFormat ledgerSimulation).2.2.2.2.2.1 =
      [execItems exampleFormat saleOrder] :=
  ⟨rfl, rfl,
    (C22_removed_like_executed exampleFormat ledgerSimulation simulationA [saleOrder] rfl
      rfl).1,
    (C22_removed_like_executed exampleFormat ledgerSimulation simulationA [saleOrder] rfl
      rfl).2.1,
    (C22_removed_like_executed exampleFormat ledgerSimulation simulationA [saleOrder] rfl
      rfl).2.2.1⟩
